import Mathlib

/-!
# Priority rate limiter and scheduled queue: a verification development

Shallow embedding of `common/quotas/priority_rate_limiter_impl.go` (namespace
`Quotas`) and of `service/history/queues/queue_scheduled.go` (namespace
`Queues`). The definitions of both come first, the theorems after them.

* Go maps are association lists with pairwise distinct keys; the order of the
  entries stands for the (unspecified) iteration order of `range`.
* Limiter objects live in a store indexed by object identity; every call made
  on a collaborator (a basic limiter, a reservation, a timer) is appended to a
  call log, so that "which calls were made" is a property of the final world.
* A Go panic is the `error` branch of `Except PanicValue`; the world reached
  when the panic is raised is returned next to it.
-/

namespace Quotas

/-! ## Go maps keyed by `int` -/

/-- A Go `map[int]V`: finitely many entries with pairwise distinct keys. -/
structure GoMap (V : Type) where
  entries : List (Int × V)
  nodupKeys : (entries.map Prod.fst).Nodup

namespace GoMap

variable {V : Type}

/-- The empty map, `make(map[int]V)`. -/
def empty : GoMap V := ⟨[], List.nodup_nil⟩

/-- The keys, in the order `for k := range m` visits them. -/
def keys (m : GoMap V) : List Int := m.entries.map Prod.fst

/-- Number of entries, `len(m)`. -/
def len (m : GoMap V) : Nat := m.entries.length

/-- The two-valued lookup `v, ok := m[k]`. -/
def lookup (m : GoMap V) (k : Int) : Option V := m.entries.lookup k

/-- The assignment `m[k] = v`. -/
def set (m : GoMap V) (k : Int) (v : V) : GoMap V :=
  ⟨(k, v) :: m.entries.filter (fun e => decide (e.1 ≠ k)), by
    rw [List.map_cons, List.nodup_cons]
    refine ⟨?_, ?_⟩
    · intro h
      obtain ⟨e, he, hk⟩ := List.mem_map.1 h
      have := (List.mem_filter.1 he).2
      simp at this
      exact this hk
    · exact List.Nodup.sublist (List.Sublist.map _ (List.filter_sublist _)) m.nodupKeys⟩

end GoMap

/-! ## Time -/

/-- An instant (`time.Time`), counted in nanoseconds from the zero time. -/
abbrev Time := Int

/-- Smallest `time.Duration` (an `int64` count of nanoseconds). -/
def minDuration : Int := -9223372036854775808

/-- Largest `time.Duration`. -/
def maxDuration : Int := 9223372036854775807

/-- A `time.Duration`: an `int64` count of nanoseconds. -/
def Duration : Type := { d : Int // minDuration ≤ d ∧ d ≤ maxDuration }

instance : DecidableEq Duration :=
  inferInstanceAs (DecidableEq { d : Int // minDuration ≤ d ∧ d ≤ maxDuration })

instance : LT Duration := ⟨fun a b => a.val < b.val⟩

instance (a b : Duration) : Decidable (a < b) := inferInstanceAs (Decidable (a.val < b.val))

/-- The zero duration. -/
def Duration.zero : Duration := ⟨0, by decide⟩

/-- Modelled from the spec: the constant `InfDuration`, declared elsewhere in
the package. Without a deadline the wait is unbounded, so it is the largest
duration. -/
def InfDuration : Duration := ⟨maxDuration, by decide⟩

/-- The method `t.Sub(u)` of `time.Time`: the difference `t - u`, saturated to
the range of `time.Duration`. -/
def Time.Sub (t u : Time) : Duration :=
  ⟨max minDuration (min (t - u) maxDuration),
    le_max_left _ _, max_le (by decide) (min_le_right _ _)⟩

/-! ## Requests, limiters, reservations -/

/-- Modelled from the spec: the type `Request`, declared elsewhere in the
package. A request carries the requested token count `Token`, the one field
the priority limiter reads; `API` stands for what a priority function may
inspect. -/
structure Request where
  API : String
  Token : Int
  deriving DecidableEq, Repr

/-- The type `RequestPriorityFn`. -/
abbrev RequestPriorityFn := Request → Int

/-- Modelled from the spec: the interface `RequestRateLimiter`, declared
elsewhere in the package, as a basic limiter object exposing
`Allow(now, request)` and `Reserve(now, request)`. `id` is the identity of the
object; both methods read and update the state of that object and nothing
else. `σ` is the type of limiter states and `R` the type of the reservations
basic limiters hand out. -/
structure RequestRateLimiter (σ R : Type) where
  id : Nat
  Allow : Time → Request → σ → Bool × σ
  Reserve : Time → Request → σ → R × σ

/-- Modelled from the spec: a value of the interface `Reservation` as it
leaves the priority limiter, either a reservation of a basic limiter passed on
as it is, or the composite built by the constructor
`NewPriorityReservation(decidingReservation, otherReservations)`, declared
elsewhere in the package, which aggregates one deciding reservation and the
reservations of the lower tiers. -/
inductive Reservation (R : Type) where
  | basic (reservation : R)
  | NewPriorityReservation (decidingReservation : R) (otherReservations : List R)
  deriving DecidableEq, Repr

/-- Modelled from the spec: the methods of the interface `Reservation`, an OK
flag, a delay-from-now function and a cancellation operation. They are
implemented elsewhere and are taken as given; `CancelAt` may update the state
of any limiter object. -/
structure ReservationMethods (σ R : Type) where
  OK : Reservation R → Bool
  DelayFrom : Reservation R → Time → Duration
  CancelAt : Reservation R → Time → (Nat → σ) → (Nat → σ)

/-- A call made on a collaborator. -/
inductive Call (R : Type) where
  | Allow (limiter : Nat) (now : Time) (request : Request)
  | Reserve (limiter : Nat) (now : Time) (request : Request)
  | CancelAt (reservation : Reservation R) (now : Time)
  | NewTimer (d : Duration)
  | Stop
  deriving DecidableEq

/-- What a call on a collaborator returned. -/
inductive Returned (R : Type) where
  | allow (allowed : Bool)
  | reservation (reservation : R)
  | nothing
  deriving DecidableEq

/-- One entry of the call log: a call and what it returned. -/
structure Event (R : Type) where
  call : Call R
  returned : Returned R
  deriving DecidableEq

/-- The world the priority limiter runs in: the state of every limiter object,
by identity, and the log of the calls made so far, oldest first. -/
structure World (σ R : Type) where
  state : Nat → σ
  calls : List (Event R)

namespace World

variable {σ R : Type}

/-- The call `limiter.Allow(now, request)`. -/
def callAllow (w : World σ R) (limiter : RequestRateLimiter σ R) (now : Time)
    (request : Request) : Bool × World σ R :=
  let r := limiter.Allow now request (w.state limiter.id)
  (r.1, ⟨Function.update w.state limiter.id r.2, w.calls ++ [⟨Call.Allow limiter.id now request, Returned.allow r.1⟩]⟩)

/-- The call `limiter.Reserve(now, request)`. -/
def callReserve (w : World σ R) (limiter : RequestRateLimiter σ R) (now : Time)
    (request : Request) : R × World σ R :=
  let r := limiter.Reserve now request (w.state limiter.id)
  (r.1, ⟨Function.update w.state limiter.id r.2, w.calls ++ [⟨Call.Reserve limiter.id now request, Returned.reservation r.1⟩]⟩)

/-- The call `reservation.CancelAt(now)`. -/
def callCancelAt (w : World σ R) (methods : ReservationMethods σ R)
    (reservation : Reservation R) (now : Time) : World σ R :=
  ⟨methods.CancelAt reservation now w.state,
    w.calls ++ [⟨Call.CancelAt reservation now, Returned.nothing⟩]⟩

/-- A call that returns nothing and leaves every limiter alone. -/
def record (w : World σ R) (c : Call R) : World σ R :=
  ⟨w.state, w.calls ++ [⟨c, Returned.nothing⟩]⟩

end World

/-- The value a Go panic carries: the argument of an explicit `panic`, or one
of the two run-time errors of indexing and slicing. -/
inductive PanicValue where
  | message (msg : String)
  | indexOutOfRange
  | sliceBoundsOutOfRange
  deriving DecidableEq, Repr

/-! ## The priority rate limiter -/

/-- The struct `PriorityRateLimiterImpl`. -/
structure PriorityRateLimiterImpl (σ R : Type) where
  requestPriorityFn : RequestPriorityFn
  priorityToRateLimiters : GoMap (RequestRateLimiter σ R)
  priorityToIndex : GoMap Nat
  rateLimiters : List (RequestRateLimiter σ R)

variable {σ R : Type}

/-- The call `sort.Slice(priorities, less)` with `less` the order `<` on the
priority values: the priorities in ascending order. -/
def sortPriorities (priorities : List Int) : List Int :=
  priorities.insertionSort (fun a b => a ≤ b)

/-- The loop `for index, priority := range priorities` of the constructor,
started at position `index` with the map and the slice built so far. The
priorities are keys of the map, so the lookup finds a limiter at every step. -/
def buildLadder (priorityToRateLimiters : GoMap (RequestRateLimiter σ R)) :
    List Int → Nat → GoMap Nat → List (RequestRateLimiter σ R) →
      GoMap Nat × List (RequestRateLimiter σ R)
  | [], _, priorityToIndex, rateLimiters => (priorityToIndex, rateLimiters)
  | priority :: rest, index, priorityToIndex, rateLimiters =>
    buildLadder priorityToRateLimiters rest (index + 1)
      (priorityToIndex.set priority index)
      (rateLimiters ++ (priorityToRateLimiters.lookup priority).toList)

/-- The constructor `NewPriorityRateLimiter`. -/
def NewPriorityRateLimiter (requestPriorityFn : RequestPriorityFn)
    (priorityToRateLimiters : GoMap (RequestRateLimiter σ R)) :
    PriorityRateLimiterImpl σ R :=
  let priorities := sortPriorities priorityToRateLimiters.keys
  let built := buildLadder priorityToRateLimiters priorities 0 GoMap.empty []
  { requestPriorityFn := requestPriorityFn
    priorityToRateLimiters := priorityToRateLimiters
    priorityToIndex := built.1
    rateLimiters := built.2 }

namespace PriorityRateLimiterImpl

/-- The message of the panic raised by `getRateLimiters`. -/
def mismatchMessage : String :=
  "Request to priority & priority to rate limiter does not match"

/-- The method `getRateLimiters`: the deciding limiter and the consuming
limiters of a request. A missing key of `priorityToIndex` reads as index `0`;
the index expression `rateLimiters[rateLimiterIndex]` and then the slice
expression `rateLimiters[rateLimiterIndex+1:]` panic when out of range. -/
def getRateLimiters (p : PriorityRateLimiterImpl σ R) (request : Request) :
    Except PanicValue (RequestRateLimiter σ R × List (RequestRateLimiter σ R)) :=
  let priority := p.requestPriorityFn request
  match p.priorityToRateLimiters.lookup priority with
  | none => Except.error (PanicValue.message mismatchMessage)
  | some _ =>
    let rateLimiterIndex := (p.priorityToIndex.lookup priority).getD 0
    match p.rateLimiters[rateLimiterIndex]? with
    | none => Except.error PanicValue.indexOutOfRange
    | some decidingRateLimiter =>
      if p.rateLimiters.length < rateLimiterIndex + 1 then
        Except.error PanicValue.sliceBoundsOutOfRange
      else Except.ok (decidingRateLimiter, p.rateLimiters.drop (rateLimiterIndex + 1))

/-- The loop `for _, limiter := range consumeRateLimiters` of `Allow`: every
limiter is charged by `Reserve` and the reservation is dropped. -/
def consumeAll (now : Time) (request : Request) :
    List (RequestRateLimiter σ R) → World σ R → World σ R
  | [], w => w
  | limiter :: rest, w => consumeAll now request rest (w.callReserve limiter now request).2

/-- The method `Allow`. -/
def Allow (p : PriorityRateLimiterImpl σ R) (now : Time) (request : Request)
    (w : World σ R) : World σ R × Except PanicValue Bool :=
  match p.getRateLimiters request with
  | Except.error e => (w, Except.error e)
  | Except.ok (decidingRateLimiter, consumeRateLimiters) =>
    let r := w.callAllow decidingRateLimiter now request
    let allow := r.1
    if !allow then (r.2, Except.ok false)
    else (consumeAll now request consumeRateLimiters r.2, Except.ok allow)

/-- The loop `for index, limiter := range consumeRateLimiters` of `Reserve`:
the reservations of the limiters, in the order of the slice. -/
def reserveAll (now : Time) (request : Request) :
    List (RequestRateLimiter σ R) → World σ R → List R × World σ R
  | [], w => ([], w)
  | limiter :: rest, w =>
    let r := w.callReserve limiter now request
    let rs := reserveAll now request rest r.2
    (r.1 :: rs.1, rs.2)

/-- The method `Reserve`. -/
def Reserve (p : PriorityRateLimiterImpl σ R) (methods : ReservationMethods σ R)
    (now : Time) (request : Request) (w : World σ R) :
    World σ R × Except PanicValue (Reservation R) :=
  match p.getRateLimiters request with
  | Except.error e => (w, Except.error e)
  | Except.ok (decidingRateLimiter, consumeRateLimiters) =>
    let r := w.callReserve decidingRateLimiter now request
    let decidingReservation := r.1
    if !methods.OK (Reservation.basic decidingReservation) then
      (r.2, Except.ok (Reservation.basic decidingReservation))
    else
      let rs := reserveAll now request consumeRateLimiters r.2
      (rs.2, Except.ok (Reservation.NewPriorityReservation decidingReservation rs.1))

end PriorityRateLimiterImpl

/-! ### Wait -/

/-- The error of a done context: `context.Canceled` or
`context.DeadlineExceeded`. -/
inductive ContextError where
  | Canceled
  | DeadlineExceeded
  deriving DecidableEq, Repr

/-- What `Wait` observes of its `context.Context` on entry: `Err` is
`ctx.Err()`, which is non-nil exactly when the channel `ctx.Done()` is ready,
and `Deadline` is the two-valued `ctx.Deadline()`. -/
structure Context where
  Err : Option ContextError
  Deadline : Option Time

/-- The case the final `select` of `Wait` takes: the timer channel `t.C`, or
`ctx.Done()` together with the `ctx.Err()` and the `time.Now()` read in that
branch. -/
inductive Selected where
  | timer
  | done (err : ContextError) (now : Time)

/-- A non-nil Go `error` returned by `Wait`. -/
inductive Error where
  | context (err : ContextError)
  | errorf (msg : String)
  deriving DecidableEq, Repr

/-- The value `fmt.Errorf("rate: Wait(n=%d) would exceed context deadline", request.Token)`. -/
def waitError (request : Request) : Error :=
  Error.errorf ("rate: Wait(n=" ++ toString request.Token ++ ") would exceed context deadline")

namespace PriorityRateLimiterImpl

/-- The method `Wait`. The environment supplies `now`, the value read by
`time.Now().UTC()`, and `selected`, the case taken by the final `select` should
the method get there. A nil error is `none`. -/
def Wait (p : PriorityRateLimiterImpl σ R) (methods : ReservationMethods σ R)
    (ctx : Context) (now : Time) (selected : Selected) (request : Request)
    (w : World σ R) : World σ R × Except PanicValue (Option Error) :=
  match ctx.Err with
  | some err => (w, Except.ok (some (Error.context err)))
  | none =>
    match p.Reserve methods now request w with
    | (w1, Except.error e) => (w1, Except.error e)
    | (w1, Except.ok reservation) =>
      if !methods.OK reservation then (w1, Except.ok (some (waitError request)))
      else
        let delay := methods.DelayFrom reservation now
        if delay = Duration.zero then (w1, Except.ok none)
        else
          let waitLimit :=
            match ctx.Deadline with
            | some deadline => Time.Sub deadline now
            | none => InfDuration
          if waitLimit < delay then
            (w1.callCancelAt methods reservation now, Except.ok (some (waitError request)))
          else
            let w2 := w1.record (Call.NewTimer delay)
            match selected with
            | Selected.timer => (w2.record Call.Stop, Except.ok none)
            | Selected.done err cancelNow =>
              ((w2.callCancelAt methods reservation cancelNow).record Call.Stop,
                Except.ok (some (Error.context err)))

end PriorityRateLimiterImpl

/-! ## A concrete ladder -/

/-- A bucket of `capacity` units: the state counts the units consumed so far,
and a request is admitted when its tokens still fit. -/
def bucket (id capacity : Nat) : RequestRateLimiter Nat Bool where
  id := id
  Allow := fun _ request consumed =>
    if consumed + request.Token.toNat ≤ capacity then (true, consumed + request.Token.toNat)
    else (false, consumed)
  Reserve := fun _ request consumed =>
    if consumed + request.Token.toNat ≤ capacity then (true, consumed + request.Token.toNat)
    else (false, consumed)

/-- Reservations of buckets: the flag is the verdict, there is never a delay,
and cancelling gives nothing back. -/
def bucketMethods : ReservationMethods Nat Bool where
  OK := fun r =>
    match r with
    | Reservation.basic ok => ok
    | Reservation.NewPriorityReservation ok _ => ok
  DelayFrom := fun _ _ => Duration.zero
  CancelAt := fun _ _ s => s

/-- Reservations of buckets that ask for a delay of ten nanoseconds. -/
def delayedMethods : ReservationMethods Nat Bool where
  OK := bucketMethods.OK
  DelayFrom := fun _ _ => ⟨10, by decide⟩
  CancelAt := fun _ _ s => s

/-- Priorities 0, 1 and 2, bound to buckets 10, 11 and 12 of `c0`, `c1` and
`c2` units; the map lists them out of order. -/
def ladderMap (c0 c1 c2 : Nat) : GoMap (RequestRateLimiter Nat Bool) :=
  ⟨[(2, bucket 12 c2), (0, bucket 10 c0), (1, bucket 11 c1)], by simp⟩

/-- Every request has priority 1. -/
def priorityOne : RequestPriorityFn := fun _ => 1

/-- A request for one token. -/
def oneToken : Request := ⟨"poll", 1⟩

/-- Every request has priority 7, which the ladders above do not bind. -/
def prioritySeven : RequestPriorityFn := fun _ => 7

/-- A context that is not done on entry, with the given deadline. -/
def liveContext (deadline : Option Time) : Context := ⟨none, deadline⟩

/-- A context that is already cancelled on entry. -/
def cancelledContext : Context := ⟨some ContextError.Canceled, none⟩

/-- A world in which nothing was consumed and nothing was called. -/
def freshWorld : World Nat Bool := ⟨fun _ => 0, []⟩


/-- The limiters bound to the priority values strictly greater than `priority`
(the lower-priority tiers), by ascending priority value. -/
def lowerTiers (priorityToRateLimiters : GoMap (RequestRateLimiter σ R)) (priority : Int) :
    List (RequestRateLimiter σ R) :=
  ((sortPriorities priorityToRateLimiters.keys).filter (fun q => decide (priority < q))).filterMap
    priorityToRateLimiters.lookup

/-- The limiters of a map are pairwise distinct objects. -/
def DistinctLimiters (priorityToRateLimiters : GoMap (RequestRateLimiter σ R)) : Prop :=
  (priorityToRateLimiters.entries.map (fun e => e.2.id)).Nodup

instance (priorityToRateLimiters : GoMap (RequestRateLimiter σ R)) :
    Decidable (DistinctLimiters priorityToRateLimiters) :=
  inferInstanceAs (Decidable (List.Nodup _))

/-- The limiter a call is made on, if it is a call on a limiter. -/
def Call.limiter : Call R → Option Nat
  | Call.Allow limiter _ _ => some limiter
  | Call.Reserve limiter _ _ => some limiter
  | _ => none

/-- The calls logged on the limiter `id`, oldest first. -/
def World.callsOn (w : World σ R) (id : Nat) : List (Call R) :=
  (w.calls.map Event.call).filter (fun c => decide (c.limiter = some id))

/-- The entry logged for `limiter.Reserve(now, request)` returning `reservation`. -/
def reserveEvent (now : Time) (request : Request) (limiter : RequestRateLimiter σ R)
    (reservation : R) : Event R :=
  ⟨Call.Reserve limiter.id now request, Returned.reservation reservation⟩

/-! ## Operations on instants -/

/-- The zero time `time.Time{}`, from which instants are counted. -/
def Time.zero : Time := 0

/-- The method `t.IsZero()`. -/
def Time.IsZero (t : Time) : Bool := decide (t = Time.zero)

/-- The method `t.Before(u)`. -/
def Time.Before (t u : Time) : Bool := decide (t < u)

/-- The method `t.After(u)`. -/
def Time.After (t u : Time) : Bool := decide (u < t)

/-- The method `t.Add(d)`. -/
def Time.Add (t : Time) (d : Duration) : Time := t + d.val

/-- The method `t.Truncate(d)`: `t` rounded down to a multiple of `d` since the
zero time; for `d <= 0` the instant is returned unchanged. -/
def Time.Truncate (t : Time) (d : Duration) : Time :=
  if d.val ≤ 0 then t else t - t % d.val

/-- The constant `time.Millisecond`. -/
def Millisecond : Duration := ⟨1000000, by decide⟩

/-- The constant `time.Second`. -/
def Second : Duration := ⟨1000000000, by decide⟩

/-- The constant `time.Minute`. -/
def Minute : Duration := ⟨60000000000, by decide⟩

end Quotas

/-! # The scheduled queue

Shallow embedding of `service/history/queues/queue_scheduled.go`. The queue is
a record of the fields the methods read and write; every call on a
collaborator (logger, base queue, timer gate, store, rate limiter) and every
entry into `notify` is appended to `trace`, oldest first. What the
collaborators answer is an input of the method that asks.
-/

namespace Queues

open Quotas (Time Duration Request Millisecond Second Minute)

/-! ## Tasks, keys, ranges -/

/-- Modelled from the spec: the category types of package `tasks`, declared
outside `queue_scheduled.go`; a category is at least immediate or scheduled. -/
inductive CategoryType where
  | Unspecified
  | Immediate
  | Scheduled
  deriving DecidableEq, Repr

/-- Modelled from the spec: a task category; `typ` is what `Type()` returns. -/
structure Category where
  ID : Int
  typ : CategoryType
  deriving DecidableEq, Repr

/-- Modelled from the spec: a task key, a fire time plus a tie-break sequence;
`tasks.NewKey(fireTime, taskID)` is the constructor. -/
structure Key where
  FireTime : Time
  TaskID : Int
  deriving DecidableEq, Repr

/-- Modelled from the spec: the total order of keys, fire time first, then the
sequence. The result is negative, zero or positive. -/
def Key.CompareTo (k other : Key) : Int :=
  if Time.Before k.FireTime other.FireTime then -1
  else if Time.After k.FireTime other.FireTime then 1
  else if k.TaskID < other.TaskID then -1
  else if other.TaskID < k.TaskID then 1
  else 0

/-- Modelled from the spec: what the queue reads of a `tasks.Task`, its
category, its key and its visibility time. -/
structure Task where
  Category : Category
  Key : Key
  VisibilityTime : Time
  deriving DecidableEq, Repr

/-- Modelled from the spec: a half-open interval `[InclusiveMin, ExclusiveMax)`
of keys. -/
structure Range where
  InclusiveMin : Key
  ExclusiveMax : Key
  deriving DecidableEq, Repr

/-- Modelled from the spec: `ContainsKey(k)` is `InclusiveMin ≤ k < ExclusiveMax`. -/
def Range.ContainsKey (r : Range) (key : Key) : Bool :=
  decide (0 ≤ key.CompareTo r.InclusiveMin) && decide (key.CompareTo r.ExclusiveMax < 0)

/-! ## The store -/

/-- A page token, `[]byte`; `none` is nil. -/
abbrev PageToken := Option (List Nat)

/-- The fields of `persistence.GetHistoryTasksRequest` the queue fills in. -/
structure GetHistoryTasksRequest where
  ShardID : Int
  TaskCategory : Category
  InclusiveMinTaskKey : Key
  ExclusiveMaxTaskKey : Key
  BatchSize : Int
  NextPageToken : PageToken
  deriving DecidableEq, Repr

/-- The fields of the response of `GetHistoryTasks` the queue reads. -/
structure GetHistoryTasksResponse where
  Tasks : List Task
  NextPageToken : PageToken
  deriving DecidableEq, Repr

/-- An error of the store; `IsResourceExhausted` is the verdict of
`common.IsResourceExhausted`. -/
structure StoreError where
  IsResourceExhausted : Bool
  deriving DecidableEq, Repr

/-- The store behind `shard.GetHistoryTasks`: what it answers to a request. -/
abbrev Store := GetHistoryTasksRequest → Except StoreError GetHistoryTasksResponse

/-- Modelled from the spec: the constant `persistence.ScheduledTaskMinPrecision`,
the minimum time precision of the store. The comment on `IsTimeExpired` gives
it: the precision of the comparison is millisecond. -/
def ScheduledTaskMinPrecision : Duration := Millisecond

/-! ## The pagination function -/

/-- The loop `for len(resp.Tasks) > 0 && !r.ContainsKey(resp.Tasks[0].GetKey())`:
leading tasks outside the range are cut off. -/
def trimLeading (r : Range) : List Task → List Task
  | [] => []
  | task :: rest => if !r.ContainsKey task.Key then trimLeading r rest else task :: rest

/-- The loop `for len(resp.Tasks) > 0 && !r.ContainsKey(resp.Tasks[len(resp.Tasks)-1].GetKey())`,
run for at most `fuel` rounds: a trailing task outside the range is cut off and
the page token is set to nil. -/
def trimTrailing (r : Range) : Nat → List Task → PageToken → List Task × PageToken
  | 0, tasks, token => (tasks, token)
  | fuel + 1, tasks, token =>
    match tasks.getLast? with
    | none => (tasks, token)
    | some task =>
      if !r.ContainsKey task.Key then trimTrailing r fuel tasks.dropLast none
      else (tasks, token)

/-- The request built by the pagination function. -/
def paginationRequest (shardID : Int) (category : Category) (batchSize : Int) (r : Range)
    (paginationToken : PageToken) : GetHistoryTasksRequest :=
  { ShardID := shardID
    TaskCategory := category
    InclusiveMinTaskKey := ⟨r.InclusiveMin.FireTime, 0⟩
    ExclusiveMaxTaskKey := ⟨Time.Add r.ExclusiveMax.FireTime ScheduledTaskMinPrecision, 0⟩
    BatchSize := batchSize
    NextPageToken := paginationToken }

/-- The function `paginationFnProvider(r)` of `NewScheduledQueue`, for the
shard, the category and the batch size the constructor captured. Every round
of the trailing loop shortens the page, so `len(resp.Tasks)` rounds are enough. -/
def paginationFn (shardID : Int) (category : Category) (batchSize : Int) (store : Store)
    (r : Range) (paginationToken : PageToken) : Except StoreError (List Task × PageToken) :=
  match store (paginationRequest shardID category batchSize r paginationToken) with
  | Except.error err => Except.error err
  | Except.ok resp =>
    let tasks := trimLeading r resp.Tasks
    Except.ok (trimTrailing r tasks.length tasks resp.NextPageToken)

/-! ## The expiry test -/

/-- Modelled from the spec: `util.MaxTime`, the later of two instants. -/
def MaxTime (a b : Time) : Time := if Time.After a b then a else b

/-- The function `IsTimeExpired`. -/
def IsTimeExpired (task : Task) (referenceTime testingTime : Time) : Bool :=
  if task.Category.typ = CategoryType.Immediate then false
  else
    let referenceTime :=
      Time.Truncate (MaxTime referenceTime task.Key.FireTime) ScheduledTaskMinPrecision
    let testingTime := Time.Truncate testingTime ScheduledTaskMinPrecision
    !(Time.After testingTime referenceTime)

/-- The reference `trunc` of the expiry test: a time rounded down to a
multiple of `ScheduledTaskMinPrecision`. -/
def truncReference (t : Time) : Time :=
  ScheduledTaskMinPrecision.val * (t / ScheduledTaskMinPrecision.val)

/-! ## The queue -/

/-- Modelled from the spec: the daemon status `Initialized` of package `common`. -/
def DaemonStatusInitialized : Int := 0

/-- Modelled from the spec: the daemon status `Started`. -/
def DaemonStatusStarted : Int := 1

/-- Modelled from the spec: the daemon status `Stopped`. -/
def DaemonStatusStopped : Int := 2

/-- The life-cycle tags handed to the logger. -/
inductive LifeCycleTag where
  | Starting
  | Started
  | Stopping
  | Stopped
  | StopTimedout
  deriving DecidableEq, Repr

/-- A call on a collaborator of the queue, or an entry into `notify`. -/
inductive Effect where
  | loggerInfo (tag : LifeCycleTag)
  | loggerWarn (tag : LifeCycleTag)
  | loggerError
  | queueBaseStart
  | queueBaseStop
  | shutdownWGAdd (delta : Int)
  | goProcessEventLoop
  | closeShutdownCh
  | timerGateClose
  | timerGateUpdate (t : Time)
  | awaitWaitGroup (timeout : Duration)
  | notify (newTime : Time)
  | newTimerNotifyCounter
  | rateLimiterWait (deadline : Time) (request : Request)
  | GetHistoryTasks (request : GetHistoryTasksRequest)
  deriving DecidableEq

/-- The constant `lookAheadRateLimitDelay`, three seconds. -/
def lookAheadRateLimitDelay : Duration := ⟨3 * Second.val, by decide⟩

/-- The struct `scheduledQueue`, with the fields of the embedded `queueBase`
the methods use. A channel of `struct{}` is the number of signals it holds;
`newTimerCh` and `lookAheadCh` have capacity 1. -/
structure scheduledQueue where
  status : Int
  shardID : Int
  category : Category
  nonReadableScope : Range
  newTimerCh : Nat
  newTime : Time
  lookAheadCh : Nat
  lookAheadRateLimitRequest : Request
  trace : List Effect

namespace scheduledQueue

/-- Appends one entry to the trace. -/
def record (p : scheduledQueue) (e : Effect) : scheduledQueue :=
  { p with trace := p.trace ++ [e] }

/-- The non-blocking send `select { case p.newTimerCh <- struct{}{}: default: }`
on the channel of capacity 1. -/
def signalNewTimer (p : scheduledQueue) : scheduledQueue :=
  if p.newTimerCh < 1 then { p with newTimerCh := p.newTimerCh + 1 } else p

/-- The method `notify`, run under `newTimeLock`. -/
def notify (p : scheduledQueue) (newTime : Time) : scheduledQueue :=
  let p := p.record (Effect.notify newTime)
  if !Time.IsZero p.newTime && !Time.Before newTime p.newTime then p
  else signalNewTimer { p with newTime := newTime }

/-- The method `processNewTime`. -/
def processNewTime (p : scheduledQueue) : scheduledQueue :=
  let newTime := p.newTime
  let p := { p with newTime := Time.zero }
  p.record (Effect.timerGateUpdate newTime)

/-- The case `<-p.newTimerCh` of the `select` of `processEventLoop`: ready when
the channel holds a signal, it takes the signal, counts it and runs
`processNewTime`. `none` when the case is not ready. -/
def receiveNewTimer (p : scheduledQueue) : Option scheduledQueue :=
  if p.newTimerCh = 0 then none
  else
    some (processNewTime
      (record { p with newTimerCh := p.newTimerCh - 1 } Effect.newTimerNotifyCounter))

/-- The loop of `NotifyNewTasks` over the batch, started with `newTime`. -/
def earliestVisibility (newTime : Time) : List Task → Time
  | [] => newTime
  | task :: rest =>
    let ts := task.VisibilityTime
    earliestVisibility (if Time.Before ts newTime then ts else newTime) rest

/-- The method `NotifyNewTasks`. -/
def NotifyNewTasks (p : scheduledQueue) (tasks : List Task) : scheduledQueue :=
  match tasks with
  | [] => p
  | first :: _ => p.notify (earliestVisibility first.VisibilityTime tasks)

/-- The method `Start`; the compare-and-swap on `status` is one atomic step. -/
def Start (p : scheduledQueue) : scheduledQueue :=
  if p.status ≠ DaemonStatusInitialized then p
  else
    let p := { p with status := DaemonStatusStarted }
    let p := p.record (Effect.loggerInfo LifeCycleTag.Starting)
    let p := p.record Effect.queueBaseStart
    let p := p.record (Effect.shutdownWGAdd 1)
    let p := p.record Effect.goProcessEventLoop
    let p := p.notify Time.zero
    p.record (Effect.loggerInfo LifeCycleTag.Started)

/-- The method `Stop`; `awaitSuccess` is what `common.AwaitWaitGroup` returns. -/
def Stop (p : scheduledQueue) (awaitSuccess : Bool) : scheduledQueue :=
  if p.status ≠ DaemonStatusStarted then p
  else
    let p := { p with status := DaemonStatusStopped }
    let p := p.record (Effect.loggerInfo LifeCycleTag.Stopping)
    let p := p.record Effect.closeShutdownCh
    let p := p.record Effect.timerGateClose
    let p := p.record (Effect.awaitWaitGroup Minute)
    let p := if !awaitSuccess then p.record (Effect.loggerWarn LifeCycleTag.StopTimedout) else p
    let p := p.record Effect.queueBaseStop
    p.record (Effect.loggerInfo LifeCycleTag.Stopped)

/-- What the collaborators answer during one `lookAheadTask`: the instant at
which `context.WithTimeout` creates the wait context, the error of
`readerRateLimiter.Wait` (`none` is nil), the duration returned by
`backoff.Jitter`, the store, and the instant read by `timeSource.Now()`. -/
structure LookAheadEnv where
  contextCreated : Time
  rateLimitErr : Option Quotas.Error
  jitter : Duration
  store : Store
  now : Time

/-- The method `lookAheadTask`. -/
def lookAheadTask (p : scheduledQueue) (env : LookAheadEnv) : scheduledQueue :=
  let deadline := Time.Add env.contextCreated lookAheadRateLimitDelay
  let p := p.record (Effect.rateLimiterWait deadline p.lookAheadRateLimitRequest)
  match env.rateLimitErr with
  | some _ => p.record (Effect.timerGateUpdate deadline)
  | none =>
    let lookAheadMinTime := p.nonReadableScope.InclusiveMin.FireTime
    let lookAheadMaxTime := Time.Add lookAheadMinTime env.jitter
    let request : GetHistoryTasksRequest :=
      { ShardID := p.shardID
        TaskCategory := p.category
        InclusiveMinTaskKey := ⟨lookAheadMinTime, 0⟩
        ExclusiveMaxTaskKey := ⟨lookAheadMaxTime, 0⟩
        BatchSize := 1
        NextPageToken := none }
    let p := p.record (Effect.GetHistoryTasks request)
    match env.store request with
    | Except.error err =>
      let p := p.record Effect.loggerError
      if err.IsResourceExhausted then
        p.record (Effect.timerGateUpdate (Time.Add env.now lookAheadRateLimitDelay))
      else p.record (Effect.timerGateUpdate lookAheadMinTime)
    | Except.ok response =>
      match response.Tasks with
      | [task] => p.record (Effect.timerGateUpdate task.Key.FireTime)
      | _ => p.record (Effect.timerGateUpdate lookAheadMaxTime)

/-- The times handed to `timerGate.Update`, oldest first. -/
def gateUpdates (p : scheduledQueue) : List Time :=
  p.trace.filterMap (fun e =>
    match e with
    | Effect.timerGateUpdate t => some t
    | _ => none)

/-- The calls `notify(t1)`, ..., `notify(tn)`, one after the other. -/
def notifyAll (p : scheduledQueue) (times : List Time) : scheduledQueue :=
  times.foldl notify p

/-- The requests handed to `shard.GetHistoryTasks`, oldest first. -/
def storeReads (p : scheduledQueue) : List GetHistoryTasksRequest :=
  p.trace.filterMap (fun e =>
    match e with
    | Effect.GetHistoryTasks request => some request
    | _ => none)

/-- How many times `close(p.shutdownCh)` ran. -/
def shutdownCloses (p : scheduledQueue) : Nat := p.trace.count Effect.closeShutdownCh

end scheduledQueue

/-- A call of a life-cycle method, with what `common.AwaitWaitGroup` answers
inside `Stop`. -/
inductive LifecycleCall where
  | Start
  | Stop (awaitSuccess : Bool)
  deriving DecidableEq, Repr

/-- One life-cycle call on the queue. -/
def scheduledQueue.call (p : scheduledQueue) : LifecycleCall → scheduledQueue
  | LifecycleCall.Start => p.Start
  | LifecycleCall.Stop awaitSuccess => p.Stop awaitSuccess

/-- Life-cycle calls, one after the other. -/
def scheduledQueue.calls (p : scheduledQueue) (cs : List LifecycleCall) : scheduledQueue :=
  cs.foldl scheduledQueue.call p

/-! ## The goroutines around the pending time

The statements of the program that read or write `p.newTime`, `p.newTimerCh`
or `p.newTimeLock` are those of `notify`, the receive `<-p.newTimerCh` of
`processEventLoop`, and those of `processNewTime`. Each of them is one move
below, so that goroutines interleave between any two of them. -/

/-- Where the goroutine that holds `newTimeLock` inside `notify` stands, named
after the statement it runs next: the test of the `if`, the assignment
`p.newTime = newTime`, the `select` with the send, the deferred `Unlock`.
`test` and `assign` carry the argument `newTime` of the call. -/
inductive NotifyPoint where
  | test (newTime : Time)
  | assign (newTime : Time)
  | send
  | unlock
  deriving DecidableEq

/-- Where the goroutine of `processEventLoop` stands, named after the statement
it runs next. `select` is the loop at its `select` statements (or in a case
other than `<-p.newTimerCh`); `count` follows the receive `<-p.newTimerCh`;
`lock`, `copy`, `clear`, `unlock` and `update` are the five statements of
`processNewTime`, the last three with its local variable `newTime`. -/
inductive LoopPoint where
  | select
  | count
  | lock
  | copy
  | clear (newTime : Time)
  | unlock (newTime : Time)
  | update (newTime : Time)
  deriving DecidableEq

namespace LoopPoint

/-- The event loop holds `newTimeLock`: it is past `Lock()` and before
`Unlock()` in `processNewTime`. -/
def holdsLock : LoopPoint → Bool
  | copy => true
  | clear _ => true
  | unlock _ => true
  | _ => false

/-- The event loop has received from `newTimerCh` and has not yet run
`p.newTime = time.Time{}` in `processNewTime`. -/
def tookSignal : LoopPoint → Bool
  | count => true
  | lock => true
  | copy => true
  | clear _ => true
  | _ => false

end LoopPoint

/-- The queue together with the goroutines at work on its pending time: the
one inside the critical section of `notify`, if any (callers of `notify`
waiting for the lock or past `Unlock` touch nothing), and the event loop. -/
structure Goroutines where
  queue : scheduledQueue
  notifier : Option NotifyPoint
  eventLoop : LoopPoint

/-- One statement run by one goroutine. -/
inductive Statement where
  | notifyLock (newTime : Time)
  | notifyTest
  | notifyAssign
  | notifySend
  | notifyUnlock
  | loopReceive
  | loopCount
  | loopLock
  | loopCopy
  | loopClear
  | loopUnlock
  | loopUpdate
  deriving DecidableEq

namespace Goroutines

/-- No goroutine inside `notify`, the event loop at its `select`. -/
def start (p : scheduledQueue) : Goroutines := ⟨p, none, LoopPoint.select⟩

/-- Whether `newTimeLock` is held. -/
def newTimeLockHeld (s : Goroutines) : Bool :=
  s.notifier.isSome || s.eventLoop.holdsLock

/-- One statement of `notify`, of the case `<-p.newTimerCh` of
`processEventLoop` or of `processNewTime`, run by the goroutine that stands
before it. A statement no goroutine stands before, a `Lock()` while the lock is
held and a receive from the empty channel leave the state as it is.

- `notifyLock newTime`: a call `p.notify(newTime)` (from `NotifyNewTasks`, from
  `Start` with the zero time) gets `p.newTimeLock.Lock()`;
- `notifyTest`: `if !p.newTime.IsZero() && !newTime.Before(p.newTime) { return }`;
- `notifyAssign`: `p.newTime = newTime`;
- `notifySend`: `select { case p.newTimerCh <- struct{}{}: default: }`;
- `notifyUnlock`: the deferred `p.newTimeLock.Unlock()`;
- `loopReceive`: `case <-p.newTimerCh:`;
- `loopCount`: `metrics.NewTimerNotifyCounter.With(p.metricsHandler).Record(1)`;
- `loopLock`: `p.newTimeLock.Lock()` of `processNewTime`;
- `loopCopy`: `newTime := p.newTime`;
- `loopClear`: `p.newTime = time.Time{}`;
- `loopUnlock`: `p.newTimeLock.Unlock()`;
- `loopUpdate`: `p.timerGate.Update(newTime)`. -/
def step (s : Goroutines) : Statement → Goroutines
  | Statement.notifyLock newTime =>
    if s.newTimeLockHeld then s
    else
      { s with queue := s.queue.record (Effect.notify newTime)
               notifier := some (NotifyPoint.test newTime) }
  | Statement.notifyTest =>
    match s.notifier with
    | some (NotifyPoint.test newTime) =>
      if !Time.IsZero s.queue.newTime && !Time.Before newTime s.queue.newTime then
        { s with notifier := some NotifyPoint.unlock }
      else { s with notifier := some (NotifyPoint.assign newTime) }
    | _ => s
  | Statement.notifyAssign =>
    match s.notifier with
    | some (NotifyPoint.assign newTime) =>
      { s with queue := { s.queue with newTime := newTime }
               notifier := some NotifyPoint.send }
    | _ => s
  | Statement.notifySend =>
    match s.notifier with
    | some NotifyPoint.send =>
      { s with queue := s.queue.signalNewTimer
               notifier := some NotifyPoint.unlock }
    | _ => s
  | Statement.notifyUnlock =>
    match s.notifier with
    | some NotifyPoint.unlock => { s with notifier := none }
    | _ => s
  | Statement.loopReceive =>
    match s.eventLoop with
    | LoopPoint.select =>
      if s.queue.newTimerCh = 0 then s
      else
        { s with queue := { s.queue with newTimerCh := s.queue.newTimerCh - 1 }
                 eventLoop := LoopPoint.count }
    | _ => s
  | Statement.loopCount =>
    match s.eventLoop with
    | LoopPoint.count =>
      { s with queue := s.queue.record Effect.newTimerNotifyCounter
               eventLoop := LoopPoint.lock }
    | _ => s
  | Statement.loopLock =>
    match s.eventLoop with
    | LoopPoint.lock => if s.newTimeLockHeld then s else { s with eventLoop := LoopPoint.copy }
    | _ => s
  | Statement.loopCopy =>
    match s.eventLoop with
    | LoopPoint.copy => { s with eventLoop := LoopPoint.clear s.queue.newTime }
    | _ => s
  | Statement.loopClear =>
    match s.eventLoop with
    | LoopPoint.clear newTime =>
      { s with queue := { s.queue with newTime := Time.zero }
               eventLoop := LoopPoint.unlock newTime }
    | _ => s
  | Statement.loopUnlock =>
    match s.eventLoop with
    | LoopPoint.unlock newTime => { s with eventLoop := LoopPoint.update newTime }
    | _ => s
  | Statement.loopUpdate =>
    match s.eventLoop with
    | LoopPoint.update newTime =>
      { s with queue := s.queue.record (Effect.timerGateUpdate newTime)
               eventLoop := LoopPoint.select }
    | _ => s

/-- Statements run one after the other, in the order in which the goroutines
happen to run them. -/
def run (s : Goroutines) (statements : List Statement) : Goroutines :=
  statements.foldl step s

/-- The statements of one call `notify(newTime)`, in program order. -/
def notifyStatements (newTime : Time) : List Statement :=
  [Statement.notifyLock newTime, Statement.notifyTest, Statement.notifyAssign,
    Statement.notifySend, Statement.notifyUnlock]

/-- The statements of the case `<-p.newTimerCh` of the event loop, in program
order. -/
def newTimerStatements : List Statement :=
  [Statement.loopReceive, Statement.loopCount, Statement.loopLock, Statement.loopCopy,
    Statement.loopClear, Statement.loopUnlock, Statement.loopUpdate]

end Goroutines

/-! ## Concrete tasks and queues -/

/-- A scheduled category. -/
def timerCategory : Category := ⟨2, CategoryType.Scheduled⟩

/-- An immediate category. -/
def transferCategory : Category := ⟨1, CategoryType.Immediate⟩

/-- A task of the given category with fire time and visibility time `t`. -/
def taskAt (category : Category) (t : Time) (taskID : Int) : Task :=
  ⟨category, ⟨t, taskID⟩, t⟩

/-- A queue just built: status `Initialized`, no pending time, empty
channels, empty trace. -/
def newQueue : scheduledQueue :=
  { status := DaemonStatusInitialized
    shardID := 1
    category := timerCategory
    nonReadableScope := ⟨⟨100, 0⟩, ⟨1000, 0⟩⟩
    newTimerCh := 0
    newTime := Time.zero
    lookAheadCh := 0
    lookAheadRateLimitRequest := ⟨"look-ahead", 1⟩
    trace := [] }

/-- A new queue whose frontier lies ten seconds after the zero time. -/
def farQueue : scheduledQueue :=
  { newQueue with nonReadableScope := ⟨⟨10000000000, 0⟩, ⟨20000000000, 0⟩⟩ }

/-- A store that fails every read with the given error. -/
def failingStore (err : StoreError) : Store := fun _ => Except.error err

end Queues

namespace Quotas

variable {σ R : Type}

/-! ## Go maps: lookup -/

namespace GoMap

variable {V : Type}

theorem lookup_cons_ne {k a : Int} (h : k ≠ a) (b : V) (es : List (Int × V)) :
    List.lookup k ((a, b) :: es) = List.lookup k es := by
  have hb : (k == a) = false := by simpa using h
  simp only [List.lookup_cons, hb]

theorem lookup_eq_none_iff (m : GoMap V) (k : Int) : m.lookup k = none ↔ k ∉ m.keys := by
  unfold lookup keys
  induction m.entries with
  | nil => simp
  | cons e es ih =>
    obtain ⟨a, b⟩ := e
    by_cases h : k = a
    · subst h; simp
    · rw [lookup_cons_ne h, ih]
      simp [h]

theorem lookup_isSome_iff (m : GoMap V) (k : Int) : (m.lookup k).isSome ↔ k ∈ m.keys := by
  rw [← not_iff_not, ← lookup_eq_none_iff]
  cases m.lookup k <;> simp

theorem mem_keys_of_lookup {m : GoMap V} {k : Int} {v : V} (h : m.lookup k = some v) :
    k ∈ m.keys := by
  rw [← lookup_isSome_iff, h]; rfl

theorem lookup_filter_ne (es : List (Int × V)) (k k1 : Int) :
    (es.filter (fun e => decide (e.1 ≠ k))).lookup k1 = if k1 = k then none else es.lookup k1 := by
  induction es with
  | nil => simp
  | cons e es ih =>
    obtain ⟨a, b⟩ := e
    by_cases ha : a = k
    · subst ha
      have hf : List.filter (fun e => decide (e.1 ≠ a)) ((a, b) :: es)
          = List.filter (fun e => decide (e.1 ≠ a)) es := by
        simp [List.filter_cons]
      rw [hf, ih]
      by_cases hk : k1 = a
      · simp [hk]
      · simp only [hk, if_false]
        rw [lookup_cons_ne hk]
    · have hf : List.filter (fun e => decide (e.1 ≠ k)) ((a, b) :: es)
          = (a, b) :: List.filter (fun e => decide (e.1 ≠ k)) es := by
        simp [List.filter_cons, ha]
      rw [hf]
      by_cases hk1 : k1 = a
      · subst hk1
        simp [ha]
      · rw [lookup_cons_ne hk1, lookup_cons_ne hk1, ih]

theorem lookup_set (m : GoMap V) (k : Int) (v : V) (k1 : Int) :
    (m.set k v).lookup k1 = if k1 = k then some v else m.lookup k1 := by
  unfold set lookup
  by_cases hk : k1 = k
  · simp [hk]
  · simp only [hk, if_false]
    rw [lookup_cons_ne hk, lookup_filter_ne]
    simp [hk]

theorem keys_nodup (m : GoMap V) : m.keys.Nodup := m.nodupKeys

theorem lookup_empty (k : Int) : (empty : GoMap V).lookup k = none := rfl

end GoMap

/-! ## The sorted priorities -/

theorem sortPriorities_perm (l : List Int) : (sortPriorities l).Perm l :=
  List.perm_insertionSort _ l

theorem mem_sortPriorities (l : List Int) (k : Int) : k ∈ sortPriorities l ↔ k ∈ l :=
  (sortPriorities_perm l).mem_iff

theorem sortPriorities_length (l : List Int) : (sortPriorities l).length = l.length :=
  (sortPriorities_perm l).length_eq

theorem sortPriorities_nodup {l : List Int} (h : l.Nodup) : (sortPriorities l).Nodup :=
  (sortPriorities_perm l).nodup_iff.2 h

theorem sortPriorities_sorted {l : List Int} (h : l.Nodup) :
    (sortPriorities l).Sorted (fun a b => a < b) :=
  List.Sorted.lt_of_le (List.sorted_insertionSort (fun a b : Int => a ≤ b) l)
    (sortPriorities_nodup h)

/-- In a strictly ascending list the entries behind position `i` are the
entries greater than the one at position `i`. -/
theorem drop_succ_eq_filter_lt :
    ∀ (ks : List Int) (i : Nat) (p : Int), ks.Sorted (fun a b => a < b) → ks[i]? = some p →
      ks.drop (i + 1) = ks.filter (fun q => decide (p < q))
  | [], i, p, _, h => by simp at h
  | k :: ks, 0, p, hs, h => by
    simp at h
    subst h
    have hall : ∀ q ∈ ks, k < q := (List.sorted_cons.1 hs).1
    simp only [List.drop_succ_cons, List.drop_zero, List.filter_cons, lt_irrefl, decide_False]
    symm
    simpa using hall
  | k :: ks, i + 1, p, hs, h => by
    have hs1 := List.sorted_cons.1 hs
    have h1 : ks[i]? = some p := by simpa using h
    have hmem : p ∈ ks := List.getElem?_mem h1
    have hlt : k < p := hs1.1 p hmem
    have : ¬ p < k := not_lt.2 hlt.le
    simp only [List.drop_succ_cons, List.filter_cons, this, decide_False]
    exact drop_succ_eq_filter_lt ks i p hs1.2 h1

/-- In a strictly ascending list positions and entries are ordered alike. -/
theorem sorted_lt_iff_index_lt {ks : List Int} (hs : ks.Sorted (fun a b => a < b))
    {i j : Nat} {a b : Int} (hi : ks[i]? = some a) (hj : ks[j]? = some b) :
    a < b ↔ i < j := by
  have hmono : ∀ {i j : Nat} {a b : Int}, ks[i]? = some a → ks[j]? = some b → i < j → a < b := by
    intro i j a b hi hj hij
    obtain ⟨hil, hia⟩ := List.getElem?_eq_some_iff.1 hi
    obtain ⟨hjl, hjb⟩ := List.getElem?_eq_some_iff.1 hj
    have := List.pairwise_iff_getElem.1 hs i j hil hjl hij
    rwa [hia, hjb] at this
  constructor
  · intro hab
    by_contra hnot
    rcases Nat.lt_or_eq_of_le (not_lt.1 hnot) with h | h
    · exact absurd (hmono hj hi h) (not_lt.2 hab.le)
    · subst h
      rw [hi] at hj
      cases hj
      exact lt_irrefl _ hab
  · exact hmono hi hj


/-! ## The ladder built by the constructor -/

theorem filterMap_getElem?_of_isSome {α β : Type} (f : α → Option β) :
    ∀ (ks : List α) (i : Nat), (∀ k ∈ ks, (f k).isSome) → (ks.filterMap f)[i]? = ks[i]?.bind f
  | [], i, _ => by simp
  | k :: ks, i, h => by
    obtain ⟨v, hv⟩ := Option.isSome_iff_exists.1 (h k (List.mem_cons_self _ _))
    have ih := fun j => filterMap_getElem?_of_isSome f ks j
      (fun q hq => h q (List.mem_cons_of_mem _ hq))
    rw [List.filterMap_cons_some hv]
    cases i with
    | zero => simp [hv]
    | succ j => simpa using ih j

theorem filterMap_drop_of_isSome {α β : Type} (f : α → Option β) :
    ∀ (ks : List α) (n : Nat), (∀ k ∈ ks, (f k).isSome) →
      (ks.filterMap f).drop n = (ks.drop n).filterMap f
  | [], n, _ => by simp
  | k :: ks, n, h => by
    obtain ⟨v, hv⟩ := Option.isSome_iff_exists.1 (h k (List.mem_cons_self _ _))
    have ih := fun j => filterMap_drop_of_isSome f ks j
      (fun q hq => h q (List.mem_cons_of_mem _ hq))
    cases n with
    | zero => simp
    | succ j =>
      rw [List.filterMap_cons_some hv]
      simpa using ih j

theorem filterMap_length_of_isSome {α β : Type} (f : α → Option β) :
    ∀ (ks : List α), (∀ k ∈ ks, (f k).isSome) → (ks.filterMap f).length = ks.length
  | [], _ => by simp
  | k :: ks, h => by
    obtain ⟨v, hv⟩ := Option.isSome_iff_exists.1 (h k (List.mem_cons_self _ _))
    rw [List.filterMap_cons_some hv, List.length_cons, List.length_cons,
      filterMap_length_of_isSome f ks (fun q hq => h q (List.mem_cons_of_mem _ hq))]

theorem buildLadder_limiters (m : GoMap (RequestRateLimiter σ R)) :
    ∀ (ks : List Int) (i : Nat) (pi : GoMap Nat) (rl : List (RequestRateLimiter σ R)),
      (buildLadder m ks i pi rl).2 = rl ++ ks.filterMap m.lookup
  | [], i, pi, rl => by simp [buildLadder]
  | k :: ks, i, pi, rl => by
    rw [buildLadder, buildLadder_limiters m ks]
    cases h : m.lookup k with
    | none => simp [List.filterMap_cons_none h]
    | some v => simp [List.filterMap_cons_some h]

theorem buildLadder_index (m : GoMap (RequestRateLimiter σ R)) :
    ∀ (ks : List Int) (i : Nat) (pi : GoMap Nat) (rl : List (RequestRateLimiter σ R)) (q : Int),
      ks.Nodup →
      (buildLadder m ks i pi rl).1.lookup q
        = if q ∈ ks then some (i + ks.indexOf q) else pi.lookup q
  | [], i, pi, rl, q, _ => by simp [buildLadder]
  | k :: ks, i, pi, rl, q, hnd => by
    have hnd1 := List.nodup_cons.1 hnd
    rw [buildLadder, buildLadder_index m ks _ _ _ q hnd1.2, GoMap.lookup_set]
    by_cases hq : q = k
    · subst hq
      simp [hnd1.1]
    · have hne : k ≠ q := fun h => hq h.symm
      by_cases hmem : q ∈ ks
      · simp [hmem, List.indexOf_cons_ne _ hne]
        omega
      · simp [hmem, hq]

theorem NewPriorityRateLimiter_rateLimiters (fn : RequestPriorityFn)
    (m : GoMap (RequestRateLimiter σ R)) :
    (NewPriorityRateLimiter fn m).rateLimiters = (sortPriorities m.keys).filterMap m.lookup := by
  simp [NewPriorityRateLimiter, buildLadder_limiters]

theorem NewPriorityRateLimiter_priorityToIndex (fn : RequestPriorityFn)
    (m : GoMap (RequestRateLimiter σ R)) (q : Int) :
    (NewPriorityRateLimiter fn m).priorityToIndex.lookup q
      = if q ∈ m.keys then some ((sortPriorities m.keys).indexOf q) else none := by
  simp only [NewPriorityRateLimiter]
  rw [buildLadder_index m _ _ _ _ q (sortPriorities_nodup m.keys_nodup)]
  simp [mem_sortPriorities, GoMap.lookup_empty]

theorem sortPriorities_lookup_isSome (m : GoMap (RequestRateLimiter σ R)) :
    ∀ k ∈ sortPriorities m.keys, (m.lookup k).isSome := fun k hk =>
  (GoMap.lookup_isSome_iff m k).2 ((mem_sortPriorities _ _).1 hk)

theorem sortPriorities_getElem?_indexOf {l : List Int} {q : Int} (h : q ∈ l) :
    (sortPriorities l)[(sortPriorities l).indexOf q]? = some q :=
  List.getElem?_indexOf ((mem_sortPriorities l q).2 h)

/-- The ladder lists, behind the position of a bound priority, the limiters of
the lower-priority tiers. -/
theorem rateLimiters_drop (fn : RequestPriorityFn) (m : GoMap (RequestRateLimiter σ R))
    {q : Int} (h : q ∈ m.keys) :
    (NewPriorityRateLimiter fn m).rateLimiters.drop ((sortPriorities m.keys).indexOf q + 1)
      = lowerTiers m q := by
  rw [NewPriorityRateLimiter_rateLimiters,
    filterMap_drop_of_isSome _ _ _ (sortPriorities_lookup_isSome m),
    drop_succ_eq_filter_lt _ _ q (sortPriorities_sorted m.keys_nodup)
      (sortPriorities_getElem?_indexOf h)]
  rfl

theorem rateLimiters_getElem? (fn : RequestPriorityFn) (m : GoMap (RequestRateLimiter σ R))
    {q : Int} (h : q ∈ m.keys) :
    (NewPriorityRateLimiter fn m).rateLimiters[(sortPriorities m.keys).indexOf q]?
      = m.lookup q := by
  rw [NewPriorityRateLimiter_rateLimiters,
    filterMap_getElem?_of_isSome _ _ _ (sortPriorities_lookup_isSome m),
    sortPriorities_getElem?_indexOf h]
  rfl

namespace PriorityRateLimiterImpl

theorem getRateLimiters_bound (fn : RequestPriorityFn) (m : GoMap (RequestRateLimiter σ R))
    (request : Request) {deciding : RequestRateLimiter σ R}
    (h : m.lookup (fn request) = some deciding) :
    (NewPriorityRateLimiter fn m).getRateLimiters request
      = Except.ok (deciding, lowerTiers m (fn request)) := by
  have hk := GoMap.mem_keys_of_lookup h
  have h1 : (NewPriorityRateLimiter fn m).requestPriorityFn = fn := rfl
  have h2 : (NewPriorityRateLimiter fn m).priorityToRateLimiters = m := rfl
  have hlt : ¬ (NewPriorityRateLimiter fn m).rateLimiters.length
      < (sortPriorities m.keys).indexOf (fn request) + 1 := by
    have hi : (sortPriorities m.keys).indexOf (fn request) < (sortPriorities m.keys).length :=
      List.indexOf_lt_length.2 ((mem_sortPriorities _ _).2 hk)
    rw [NewPriorityRateLimiter_rateLimiters,
      filterMap_length_of_isSome _ _ (sortPriorities_lookup_isSome m)]
    omega
  unfold getRateLimiters
  simp only [h1, h2, h, NewPriorityRateLimiter_priorityToIndex, hk, if_true, Option.getD_some,
    rateLimiters_getElem? fn m hk, rateLimiters_drop fn m hk, hlt, if_false]

theorem getRateLimiters_unbound (fn : RequestPriorityFn) (m : GoMap (RequestRateLimiter σ R))
    (request : Request) (h : m.lookup (fn request) = none) :
    (NewPriorityRateLimiter fn m).getRateLimiters request
      = Except.error (PanicValue.message mismatchMessage) := by
  have h1 : (NewPriorityRateLimiter fn m).requestPriorityFn = fn := rfl
  have h2 : (NewPriorityRateLimiter fn m).priorityToRateLimiters = m := rfl
  unfold getRateLimiters
  simp only [h1, h2, h]

end PriorityRateLimiterImpl


/-! ## The charging loops -/

namespace PriorityRateLimiterImpl

theorem consumeAll_calls (now : Time) (request : Request) :
    ∀ (ls : List (RequestRateLimiter σ R)) (w : World σ R),
      (consumeAll now request ls w).calls.map Event.call
        = w.calls.map Event.call ++ ls.map (fun l => Call.Reserve l.id now request)
  | [], w => by simp [consumeAll]
  | l :: ls, w => by
    rw [consumeAll, consumeAll_calls now request ls]
    simp [World.callReserve]

theorem consumeAll_state_of_not_mem (now : Time) (request : Request) (i : Nat) :
    ∀ (ls : List (RequestRateLimiter σ R)) (w : World σ R),
      i ∉ ls.map (fun l => l.id) → (consumeAll now request ls w).state i = w.state i
  | [], w, _ => by simp [consumeAll]
  | l :: ls, w, h => by
    have h1 : i ≠ l.id := fun e => h (by simp [e])
    have h2 : i ∉ ls.map (fun l => l.id) := fun e => h (by simp at e ⊢; exact Or.inr e)
    rw [consumeAll, consumeAll_state_of_not_mem now request i ls _ h2]
    simp [World.callReserve, Function.update_noteq h1]

theorem consumeAll_state_of_mem (now : Time) (request : Request) :
    ∀ (ls : List (RequestRateLimiter σ R)) (w : World σ R),
      (ls.map (fun l => l.id)).Nodup → ∀ l ∈ ls,
        (consumeAll now request ls w).state l.id = (l.Reserve now request (w.state l.id)).2
  | [], w, _, l, hl => by simp at hl
  | l0 :: ls, w, hnd, l, hl => by
    have hnd1 : l0.id ∉ ls.map (fun l => l.id) ∧ (ls.map (fun l => l.id)).Nodup :=
      List.nodup_cons.1 hnd
    rw [consumeAll]
    rcases List.mem_cons.1 hl with h | h
    · subst h
      rw [consumeAll_state_of_not_mem now request l.id ls _ hnd1.1]
      simp [World.callReserve]
    · have hne : l.id ≠ l0.id := by
        intro e
        exact hnd1.1 (e ▸ List.mem_map_of_mem (fun l => l.id) h)
      rw [consumeAll_state_of_mem now request ls _ hnd1.2 l h]
      simp [World.callReserve, Function.update_noteq hne]

theorem reserveAll_world (now : Time) (request : Request) :
    ∀ (ls : List (RequestRateLimiter σ R)) (w : World σ R),
      (reserveAll now request ls w).2 = consumeAll now request ls w
  | [], w => rfl
  | l :: ls, w => by
    rw [reserveAll, consumeAll]
    exact reserveAll_world now request ls _

theorem reserveAll_length (now : Time) (request : Request) :
    ∀ (ls : List (RequestRateLimiter σ R)) (w : World σ R),
      (reserveAll now request ls w).1.length = ls.length
  | [], w => rfl
  | l :: ls, w => by
    rw [reserveAll]
    simp [reserveAll_length now request ls]

theorem reserveAll_calls (now : Time) (request : Request) :
    ∀ (ls : List (RequestRateLimiter σ R)) (w : World σ R),
      (reserveAll now request ls w).2.calls
        = w.calls ++ List.zipWith (reserveEvent now request) ls (reserveAll now request ls w).1
  | [], w => by simp [reserveAll]
  | l :: ls, w => by
    rw [reserveAll]
    simp only [List.zipWith_cons_cons]
    rw [reserveAll_calls now request ls]
    simp [World.callReserve, reserveEvent]

theorem reserveAll_reservations (now : Time) (request : Request) :
    ∀ (ls : List (RequestRateLimiter σ R)) (w : World σ R),
      (ls.map (fun l => l.id)).Nodup →
        (reserveAll now request ls w).1
          = ls.map (fun l => (l.Reserve now request (w.state l.id)).1)
  | [], w, _ => rfl
  | l0 :: ls, w, hnd => by
    have hnd1 : l0.id ∉ ls.map (fun l => l.id) ∧ (ls.map (fun l => l.id)).Nodup :=
      List.nodup_cons.1 hnd
    rw [reserveAll]
    simp only [List.map_cons]
    rw [reserveAll_reservations now request ls _ hnd1.2]
    congr 1
    apply List.map_congr_left
    intro l hl
    have hne : l.id ≠ l0.id := by
      intro e
      exact hnd1.1 (e ▸ List.mem_map_of_mem (fun l => l.id) hl)
    simp [World.callReserve, Function.update_noteq hne]

/-- Among the `Reserve` calls of a loop over pairwise distinct limiters, the
calls on one limiter: a single call if the limiter is in the loop, none if not. -/
theorem filter_reserve_calls (now : Time) (request : Request) (i : Nat) :
    ∀ (ls : List (RequestRateLimiter σ R)), (ls.map (fun l => l.id)).Nodup →
      (ls.map (fun l => (Call.Reserve l.id now request : Call R))).filter
          (fun c => decide (c.limiter = some i))
        = if i ∈ ls.map (fun l => l.id) then [Call.Reserve i now request] else []
  | [], _ => by simp
  | l0 :: ls, hnd => by
    have hnd1 : l0.id ∉ ls.map (fun l => l.id) ∧ (ls.map (fun l => l.id)).Nodup :=
      List.nodup_cons.1 hnd
    have ih := filter_reserve_calls now request i ls hnd1.2
    have hlim : (Call.Reserve l0.id now request : Call R).limiter = some l0.id := rfl
    rw [List.map_cons, List.filter_cons, hlim, ih]
    by_cases h : l0.id = i
    · have hni : i ∉ ls.map (fun l => l.id) := h ▸ hnd1.1
      simp [h, hni]
    · have hne : i ≠ l0.id := fun e => h e.symm
      by_cases hmem : i ∈ ls.map (fun l => l.id)
      · simp only [Option.some.injEq, h, decide_False, List.map_cons, List.mem_cons, hne,
          false_or, hmem, if_true]
        simp
      · simp only [Option.some.injEq, h, decide_False, List.map_cons, List.mem_cons, hne,
          false_or, hmem, if_false]
        simp

end PriorityRateLimiterImpl

/-! ## The lower-priority tiers of a map -/

namespace GoMap

variable {V : Type}

theorem mem_of_list_lookup {k : Int} {v : V} :
    ∀ (es : List (Int × V)), List.lookup k es = some v → (k, v) ∈ es
  | [], h => by simp at h
  | (a, b) :: es, h => by
    by_cases hk : k = a
    · subst hk
      simp at h
      simp [h]
    · rw [lookup_cons_ne hk] at h
      exact List.mem_cons_of_mem _ (mem_of_list_lookup es h)

theorem mem_entries_of_lookup {m : GoMap V} {k : Int} {v : V} (h : m.lookup k = some v) :
    (k, v) ∈ m.entries :=
  mem_of_list_lookup m.entries h

end GoMap

theorem mem_lowerTiers (m : GoMap (RequestRateLimiter σ R)) (p : Int)
    (l : RequestRateLimiter σ R) :
    l ∈ lowerTiers m p ↔ ∃ q, p < q ∧ m.lookup q = some l := by
  unfold lowerTiers
  rw [List.mem_filterMap]
  constructor
  · rintro ⟨q, hq, hl⟩
    exact ⟨q, by simpa using (List.mem_filter.1 hq).2, hl⟩
  · rintro ⟨q, hpq, hl⟩
    refine ⟨q, List.mem_filter.2 ⟨?_, by simpa using hpq⟩, hl⟩
    exact (mem_sortPriorities _ _).2 (GoMap.mem_keys_of_lookup hl)

/-- Distinct limiters are bound to distinct priorities. -/
theorem DistinctLimiters.priority_eq {m : GoMap (RequestRateLimiter σ R)}
    (hd : DistinctLimiters m) {q q1 : Int} {l l1 : RequestRateLimiter σ R}
    (h : m.lookup q = some l) (h1 : m.lookup q1 = some l1) (hid : l.id = l1.id) :
    q = q1 ∧ l = l1 := by
  have := List.inj_on_of_nodup_map hd (GoMap.mem_entries_of_lookup h)
    (GoMap.mem_entries_of_lookup h1) hid
  exact ⟨congrArg Prod.fst this, congrArg Prod.snd this⟩

theorem DistinctLimiters.lowerTiers_nodup {m : GoMap (RequestRateLimiter σ R)}
    (hd : DistinctLimiters m) (p : Int) : ((lowerTiers m p).map (fun l => l.id)).Nodup := by
  apply List.Nodup.map_on
  · intro x hx y hy hid
    obtain ⟨q, _, hq⟩ := (mem_lowerTiers m p x).1 hx
    obtain ⟨q1, _, hq1⟩ := (mem_lowerTiers m p y).1 hy
    exact (hd.priority_eq hq hq1 hid).2
  · unfold lowerTiers
    apply List.Nodup.filterMap
    · intro a a1 b hb hb1
      exact (hd.priority_eq (Option.mem_def.1 hb) (Option.mem_def.1 hb1) rfl).1
    · exact List.Nodup.filter _ (sortPriorities_nodup m.keys_nodup)

theorem DistinctLimiters.mem_lowerTiers_ids {m : GoMap (RequestRateLimiter σ R)}
    (hd : DistinctLimiters m) (p : Int) {q : Int} {l : RequestRateLimiter σ R}
    (h : m.lookup q = some l) :
    l.id ∈ (lowerTiers m p).map (fun l => l.id) ↔ p < q := by
  rw [List.mem_map]
  constructor
  · rintro ⟨l1, hl1, hid⟩
    obtain ⟨q1, hpq, hq1⟩ := (mem_lowerTiers m p l1).1 hl1
    rw [(hd.priority_eq h hq1 hid.symm).1]
    exact hpq
  · intro hpq
    exact ⟨l, (mem_lowerTiers m p l).2 ⟨q, hpq, h⟩, rfl⟩


/-! ## Allow and Reserve on a built ladder -/

namespace PriorityRateLimiterImpl

theorem Allow_bound (fn : RequestPriorityFn) (m : GoMap (RequestRateLimiter σ R))
    (now : Time) (request : Request) (w : World σ R) {deciding : RequestRateLimiter σ R}
    (h : m.lookup (fn request) = some deciding) :
    (NewPriorityRateLimiter fn m).Allow now request w
      = if !(w.callAllow deciding now request).1 then
          ((w.callAllow deciding now request).2, Except.ok false)
        else
          (consumeAll now request (lowerTiers m (fn request)) (w.callAllow deciding now request).2,
            Except.ok (w.callAllow deciding now request).1) := by
  simp only [Allow, getRateLimiters_bound fn m request h]

theorem Reserve_bound (fn : RequestPriorityFn) (m : GoMap (RequestRateLimiter σ R))
    (methods : ReservationMethods σ R) (now : Time) (request : Request) (w : World σ R)
    {deciding : RequestRateLimiter σ R} (h : m.lookup (fn request) = some deciding) :
    (NewPriorityRateLimiter fn m).Reserve methods now request w
      = if !methods.OK (Reservation.basic (w.callReserve deciding now request).1) then
          ((w.callReserve deciding now request).2,
            Except.ok (Reservation.basic (w.callReserve deciding now request).1))
        else
          ((reserveAll now request (lowerTiers m (fn request))
              (w.callReserve deciding now request).2).2,
            Except.ok (Reservation.NewPriorityReservation (w.callReserve deciding now request).1
              (reserveAll now request (lowerTiers m (fn request))
                (w.callReserve deciding now request).2).1)) := by
  simp only [Reserve, getRateLimiters_bound fn m request h]

theorem Allow_unbound (fn : RequestPriorityFn) (m : GoMap (RequestRateLimiter σ R))
    (now : Time) (request : Request) (w : World σ R) (h : m.lookup (fn request) = none) :
    (NewPriorityRateLimiter fn m).Allow now request w
      = (w, Except.error (PanicValue.message mismatchMessage)) := by
  simp only [Allow, getRateLimiters_unbound fn m request h]

theorem Reserve_unbound (fn : RequestPriorityFn) (m : GoMap (RequestRateLimiter σ R))
    (methods : ReservationMethods σ R) (now : Time) (request : Request) (w : World σ R)
    (h : m.lookup (fn request) = none) :
    (NewPriorityRateLimiter fn m).Reserve methods now request w
      = (w, Except.error (PanicValue.message mismatchMessage)) := by
  simp only [Reserve, getRateLimiters_unbound fn m request h]

/-- The calls on limiter `i` after one call on another limiter followed by a
charging loop over pairwise distinct limiters. -/
theorem callsOn_after_loop (now : Time) (request : Request) (w out : World σ R) (c : Call R)
    (d i : Nat) (ls : List (RequestRateLimiter σ R))
    (hcalls : out.calls.map Event.call
      = w.calls.map Event.call ++ c :: ls.map (fun l => Call.Reserve l.id now request))
    (hc : c.limiter = some d) (hne : i ≠ d) (hnd : (ls.map (fun l => l.id)).Nodup) :
    out.callsOn i
      = w.callsOn i ++ if i ∈ ls.map (fun l => l.id) then [Call.Reserve i now request] else [] := by
  have hd : ¬ d = i := fun e => hne e.symm
  unfold World.callsOn
  rw [hcalls, List.filter_append, List.filter_cons, hc, filter_reserve_calls now request i ls hnd]
  simp [hd]

end PriorityRateLimiterImpl


theorem forall₂_filterMap_of_isSome {α β : Type} (f : α → Option β) :
    ∀ (ks : List α), (∀ k ∈ ks, (f k).isSome) →
      List.Forall₂ (fun k v => f k = some v) ks (ks.filterMap f)
  | [], _ => List.Forall₂.nil
  | k :: ks, h => by
    obtain ⟨v, hv⟩ := Option.isSome_iff_exists.1 (h k (List.mem_cons_self _ _))
    rw [List.filterMap_cons_some hv]
    exact List.Forall₂.cons hv
      (forall₂_filterMap_of_isSome f ks (fun q hq => h q (List.mem_cons_of_mem _ hq)))

/-- The lower-priority tiers are the limiters bound to the keys greater than
`p`, listed by ascending key. -/
theorem lowerTiers_ascending (m : GoMap (RequestRateLimiter σ R)) (p : Int) :
    ∃ qs : List Int, qs.Sorted (fun a b => a < b) ∧ (∀ q, q ∈ qs ↔ q ∈ m.keys ∧ p < q)
      ∧ List.Forall₂ (fun q l => m.lookup q = some l) qs (lowerTiers m p) := by
  refine ⟨(sortPriorities m.keys).filter (fun q => decide (p < q)), ?_, ?_, ?_⟩
  · exact List.Sorted.filter _ (sortPriorities_sorted m.keys_nodup)
  · intro q
    simp [List.mem_filter, mem_sortPriorities]
  · apply forall₂_filterMap_of_isSome
    intro k hk
    exact sortPriorities_lookup_isSome m k (List.mem_filter.1 hk).1

/-! ## Claims on Allow and Reserve -/

open PriorityRateLimiterImpl

/-- C1: when the limiter bound to the priority of the request refuses in its
`Allow(now, request)`, `Allow` returns false, the single call it makes is that
`Allow` on the deciding limiter, and every other limiter keeps its state and
its log of calls. -/
theorem Allow_refusal_has_no_side_effects (fn : RequestPriorityFn)
    (m : GoMap (RequestRateLimiter σ R)) (now : Time) (request : Request) (w : World σ R)
    (deciding : RequestRateLimiter σ R)
    (hbound : m.lookup (fn request) = some deciding)
    (hrefuse : (deciding.Allow now request (w.state deciding.id)).1 = false) :
    ((NewPriorityRateLimiter fn m).Allow now request w).2 = Except.ok false
    ∧ ((NewPriorityRateLimiter fn m).Allow now request w).1.calls
        = w.calls ++ [⟨Call.Allow deciding.id now request, Returned.allow false⟩]
    ∧ (∀ i, i ≠ deciding.id →
        ((NewPriorityRateLimiter fn m).Allow now request w).1.state i = w.state i)
    ∧ (∀ i, i ≠ deciding.id →
        ((NewPriorityRateLimiter fn m).Allow now request w).1.callsOn i = w.callsOn i) := by
  have h1 : (w.callAllow deciding now request).1 = false := hrefuse
  rw [Allow_bound fn m now request w hbound]
  simp only [h1, Bool.not_false, if_true]
  refine ⟨trivial, ?_, ?_, ?_⟩
  · simp [World.callAllow, hrefuse]
  · intro i hi
    simp [World.callAllow, Function.update_noteq hi]
  · intro i hi
    have hd : ¬ deciding.id = i := fun e => hi e.symm
    simp [World.callsOn, World.callAllow, List.filter_cons, Call.limiter, hd]

/-- C1, the ladder {0, 1, 2}: a request at priority 1 is refused by the empty
bucket of tier 1; the bucket of tier 2 has nothing consumed and was not called. -/
theorem Allow_refusal_has_no_side_effects_witness :
    (ladderMap 5 0 5).lookup (priorityOne oneToken) = some (bucket 11 0)
    ∧ ((bucket 11 0).Allow 0 oneToken (freshWorld.state (bucket 11 0).id)).1 = false
    ∧ ((NewPriorityRateLimiter priorityOne (ladderMap 5 0 5)).Allow 0 oneToken freshWorld).2
        = Except.ok false
    ∧ ((NewPriorityRateLimiter priorityOne (ladderMap 5 0 5)).Allow 0 oneToken freshWorld).1.state 12
        = 0
    ∧ ((NewPriorityRateLimiter priorityOne (ladderMap 5 0 5)).Allow 0 oneToken
        freshWorld).1.callsOn 12 = [] :=
  have h := Allow_refusal_has_no_side_effects priorityOne (ladderMap 5 0 5) 0 oneToken freshWorld
    (bucket 11 0) rfl rfl
  ⟨rfl, rfl, h.1, (h.2.2.1 12 (by decide)).trans rfl, (h.2.2.2 12 (by decide)).trans rfl⟩

/-- C2: when the limiter bound to the priority `p` of the request admits,
`Allow` returns true; after the deciding `Allow` it calls `Reserve(now, request)`
on the limiters of the lower-priority tiers, one call per tier by ascending
priority value, and nothing else. With pairwise distinct limiters, a limiter
bound to a priority value above `p` gets this one call and moves to the state
its `Reserve` produces, and a limiter bound to a priority value below `p` gets
no call and keeps its state. -/
theorem Allow_admission_charges_lower_tiers (fn : RequestPriorityFn)
    (m : GoMap (RequestRateLimiter σ R)) (now : Time) (request : Request) (w : World σ R)
    (deciding : RequestRateLimiter σ R)
    (hbound : m.lookup (fn request) = some deciding)
    (hallows : (deciding.Allow now request (w.state deciding.id)).1 = true) :
    ((NewPriorityRateLimiter fn m).Allow now request w).2 = Except.ok true
    ∧ ((NewPriorityRateLimiter fn m).Allow now request w).1.calls.map Event.call
        = w.calls.map Event.call ++ Call.Allow deciding.id now request ::
            (lowerTiers m (fn request)).map (fun l => Call.Reserve l.id now request)
    ∧ (∀ l, l ∈ lowerTiers m (fn request) ↔ ∃ q, fn request < q ∧ m.lookup q = some l)
    ∧ (DistinctLimiters m → ∀ q l, m.lookup q = some l →
        (fn request < q →
          ((NewPriorityRateLimiter fn m).Allow now request w).1.callsOn l.id
              = w.callsOn l.id ++ [Call.Reserve l.id now request]
          ∧ ((NewPriorityRateLimiter fn m).Allow now request w).1.state l.id
              = (l.Reserve now request (w.state l.id)).2)
        ∧ (q < fn request →
          ((NewPriorityRateLimiter fn m).Allow now request w).1.callsOn l.id = w.callsOn l.id
          ∧ ((NewPriorityRateLimiter fn m).Allow now request w).1.state l.id = w.state l.id)) := by
  have h1 : (w.callAllow deciding now request).1 = true := hallows
  have hcalls : ((NewPriorityRateLimiter fn m).Allow now request w).1.calls.map Event.call
      = w.calls.map Event.call ++ Call.Allow deciding.id now request ::
          (lowerTiers m (fn request)).map (fun l => Call.Reserve l.id now request) := by
    rw [Allow_bound fn m now request w hbound]
    simp only [h1, Bool.not_true, Bool.false_eq_true, if_false]
    rw [consumeAll_calls]
    simp [World.callAllow]
  have hstate : ((NewPriorityRateLimiter fn m).Allow now request w).1
      = consumeAll now request (lowerTiers m (fn request)) (w.callAllow deciding now request).2 := by
    rw [Allow_bound fn m now request w hbound]
    simp only [h1, Bool.not_true, Bool.false_eq_true, if_false]
  refine ⟨?_, hcalls, ?_, ?_⟩
  · rw [Allow_bound fn m now request w hbound]
    simp only [h1, Bool.not_true, Bool.false_eq_true, if_false]
  · exact mem_lowerTiers m (fn request)
  · intro hd q l hl
    have hnd := hd.lowerTiers_nodup (fn request)
    have hne : ∀ {q : Int} {l : RequestRateLimiter σ R}, m.lookup q = some l →
        q ≠ fn request → l.id ≠ deciding.id := fun hq hqp e =>
      hqp (hd.priority_eq hq hbound e).1
    constructor
    · intro hpq
      have hid := hne hl (ne_of_gt hpq)
      have hmem := (hd.mem_lowerTiers_ids (fn request) hl).2 hpq
      constructor
      · rw [callsOn_after_loop now request w _ _ deciding.id l.id _ hcalls rfl hid hnd,
          if_pos hmem]
      · rw [hstate, consumeAll_state_of_mem now request _ _ hnd l
          ((mem_lowerTiers m _ l).2 ⟨q, hpq, hl⟩)]
        simp [World.callAllow, Function.update_noteq hid]
    · intro hqp
      have hid := hne hl (ne_of_lt hqp)
      have hmem : l.id ∉ (lowerTiers m (fn request)).map (fun l => l.id) := fun h =>
        absurd ((hd.mem_lowerTiers_ids (fn request) hl).1 h) (not_lt.2 hqp.le)
      constructor
      · rw [callsOn_after_loop now request w _ _ deciding.id l.id _ hcalls rfl hid hnd,
          if_neg hmem, List.append_nil]
      · rw [hstate, consumeAll_state_of_not_mem now request _ _ _ hmem]
        simp [World.callAllow, Function.update_noteq hid]


/-- C2, the ladder {0, 1, 2}: a request at priority 1 is admitted by tier 1;
tier 2 shows exactly one unit consumed and tier 0 none. -/
theorem Allow_admission_charges_lower_tiers_witness :
    (ladderMap 5 1 5).lookup (priorityOne oneToken) = some (bucket 11 1)
    ∧ ((bucket 11 1).Allow 0 oneToken (freshWorld.state (bucket 11 1).id)).1 = true
    ∧ DistinctLimiters (ladderMap 5 1 5)
    ∧ ((NewPriorityRateLimiter priorityOne (ladderMap 5 1 5)).Allow 0 oneToken freshWorld).2
        = Except.ok true
    ∧ ((NewPriorityRateLimiter priorityOne (ladderMap 5 1 5)).Allow 0 oneToken freshWorld).1.state 12
        = 1
    ∧ ((NewPriorityRateLimiter priorityOne (ladderMap 5 1 5)).Allow 0 oneToken freshWorld).1.state 10
        = 0
    ∧ ((NewPriorityRateLimiter priorityOne (ladderMap 5 1 5)).Allow 0 oneToken
        freshWorld).1.callsOn 12 = [Call.Reserve 12 0 oneToken]
    ∧ ((NewPriorityRateLimiter priorityOne (ladderMap 5 1 5)).Allow 0 oneToken
        freshWorld).1.callsOn 10 = [] :=
  have hd : DistinctLimiters (ladderMap 5 1 5) := by decide
  have h := Allow_admission_charges_lower_tiers priorityOne (ladderMap 5 1 5) 0 oneToken
    freshWorld (bucket 11 1) rfl rfl
  have h2 := (h.2.2.2 hd 2 (bucket 12 5) rfl).1 (by decide)
  have h0 := (h.2.2.2 hd 0 (bucket 10 5) rfl).2 (by decide)
  ⟨rfl, rfl, hd, h.1, h2.2.trans rfl, h0.2.trans rfl, h2.1.trans rfl, h0.1.trans rfl⟩


/-- C3: when the reservation of the limiter bound to the priority of the
request is not OK, `Reserve` returns that very reservation, not a composite,
the single call it makes is that `Reserve` on the deciding limiter, and every
other limiter keeps its state and its log of calls. -/
theorem Reserve_refusal_returned_unmodified (fn : RequestPriorityFn)
    (m : GoMap (RequestRateLimiter σ R)) (methods : ReservationMethods σ R) (now : Time)
    (request : Request) (w : World σ R) (deciding : RequestRateLimiter σ R)
    (hbound : m.lookup (fn request) = some deciding)
    (hnotok : methods.OK
      (Reservation.basic (deciding.Reserve now request (w.state deciding.id)).1) = false) :
    ((NewPriorityRateLimiter fn m).Reserve methods now request w).2
        = Except.ok (Reservation.basic (deciding.Reserve now request (w.state deciding.id)).1)
    ∧ ((NewPriorityRateLimiter fn m).Reserve methods now request w).1.calls
        = w.calls ++ [reserveEvent now request deciding
            (deciding.Reserve now request (w.state deciding.id)).1]
    ∧ (∀ i, i ≠ deciding.id →
        ((NewPriorityRateLimiter fn m).Reserve methods now request w).1.state i = w.state i)
    ∧ (∀ i, i ≠ deciding.id →
        ((NewPriorityRateLimiter fn m).Reserve methods now request w).1.callsOn i
          = w.callsOn i) := by
  have h1 : methods.OK (Reservation.basic (w.callReserve deciding now request).1) = false :=
    hnotok
  rw [Reserve_bound fn m methods now request w hbound]
  simp only [h1, Bool.not_false, if_true]
  refine ⟨rfl, rfl, ?_, ?_⟩
  · intro i hi
    simp [World.callReserve, Function.update_noteq hi]
  · intro i hi
    have hd : ¬ deciding.id = i := fun e => hi e.symm
    simp [World.callsOn, World.callReserve, List.filter_cons, Call.limiter, hd]

/-- C3, the ladder {0, 1, 2}: the empty bucket of tier 1 hands out a
reservation that is not OK; it comes back as it is and tier 2 is untouched. -/
theorem Reserve_refusal_returned_unmodified_witness :
    (ladderMap 5 0 5).lookup (priorityOne oneToken) = some (bucket 11 0)
    ∧ bucketMethods.OK (Reservation.basic
        ((bucket 11 0).Reserve 0 oneToken (freshWorld.state (bucket 11 0).id)).1) = false
    ∧ ((NewPriorityRateLimiter priorityOne (ladderMap 5 0 5)).Reserve bucketMethods 0 oneToken
        freshWorld).2 = Except.ok (Reservation.basic false)
    ∧ ((NewPriorityRateLimiter priorityOne (ladderMap 5 0 5)).Reserve bucketMethods 0 oneToken
        freshWorld).1.state 12 = 0 :=
  have h := Reserve_refusal_returned_unmodified priorityOne (ladderMap 5 0 5) bucketMethods 0
    oneToken freshWorld (bucket 11 0) rfl rfl
  ⟨rfl, rfl, h.1, (h.2.2.1 12 (by decide)).trans rfl⟩

/-- C4: when the deciding reservation is OK, `Reserve` returns the composite
`NewPriorityReservation(deciding, others)`; after the deciding `Reserve` the
calls it makes are one `Reserve(now, request)` per limiter of the lower-priority
tiers, by ascending priority value, and `others` lists what these calls
returned, one reservation per call in the same order. With pairwise distinct
limiters every one of them is the reservation its limiter produces from the
state it had before. -/
theorem Reserve_success_bundles_charged_tiers (fn : RequestPriorityFn)
    (m : GoMap (RequestRateLimiter σ R)) (methods : ReservationMethods σ R) (now : Time)
    (request : Request) (w : World σ R) (deciding : RequestRateLimiter σ R)
    (hbound : m.lookup (fn request) = some deciding)
    (hok : methods.OK
      (Reservation.basic (deciding.Reserve now request (w.state deciding.id)).1) = true) :
    ∃ others : List R,
      ((NewPriorityRateLimiter fn m).Reserve methods now request w).2
          = Except.ok (Reservation.NewPriorityReservation
              (deciding.Reserve now request (w.state deciding.id)).1 others)
      ∧ others.length = (lowerTiers m (fn request)).length
      ∧ ((NewPriorityRateLimiter fn m).Reserve methods now request w).1.calls
          = w.calls ++ reserveEvent now request deciding
                (deciding.Reserve now request (w.state deciding.id)).1 ::
              List.zipWith (reserveEvent now request) (lowerTiers m (fn request)) others
      ∧ (∃ qs : List Int, qs.Sorted (fun a b => a < b)
          ∧ (∀ q, q ∈ qs ↔ q ∈ m.keys ∧ fn request < q)
          ∧ List.Forall₂ (fun q l => m.lookup q = some l) qs (lowerTiers m (fn request)))
      ∧ (DistinctLimiters m →
          others = (lowerTiers m (fn request)).map
            (fun l => (l.Reserve now request (w.state l.id)).1)) := by
  have h1 : methods.OK (Reservation.basic (w.callReserve deciding now request).1) = true := hok
  refine ⟨(reserveAll now request (lowerTiers m (fn request))
    (w.callReserve deciding now request).2).1, ?_, ?_, ?_, lowerTiers_ascending m _, ?_⟩
  · rw [Reserve_bound fn m methods now request w hbound]
    simp only [h1, Bool.not_true, Bool.false_eq_true, if_false]
    rfl
  · exact reserveAll_length now request _ _
  · rw [Reserve_bound fn m methods now request w hbound]
    simp only [h1, Bool.not_true, Bool.false_eq_true, if_false]
    rw [reserveAll_calls]
    simp [World.callReserve, reserveEvent]
  · intro hd
    rw [reserveAll_reservations now request _ _ (hd.lowerTiers_nodup (fn request))]
    apply List.map_congr_left
    intro l hl
    obtain ⟨q, hpq, hq⟩ := (mem_lowerTiers m _ l).1 hl
    have hid : l.id ≠ deciding.id := fun e =>
      absurd (hd.priority_eq hq hbound e).1 (ne_of_gt hpq)
    simp [World.callReserve, Function.update_noteq hid]

/-- C4, the ladder {0, 1, 2}: a reservation at priority 1 that is OK comes
back as the composite of the reservation of tier 1 and the one of tier 2. -/
theorem Reserve_success_bundles_charged_tiers_witness :
    (ladderMap 5 1 5).lookup (priorityOne oneToken) = some (bucket 11 1)
    ∧ bucketMethods.OK (Reservation.basic
        ((bucket 11 1).Reserve 0 oneToken (freshWorld.state (bucket 11 1).id)).1) = true
    ∧ ((NewPriorityRateLimiter priorityOne (ladderMap 5 1 5)).Reserve bucketMethods 0 oneToken
        freshWorld).2 = Except.ok (Reservation.NewPriorityReservation true [true])
    ∧ ∃ others : List Bool,
        ((NewPriorityRateLimiter priorityOne (ladderMap 5 1 5)).Reserve bucketMethods 0 oneToken
          freshWorld).2 = Except.ok (Reservation.NewPriorityReservation true others)
        ∧ others.length = (lowerTiers (ladderMap 5 1 5) 1).length :=
  have h := Reserve_success_bundles_charged_tiers priorityOne (ladderMap 5 1 5) bucketMethods 0
    oneToken freshWorld (bucket 11 1) rfl rfl
  ⟨rfl, rfl, rfl, h.elim (fun others ho => ⟨others, ho.1, ho.2.1⟩)⟩

/-- C5: on a limiter built by `NewPriorityRateLimiter`, `getRateLimiters`
panics exactly when the priority of the request is not a key of the map, and so
do `Allow` and `Reserve`; the panic is the mismatch panic, never an index or a
slice bound out of range, and it leaves the world as it was: no call has been
made. -/
theorem missing_priority_is_fatal_and_only_then (fn : RequestPriorityFn)
    (m : GoMap (RequestRateLimiter σ R)) (methods : ReservationMethods σ R) (now : Time)
    (request : Request) (w : World σ R) :
    ((∃ e, (NewPriorityRateLimiter fn m).getRateLimiters request = Except.error e)
        ↔ fn request ∉ m.keys)
    ∧ ((∃ e, ((NewPriorityRateLimiter fn m).Allow now request w).2 = Except.error e)
        ↔ fn request ∉ m.keys)
    ∧ ((∃ e, ((NewPriorityRateLimiter fn m).Reserve methods now request w).2 = Except.error e)
        ↔ fn request ∉ m.keys)
    ∧ (NewPriorityRateLimiter fn m).getRateLimiters request
        ≠ Except.error PanicValue.indexOutOfRange
    ∧ (NewPriorityRateLimiter fn m).getRateLimiters request
        ≠ Except.error PanicValue.sliceBoundsOutOfRange
    ∧ (fn request ∉ m.keys →
        (NewPriorityRateLimiter fn m).getRateLimiters request
            = Except.error (PanicValue.message mismatchMessage)
        ∧ (NewPriorityRateLimiter fn m).Allow now request w
            = (w, Except.error (PanicValue.message mismatchMessage))
        ∧ (NewPriorityRateLimiter fn m).Reserve methods now request w
            = (w, Except.error (PanicValue.message mismatchMessage))) := by
  cases hl : m.lookup (fn request) with
  | none =>
    have hk : fn request ∉ m.keys := (GoMap.lookup_eq_none_iff m _).1 hl
    rw [Allow_unbound fn m now request w hl, Reserve_unbound fn m methods now request w hl,
      getRateLimiters_unbound fn m request hl]
    simp [hk]
  | some d =>
    have hk : fn request ∈ m.keys := GoMap.mem_keys_of_lookup hl
    rw [Allow_bound fn m now request w hl, Reserve_bound fn m methods now request w hl,
      getRateLimiters_bound fn m request hl]
    refine ⟨by simp [hk], ?_, ?_, by simp, by simp, fun h => absurd hk h⟩
    · constructor
      · rintro ⟨e, he⟩
        split at he <;> cases he
      · exact fun h => absurd hk h
    · constructor
      · rintro ⟨e, he⟩
        split at he <;> cases he
      · exact fun h => absurd hk h

/-- C6: the constructor builds a sorted dense ladder. The slice has as many
limiters as the map has keys; `priorityToIndex` is defined on the keys of the
map and nowhere else, takes them onto `0..N-1`, and is strictly increasing in
the priority value; the slice holds at the index of a key the limiter the map
binds to that key. In particular the smallest priority value gets index 0. -/
theorem NewPriorityRateLimiter_builds_sorted_dense_ladder (fn : RequestPriorityFn)
    (m : GoMap (RequestRateLimiter σ R)) :
    (NewPriorityRateLimiter fn m).rateLimiters.length = m.len
    ∧ (∀ q, q ∈ m.keys →
        ∃ i, i < m.len ∧ (NewPriorityRateLimiter fn m).priorityToIndex.lookup q = some i)
    ∧ (∀ q, q ∉ m.keys → (NewPriorityRateLimiter fn m).priorityToIndex.lookup q = none)
    ∧ (∀ i, i < m.len →
        ∃ q, q ∈ m.keys ∧ (NewPriorityRateLimiter fn m).priorityToIndex.lookup q = some i)
    ∧ (∀ q q1 i i1, (NewPriorityRateLimiter fn m).priorityToIndex.lookup q = some i →
        (NewPriorityRateLimiter fn m).priorityToIndex.lookup q1 = some i1 →
        (q < q1 ↔ i < i1))
    ∧ (∀ q, q ∈ m.keys → (∀ q1, q1 ∈ m.keys → q ≤ q1) →
        (NewPriorityRateLimiter fn m).priorityToIndex.lookup q = some 0)
    ∧ (∀ q l, m.lookup q = some l →
        ∃ i, (NewPriorityRateLimiter fn m).priorityToIndex.lookup q = some i
          ∧ (NewPriorityRateLimiter fn m).rateLimiters[i]? = some l) := by
  have hlen : (sortPriorities m.keys).length = m.len := by
    rw [sortPriorities_length]
    simp [GoMap.keys, GoMap.len]
  have hidx : ∀ q i, (NewPriorityRateLimiter fn m).priorityToIndex.lookup q = some i →
      q ∈ m.keys ∧ (sortPriorities m.keys)[i]? = some q := by
    intro q i h
    rw [NewPriorityRateLimiter_priorityToIndex] at h
    by_cases hq : q ∈ m.keys
    · rw [if_pos hq] at h
      cases h
      exact ⟨hq, sortPriorities_getElem?_indexOf hq⟩
    · rw [if_neg hq] at h
      cases h
  have honto : ∀ i, i < m.len →
      ∃ q, q ∈ m.keys ∧ (NewPriorityRateLimiter fn m).priorityToIndex.lookup q = some i := by
    intro i hi
    rw [← hlen] at hi
    have hq : (sortPriorities m.keys)[i] ∈ m.keys :=
      (mem_sortPriorities _ _).1 (List.getElem_mem hi)
    refine ⟨(sortPriorities m.keys)[i], hq, ?_⟩
    rw [NewPriorityRateLimiter_priorityToIndex, if_pos hq,
      List.indexOf_getElem (sortPriorities_nodup m.keys_nodup) i hi]
  have hmono : ∀ q q1 i i1, (NewPriorityRateLimiter fn m).priorityToIndex.lookup q = some i →
      (NewPriorityRateLimiter fn m).priorityToIndex.lookup q1 = some i1 →
      (q < q1 ↔ i < i1) := fun q q1 i i1 h h1 =>
    sorted_lt_iff_index_lt (sortPriorities_sorted m.keys_nodup) (hidx q i h).2 (hidx q1 i1 h1).2
  refine ⟨?_, ?_, ?_, honto, hmono, ?_, ?_⟩
  · rw [NewPriorityRateLimiter_rateLimiters,
      filterMap_length_of_isSome _ _ (sortPriorities_lookup_isSome m), hlen]
  · intro q hq
    refine ⟨(sortPriorities m.keys).indexOf q, ?_, ?_⟩
    · rw [← hlen]
      exact List.indexOf_lt_length.2 ((mem_sortPriorities _ _).2 hq)
    · rw [NewPriorityRateLimiter_priorityToIndex, if_pos hq]
  · intro q hq
    rw [NewPriorityRateLimiter_priorityToIndex, if_neg hq]
  · intro q hq hmin
    have hpos : 0 < m.len := by
      rw [← hlen]
      exact List.length_pos_of_mem ((mem_sortPriorities _ _).2 hq)
    obtain ⟨q0, hq0, h0⟩ := honto 0 hpos
    have hi : (NewPriorityRateLimiter fn m).priorityToIndex.lookup q
        = some ((sortPriorities m.keys).indexOf q) := by
      rw [NewPriorityRateLimiter_priorityToIndex, if_pos hq]
    rcases Nat.eq_zero_or_pos ((sortPriorities m.keys).indexOf q) with hz | hz
    · rw [hi, hz]
    · exact absurd ((hmono q0 q 0 _ h0 hi).2 hz) (not_lt.2 (hmin q0 hq0))
  · intro q l hl
    have hq := GoMap.mem_keys_of_lookup hl
    refine ⟨(sortPriorities m.keys).indexOf q, ?_, ?_⟩
    · rw [NewPriorityRateLimiter_priorityToIndex, if_pos hq]
    · rw [rateLimiters_getElem? fn m hq, hl]


/-! ## Claims on Wait -/

/-- C7: with a context that is not done, a reservation that is OK, a non-zero
delay `d = DelayFrom(now)` and a deadline whose distance `deadline.Sub(now)` is
shorter than `d`, `Wait` calls `CancelAt(now)` on the reservation, once, and
returns the deadline error; it starts no timer and does not reach the blocking
`select`, whatever that `select` would have taken. -/
theorem Wait_deadline_shorter_than_delay (p : PriorityRateLimiterImpl σ R)
    (methods : ReservationMethods σ R) (ctx : Context) (now : Time) (selected : Selected)
    (request : Request) (w w1 : World σ R) (reservation : Reservation R) (deadline : Time)
    (hctx : ctx.Err = none)
    (hres : p.Reserve methods now request w = (w1, Except.ok reservation))
    (hok : methods.OK reservation = true)
    (hdelay : methods.DelayFrom reservation now ≠ Duration.zero)
    (hdeadline : ctx.Deadline = some deadline)
    (hshort : Time.Sub deadline now < methods.DelayFrom reservation now) :
    (p.Wait methods ctx now selected request w).2 = Except.ok (some (waitError request))
    ∧ (p.Wait methods ctx now selected request w).1.calls
        = w1.calls ++ [⟨Call.CancelAt reservation now, Returned.nothing⟩]
    ∧ (p.Wait methods ctx now selected request w).1.state
        = methods.CancelAt reservation now w1.state := by
  have h : p.Wait methods ctx now selected request w
      = (w1.callCancelAt methods reservation now, Except.ok (some (waitError request))) := by
    unfold Wait
    simp only [hctx, hres, hok, hdelay, hdeadline, hshort, Bool.not_true, Bool.false_eq_true,
      if_false, if_true]
  rw [h]
  exact ⟨rfl, rfl, rfl⟩

/-- C7, the ladder {0, 1, 2}: a delay of ten nanoseconds against a deadline
three nanoseconds away. -/
theorem Wait_deadline_shorter_than_delay_witness :
    (liveContext (some 3)).Err = none
    ∧ (NewPriorityRateLimiter priorityOne (ladderMap 5 1 5)).Reserve delayedMethods 0 oneToken
        freshWorld
      = (((NewPriorityRateLimiter priorityOne (ladderMap 5 1 5)).Reserve delayedMethods 0 oneToken
          freshWorld).1, Except.ok (Reservation.NewPriorityReservation true [true]))
    ∧ ((NewPriorityRateLimiter priorityOne (ladderMap 5 1 5)).Wait delayedMethods
        (liveContext (some 3)) 0 Selected.timer oneToken freshWorld).2
      = Except.ok (some (waitError oneToken)) :=
  ⟨rfl, rfl,
    (Wait_deadline_shorter_than_delay (NewPriorityRateLimiter priorityOne (ladderMap 5 1 5))
      delayedMethods (liveContext (some 3)) 0 Selected.timer oneToken freshWorld _
      (Reservation.NewPriorityReservation true [true]) 3 rfl rfl rfl (by decide) rfl
      (by decide)).1⟩

/-- C8: with a context that is not done, when the reservation returned by
`Reserve(now, request)` is not OK, `Wait` returns the error
"rate: Wait(n=<Token>) would exceed context deadline" in the world that single
`Reserve` left: no timer, no cancellation, no second reservation. -/
theorem Wait_refused_reservation (p : PriorityRateLimiterImpl σ R)
    (methods : ReservationMethods σ R) (ctx : Context) (now : Time) (selected : Selected)
    (request : Request) (w w1 : World σ R) (reservation : Reservation R)
    (hctx : ctx.Err = none)
    (hres : p.Reserve methods now request w = (w1, Except.ok reservation))
    (hnotok : methods.OK reservation = false) :
    p.Wait methods ctx now selected request w
      = (w1, Except.ok (some (Error.errorf
          ("rate: Wait(n=" ++ toString request.Token ++ ") would exceed context deadline")))) := by
  unfold Wait
  simp only [hctx, hres, hnotok, Bool.not_false, if_true]
  rfl

/-- C8, the ladder {0, 1, 2}: the empty bucket of tier 1 refuses the
reservation of one token; the single call made is the `Reserve` on tier 1. -/
theorem Wait_refused_reservation_witness :
    (liveContext none).Err = none
    ∧ bucketMethods.OK (Reservation.basic false) = false
    ∧ (NewPriorityRateLimiter priorityOne (ladderMap 5 0 5)).Wait bucketMethods
        (liveContext none) 0 Selected.timer oneToken freshWorld
      = (((NewPriorityRateLimiter priorityOne (ladderMap 5 0 5)).Reserve bucketMethods 0 oneToken
          freshWorld).1,
        Except.ok (some (Error.errorf "rate: Wait(n=1) would exceed context deadline")))
    ∧ ((NewPriorityRateLimiter priorityOne (ladderMap 5 0 5)).Wait bucketMethods
        (liveContext none) 0 Selected.timer oneToken freshWorld).1.calls
      = [⟨Call.Reserve 11 0 oneToken, Returned.reservation false⟩] :=
  have h := Wait_refused_reservation (NewPriorityRateLimiter priorityOne (ladderMap 5 0 5))
    bucketMethods (liveContext none) 0 Selected.timer oneToken freshWorld _
    (Reservation.basic false) rfl rfl rfl
  ⟨rfl, rfl, h.trans rfl, (congrArg (fun r => r.1.calls) h).trans rfl⟩

/-- C9: when the context is already done on entry, `Wait` returns the error of
the context and leaves the world as it was: no `Reserve` on any limiter. This
holds for every limiter struct and every request, also for a request whose
priority no limiter is bound to. -/
theorem Wait_checks_cancellation_first (p : PriorityRateLimiterImpl σ R)
    (methods : ReservationMethods σ R) (ctx : Context) (now : Time) (selected : Selected)
    (request : Request) (w : World σ R) (err : ContextError)
    (hdone : ctx.Err = some err) :
    p.Wait methods ctx now selected request w = (w, Except.ok (some (Error.context err))) := by
  unfold Wait
  simp only [hdone]

/-- C9, the ladder {0, 1, 2} and a request of the unbound priority 7: `Reserve`
would panic, `Wait` on a cancelled context returns `context.Canceled` and makes
no call. -/
theorem Wait_checks_cancellation_first_witness :
    cancelledContext.Err = some ContextError.Canceled
    ∧ ((NewPriorityRateLimiter prioritySeven (ladderMap 5 5 5)).Reserve bucketMethods 0 oneToken
        freshWorld).2 = Except.error (PanicValue.message mismatchMessage)
    ∧ ((NewPriorityRateLimiter prioritySeven (ladderMap 5 5 5)).Wait bucketMethods
        cancelledContext 0 Selected.timer oneToken freshWorld).2
      = Except.ok (some (Error.context ContextError.Canceled))
    ∧ ((NewPriorityRateLimiter prioritySeven (ladderMap 5 5 5)).Wait bucketMethods
        cancelledContext 0 Selected.timer oneToken freshWorld).1.calls = [] :=
  have h := Wait_checks_cancellation_first
    (NewPriorityRateLimiter prioritySeven (ladderMap 5 5 5)) bucketMethods cancelledContext 0
    Selected.timer oneToken freshWorld ContextError.Canceled rfl
  ⟨rfl, rfl, congrArg Prod.snd h, congrArg (fun r => r.1.calls) h⟩


/-- C10: on the cancellation path `Wait` cancels its reservation. When the
context is not done on entry, the reservation is OK, its delay is non-zero and
not longer than the distance to the deadline (or there is no deadline), and the
final `select` takes `ctx.Done()`, then `Wait` starts the timer, calls
`CancelAt` on the reservation, once, at the time read in that branch, stops the
timer and returns the error of the context. Conversely, when `Wait` returns nil
the reservation was OK and `Wait` made no `CancelAt`: beyond the calls of
`Reserve` the log holds nothing, or the timer started and stopped. -/
theorem Wait_cancels_reservation_on_cancellation (p : PriorityRateLimiterImpl σ R)
    (methods : ReservationMethods σ R) (ctx : Context) (now : Time) (request : Request)
    (w : World σ R) :
    (∀ (w1 : World σ R) (reservation : Reservation R) (err : ContextError) (cancelNow : Time),
        ctx.Err = none →
        p.Reserve methods now request w = (w1, Except.ok reservation) →
        methods.OK reservation = true →
        methods.DelayFrom reservation now ≠ Duration.zero →
        (∀ deadline, ctx.Deadline = some deadline →
          ¬ Time.Sub deadline now < methods.DelayFrom reservation now) →
        (p.Wait methods ctx now (Selected.done err cancelNow) request w).2
            = Except.ok (some (Error.context err))
        ∧ (p.Wait methods ctx now (Selected.done err cancelNow) request w).1.calls
            = w1.calls ++ [⟨Call.NewTimer (methods.DelayFrom reservation now), Returned.nothing⟩,
                ⟨Call.CancelAt reservation cancelNow, Returned.nothing⟩,
                ⟨Call.Stop, Returned.nothing⟩]
        ∧ (p.Wait methods ctx now (Selected.done err cancelNow) request w).1.state
            = methods.CancelAt reservation cancelNow w1.state)
    ∧ (∀ selected : Selected,
        (p.Wait methods ctx now selected request w).2 = Except.ok none →
        ∃ (w1 : World σ R) (reservation : Reservation R),
          p.Reserve methods now request w = (w1, Except.ok reservation)
          ∧ methods.OK reservation = true
          ∧ (p.Wait methods ctx now selected request w).1.state = w1.state
          ∧ ((p.Wait methods ctx now selected request w).1.calls = w1.calls
            ∨ (p.Wait methods ctx now selected request w).1.calls
                = w1.calls ++ [⟨Call.NewTimer (methods.DelayFrom reservation now),
                    Returned.nothing⟩, ⟨Call.Stop, Returned.nothing⟩])) := by
  constructor
  · intro w1 reservation err cancelNow hctx hres hok hdelay hfits
    have hlimit : ¬ (match ctx.Deadline with
        | some deadline => Time.Sub deadline now
        | none => InfDuration) < methods.DelayFrom reservation now := by
      cases hd : ctx.Deadline with
      | none => exact not_lt.2 (methods.DelayFrom reservation now).property.2
      | some deadline => exact hfits deadline hd
    have h : p.Wait methods ctx now (Selected.done err cancelNow) request w
        = (((w1.record (Call.NewTimer (methods.DelayFrom reservation now))).callCancelAt methods
            reservation cancelNow).record Call.Stop, Except.ok (some (Error.context err))) := by
      unfold Wait
      simp only [hctx, hres, hok, hdelay, hlimit, Bool.not_true, Bool.false_eq_true, if_false]
    rw [h]
    refine ⟨rfl, ?_, rfl⟩
    simp [World.record, World.callCancelAt]
  · intro selected h
    unfold Wait at h ⊢
    cases hctx : ctx.Err with
    | some err => simp [hctx] at h
    | none =>
      simp only [hctx] at h ⊢
      rcases hres : p.Reserve methods now request w with ⟨w1, r⟩
      cases r with
      | error e => simp [hres] at h
      | ok reservation =>
        simp only [hres] at h ⊢
        refine ⟨w1, reservation, rfl, ?_⟩
        cases hok : methods.OK reservation with
        | false => simp [hok] at h
        | true =>
          simp only [hok, Bool.not_true, Bool.false_eq_true, if_false] at h ⊢
          refine ⟨trivial, ?_⟩
          by_cases hdelay : methods.DelayFrom reservation now = Duration.zero
          · simp [hdelay]
          · simp only [hdelay, if_false] at h ⊢
            split at h
            · simp at h
            · rename_i hlimit
              simp only [hlimit, if_false]
              cases selected with
              | timer => simp [World.record]
              | done err cancelNow => simp at h

/-- C10, the ladder {0, 1, 2}: a delay of ten nanoseconds fits a deadline a
hundred nanoseconds away; cancelled while waiting, `Wait` cancels the composite
reservation once and returns `context.Canceled`; when the timer fires instead
it returns nil. -/
theorem Wait_cancels_reservation_on_cancellation_witness :
    ((NewPriorityRateLimiter priorityOne (ladderMap 5 1 5)).Wait delayedMethods
        (liveContext (some 100)) 0 (Selected.done ContextError.Canceled 4) oneToken freshWorld).2
      = Except.ok (some (Error.context ContextError.Canceled))
    ∧ ((NewPriorityRateLimiter priorityOne (ladderMap 5 1 5)).Wait delayedMethods
        (liveContext (some 100)) 0 (Selected.done ContextError.Canceled 4) oneToken
          freshWorld).1.calls
      = [⟨Call.Reserve 11 0 oneToken, Returned.reservation true⟩,
          ⟨Call.Reserve 12 0 oneToken, Returned.reservation true⟩,
          ⟨Call.NewTimer ⟨10, by decide⟩, Returned.nothing⟩,
          ⟨Call.CancelAt (Reservation.NewPriorityReservation true [true]) 4, Returned.nothing⟩,
          ⟨Call.Stop, Returned.nothing⟩]
    ∧ ((NewPriorityRateLimiter priorityOne (ladderMap 5 1 5)).Wait delayedMethods
        (liveContext (some 100)) 0 Selected.timer oneToken freshWorld).2 = Except.ok none
    ∧ ∃ (w1 : World Nat Bool) (reservation : Reservation Bool),
        (NewPriorityRateLimiter priorityOne (ladderMap 5 1 5)).Reserve delayedMethods 0 oneToken
            freshWorld = (w1, Except.ok reservation)
        ∧ delayedMethods.OK reservation = true :=
  have h := Wait_cancels_reservation_on_cancellation
    (NewPriorityRateLimiter priorityOne (ladderMap 5 1 5)) delayedMethods
    (liveContext (some 100)) 0 oneToken freshWorld
  have h1 := h.1 _ (Reservation.NewPriorityReservation true [true]) ContextError.Canceled 4
    rfl rfl rfl (by decide) (fun deadline hd => by cases hd; decide)
  ⟨h1.1, h1.2.1.trans rfl, rfl,
    (h.2 Selected.timer rfl).elim (fun w1 hw => hw.elim (fun r hr => ⟨w1, r, hr.1, hr.2.1⟩))⟩

/-! ## Claims on getRateLimiters -/

/-- C21, counterexample: on the ladder {0, 1, 2} a request at priority 1 gets
the limiter of tier 1 as the deciding limiter and, as the only consuming
limiter, the one bound to the priority value 2, which is greater than 1; the
limiter bound to the smaller priority value 0 is not among them. -/
theorem getRateLimiters_consumes_greater_priority_value :
    (NewPriorityRateLimiter priorityOne (ladderMap 5 5 5)).getRateLimiters oneToken
      = Except.ok (bucket 11 5, [bucket 12 5])
    ∧ (ladderMap 5 5 5).lookup 2 = some (bucket 12 5)
    ∧ (ladderMap 5 5 5).lookup 0 = some (bucket 10 5)
    ∧ priorityOne oneToken = 1
    ∧ (bucket 10 5).id ∉ [bucket 12 5].map (fun l => l.id)
    ∧ ¬ (∀ q l, (ladderMap 5 5 5).lookup q = some l → q < priorityOne oneToken →
          l.id ∈ [bucket 12 5].map (fun l => l.id)) := by
  refine ⟨rfl, rfl, rfl, rfl, by decide, ?_⟩
  intro h
  have h1 := h 0 (bucket 10 5) rfl (by decide)
  revert h1
  decide

/-- C21, amended: on a limiter built by `NewPriorityRateLimiter`, for a request
whose priority `p` is bound, `getRateLimiters` returns the limiter bound to `p`
as the deciding limiter and, as the consuming limiters, exactly the limiters
bound to the priority values strictly greater than `p`, by ascending priority
value. With pairwise distinct limiters, a limiter of the map is among them if
and only if its priority value is greater than `p`. -/
theorem getRateLimiters_returns_deciding_and_lower_tiers (fn : RequestPriorityFn)
    (m : GoMap (RequestRateLimiter σ R)) (request : Request)
    (deciding : RequestRateLimiter σ R)
    (hbound : m.lookup (fn request) = some deciding) :
    ∃ consuming : List (RequestRateLimiter σ R),
      (NewPriorityRateLimiter fn m).getRateLimiters request = Except.ok (deciding, consuming)
      ∧ (∀ l, l ∈ consuming ↔ ∃ q, fn request < q ∧ m.lookup q = some l)
      ∧ (∃ qs : List Int, qs.Sorted (fun a b => a < b)
          ∧ (∀ q, q ∈ qs ↔ q ∈ m.keys ∧ fn request < q)
          ∧ List.Forall₂ (fun q l => m.lookup q = some l) qs consuming)
      ∧ (DistinctLimiters m → ∀ q l, m.lookup q = some l →
          (l.id ∈ consuming.map (fun c => c.id) ↔ fn request < q)) :=
  ⟨lowerTiers m (fn request), getRateLimiters_bound fn m request hbound,
    mem_lowerTiers m (fn request), lowerTiers_ascending m (fn request),
    fun hd _ _ hl => hd.mem_lowerTiers_ids (fn request) hl⟩

/-- C21, amended, on the ladder {0, 1, 2} with a request at priority 1. -/
theorem getRateLimiters_returns_deciding_and_lower_tiers_witness :
    (ladderMap 5 5 5).lookup (priorityOne oneToken) = some (bucket 11 5)
    ∧ ∃ consuming : List (RequestRateLimiter Nat Bool),
        (NewPriorityRateLimiter priorityOne (ladderMap 5 5 5)).getRateLimiters oneToken
          = Except.ok (bucket 11 5, consuming)
        ∧ (∀ l, l ∈ consuming ↔ ∃ q, priorityOne oneToken < q
            ∧ (ladderMap 5 5 5).lookup q = some l) :=
  ⟨rfl, (getRateLimiters_returns_deciding_and_lower_tiers priorityOne (ladderMap 5 5 5)
    oneToken (bucket 11 5) rfl).elim (fun consuming h => ⟨consuming, h.1, h.2.1⟩)⟩

end Quotas

/-! # The scheduled queue: claims -/

namespace Queues

open Quotas (Time Duration Request Millisecond Second Minute)

/-! ## The expiry test -/

theorem truncate_precision (t : Time) :
    Time.Truncate t ScheduledTaskMinPrecision = t - t % 1000000 := by
  have h : ¬ (ScheduledTaskMinPrecision.val ≤ 0) := by decide
  unfold Time.Truncate
  rw [if_neg h]
  rfl

theorem truncReference_eq (t : Time) : truncReference t = t - t % 1000000 := by
  have h : truncReference t = (1000000 : Int) * ((t : Int) / 1000000) := rfl
  have h1 : (1000000 : Int) * ((t : Int) / 1000000) = (t : Int) - (t : Int) % 1000000 := by
    omega
  exact h.trans h1

theorem truncate_eq_truncReference (t : Time) :
    Time.Truncate t ScheduledTaskMinPrecision = truncReference t := by
  rw [truncate_precision, truncReference_eq]

theorem maxTime_eq_max (a b : Time) : MaxTime a b = max a b := by
  unfold MaxTime Time.After
  by_cases h : b < a
  · simp [h, max_eq_left h.le]
  · simp [h, max_eq_right (not_lt.1 h)]

theorem IsTimeExpired_scheduled (task : Task) (referenceTime testingTime : Time)
    (h : task.Category.typ ≠ CategoryType.Immediate) :
    IsTimeExpired task referenceTime testingTime
      = decide (truncReference testingTime
          ≤ truncReference (max referenceTime task.Key.FireTime)) := by
  unfold IsTimeExpired Time.After
  simp only [h, if_false, truncate_eq_truncReference, maxTime_eq_max]
  by_cases hlt : truncReference (max referenceTime task.Key.FireTime) < truncReference testingTime
  · simp [hlt]
  · simp [hlt, not_lt.1 hlt]

/-- C11: `IsTimeExpired` is false for every task whose category type is
immediate, whatever the reference time, the testing time and the fire time. -/
theorem IsTimeExpired_immediate_never_expired (task : Task) (referenceTime testingTime : Time)
    (h : task.Category.typ = CategoryType.Immediate) :
    IsTimeExpired task referenceTime testingTime = false := by
  unfold IsTimeExpired
  simp [h]

/-- C11, an immediate task firing far in the future, tested far before the
reference time. -/
theorem IsTimeExpired_immediate_never_expired_witness :
    (taskAt transferCategory 9000000000000000000 1).Category.typ = CategoryType.Immediate
    ∧ IsTimeExpired (taskAt transferCategory 9000000000000000000 1) 5000000000 (-5000000000)
        = false :=
  ⟨rfl, IsTimeExpired_immediate_never_expired (taskAt transferCategory 9000000000000000000 1)
    5000000000 (-5000000000) rfl⟩

/-- C12: for a task that is not immediate, with fire time `T`, `IsTimeExpired`
is true exactly when `trunc(test)` is not strictly after `trunc(max(ref, T))`.
Here `trunc` is the reference rounding: `trunc(t)` is a multiple of the
precision, not after `t` and less than one precision before it; the code's
`Truncate` computes it. While `ref` is before `T` the result does not depend
on `ref`. -/
theorem IsTimeExpired_scheduled_matches_reference (task : Task)
    (referenceTime testingTime : Time)
    (h : task.Category.typ ≠ CategoryType.Immediate) :
    (IsTimeExpired task referenceTime testingTime = true
      ↔ ¬ truncReference (max referenceTime task.Key.FireTime) < truncReference testingTime)
    ∧ (∀ t : Time, Time.Truncate t ScheduledTaskMinPrecision = truncReference t
        ∧ (∃ k : Int, truncReference t = k * ScheduledTaskMinPrecision.val)
        ∧ truncReference t ≤ t ∧ t < truncReference t + ScheduledTaskMinPrecision.val)
    ∧ (∀ otherReference : Time, referenceTime < task.Key.FireTime →
        otherReference < task.Key.FireTime →
        IsTimeExpired task referenceTime testingTime
          = IsTimeExpired task otherReference testingTime) := by
  refine ⟨?_, ?_, ?_⟩
  · rw [IsTimeExpired_scheduled task referenceTime testingTime h]
    simp
  · intro t
    refine ⟨truncate_eq_truncReference t, ⟨t / 1000000, ?_⟩, ?_, ?_⟩
    · exact mul_comm _ _
    · rw [truncReference_eq]
      have h1 : ∀ x : Int, x - x % 1000000 ≤ x := fun x => by omega
      exact h1 t
    · rw [truncReference_eq]
      have h1 : ∀ x : Int, x < x - x % 1000000 + 1000000 := fun x => by omega
      exact h1 t
  · intro otherReference h1 h2
    rw [IsTimeExpired_scheduled task referenceTime testingTime h,
      IsTimeExpired_scheduled task otherReference testingTime h,
      max_eq_right h1.le, max_eq_right h2.le]

/-- C12, a scheduled task firing at 5.5 ms with reference time 0: expired when
tested at 5.999999 ms, not expired when tested at 6 ms. -/
theorem IsTimeExpired_scheduled_matches_reference_witness :
    (taskAt timerCategory 5500000 1).Category.typ ≠ CategoryType.Immediate
    ∧ IsTimeExpired (taskAt timerCategory 5500000 1) 0 5999999 = true
    ∧ IsTimeExpired (taskAt timerCategory 5500000 1) 0 6000000 = false
    ∧ (IsTimeExpired (taskAt timerCategory 5500000 1) 0 5999999 = true
      ↔ ¬ truncReference (max 0 (taskAt timerCategory 5500000 1).Key.FireTime)
          < truncReference 5999999) :=
  ⟨by decide, by decide, by decide,
    (IsTimeExpired_scheduled_matches_reference (taskAt timerCategory 5500000 1) 0 5999999
      (by decide)).1⟩

/-- C13: for a task that is not immediate, with `M = max(ref, T)` and `p` the
precision, `IsTimeExpired(task, ref, M)` is true and
`IsTimeExpired(task, ref, M + p)` is false, whatever the part of `M` below the
precision. -/
theorem IsTimeExpired_boundary (task : Task) (referenceTime : Time)
    (h : task.Category.typ ≠ CategoryType.Immediate) :
    IsTimeExpired task referenceTime (max referenceTime task.Key.FireTime) = true
    ∧ IsTimeExpired task referenceTime
        (Time.Add (max referenceTime task.Key.FireTime) ScheduledTaskMinPrecision) = false := by
  constructor
  · rw [IsTimeExpired_scheduled task referenceTime _ h]
    simp
  · rw [IsTimeExpired_scheduled task referenceTime _ h]
    have hadd : Time.Add (max referenceTime task.Key.FireTime) ScheduledTaskMinPrecision
        = max referenceTime task.Key.FireTime + 1000000 := rfl
    rw [hadd, truncReference_eq, truncReference_eq, Int.add_emod_self]
    generalize max referenceTime task.Key.FireTime = M
    apply decide_eq_false
    have h1 : ∀ x : Int, ¬ x + 1000000 - x % 1000000 ≤ x - x % 1000000 := fun x => by omega
    exact h1 M

/-- C13, a scheduled task firing at 5.5 ms with reference time 7.25 ms:
expired at 7.25 ms, not expired at 8.25 ms. -/
theorem IsTimeExpired_boundary_witness :
    (taskAt timerCategory 5500000 1).Category.typ ≠ CategoryType.Immediate
    ∧ max (7250000 : Time) (taskAt timerCategory 5500000 1).Key.FireTime = 7250000
    ∧ IsTimeExpired (taskAt timerCategory 5500000 1) 7250000 7250000 = true
    ∧ IsTimeExpired (taskAt timerCategory 5500000 1) 7250000 8250000 = false :=
  have h := IsTimeExpired_boundary (taskAt timerCategory 5500000 1) 7250000 (by decide)
  ⟨by decide, by decide, h.1, h.2⟩

/-! ## Notifications -/

namespace scheduledQueue

theorem notify_trace (p : scheduledQueue) (t : Time) :
    (p.notify t).trace = p.trace ++ [Effect.notify t] := by
  unfold notify signalNewTimer record
  dsimp only
  split
  · rfl
  · split <;> rfl

theorem notify_gateUpdates (p : scheduledQueue) (t : Time) :
    (p.notify t).gateUpdates = p.gateUpdates := by
  unfold gateUpdates
  rw [notify_trace]
  simp

theorem notify_status (p : scheduledQueue) (t : Time) : (p.notify t).status = p.status := by
  unfold notify signalNewTimer record
  dsimp only
  split
  · rfl
  · split <;> rfl

/-- With no pending time recorded, `notify` records the new time. -/
theorem notify_newTime_of_zero (p : scheduledQueue) (t : Time) (h : p.newTime = Time.zero) :
    (p.notify t).newTime = t := by
  unfold notify signalNewTimer record
  simp only [h, Time.IsZero]
  simp
  split <;> rfl

/-- With a pending time recorded, `notify` keeps the earlier of the two times. -/
theorem notify_newTime_of_ne_zero (p : scheduledQueue) (t : Time)
    (h : p.newTime ≠ Time.zero) : (p.notify t).newTime = min p.newTime t := by
  unfold notify signalNewTimer record
  simp only [Time.IsZero, Time.Before, h]
  by_cases hlt : t < p.newTime
  · simp only [hlt, decide_True, decide_False, Bool.not_false, Bool.not_true, Bool.and_false,
      Bool.false_eq_true, if_false]
    rw [min_eq_right hlt.le]
    split <;> rfl
  · simp only [hlt, decide_False, Bool.not_false, Bool.and_self, if_true]
    rw [min_eq_left (not_lt.1 hlt)]

/-- After `notify` the wake-up channel holds one signal, unless the time was
discarded. -/
theorem notify_newTimerCh (p : scheduledQueue) (t : Time)
    (h : p.newTime = Time.zero ∨ t < p.newTime) (hcap : p.newTimerCh ≤ 1) :
    (p.notify t).newTimerCh = 1 := by
  have hcond : (!Time.IsZero p.newTime && !Time.Before t p.newTime) = false := by
    rcases h with h | h
    · simp [Time.IsZero, h]
    · simp [Time.Before, h]
  unfold notify
  simp only [record, hcond, Bool.false_eq_true, if_false]
  unfold signalNewTimer
  dsimp only
  split
  · show p.newTimerCh + 1 = 1
    omega
  · show p.newTimerCh = 1
    omega

theorem notify_newTimerCh_discard (p : scheduledQueue) (t : Time)
    (h : p.newTime ≠ Time.zero) (hge : ¬ t < p.newTime) :
    (p.notify t).newTimerCh = p.newTimerCh := by
  unfold notify
  simp [record, Time.IsZero, Time.Before, h, hge]

theorem notifyAll_append (p : scheduledQueue) (ts us : List Time) :
    p.notifyAll (ts ++ us) = (p.notifyAll ts).notifyAll us := by
  unfold notifyAll
  rw [List.foldl_append]

theorem notifyAll_gateUpdates (ts : List Time) :
    ∀ p : scheduledQueue, (p.notifyAll ts).gateUpdates = p.gateUpdates := by
  induction ts with
  | nil => intro p; rfl
  | cons t ts ih =>
    intro p
    show ((p.notify t).notifyAll ts).gateUpdates = p.gateUpdates
    rw [ih, notify_gateUpdates]

/-- From a recorded pending time, notifications of non-zero times leave the
earliest of the pending time and the notified times. -/
theorem notifyAll_newTime_of_ne_zero (ts : List Time) :
    ∀ p : scheduledQueue, p.newTime ≠ Time.zero → (∀ t ∈ ts, t ≠ Time.zero) →
      (p.notifyAll ts).newTime ≠ Time.zero
      ∧ (p.notifyAll ts).newTime ≤ p.newTime
      ∧ (∀ t ∈ ts, (p.notifyAll ts).newTime ≤ t)
      ∧ ((p.notifyAll ts).newTime = p.newTime ∨ (p.notifyAll ts).newTime ∈ ts) := by
  induction ts with
  | nil =>
    intro p hp _
    exact ⟨hp, le_refl _, fun t ht => absurd ht (List.not_mem_nil t), Or.inl rfl⟩
  | cons t ts ih =>
    intro p hp hts
    have ht : t ≠ Time.zero := hts t (List.mem_cons_self _ _)
    have hn := notify_newTime_of_ne_zero p t hp
    have hn0 : (p.notify t).newTime ≠ Time.zero := by
      rw [hn]
      rcases min_choice p.newTime t with h | h <;> rw [h] <;> assumption
    obtain ⟨h1, h2, h3, h4⟩ := ih (p.notify t) hn0 (fun u hu => hts u (List.mem_cons_of_mem _ hu))
    have hstep : p.notifyAll (t :: ts) = (p.notify t).notifyAll ts := rfl
    rw [hstep]
    rw [hn] at h2 h4
    refine ⟨h1, le_trans h2 (min_le_left _ _), ?_, ?_⟩
    · intro u hu
      rcases List.mem_cons.1 hu with hu | hu
      · rw [hu]
        exact le_trans h2 (min_le_right _ _)
      · exact h3 u hu
    · rcases h4 with h4 | h4
      · rcases min_choice p.newTime t with h | h
        · exact Or.inl (h4.trans h)
        · exact Or.inr (by rw [h4, h]; exact List.mem_cons_self _ _)
      · exact Or.inr (List.mem_cons_of_mem _ h4)

/-- From no pending time, notifications of non-zero times leave the earliest
of the notified times. -/
theorem notifyAll_newTime_of_zero (p : scheduledQueue) (ts : List Time)
    (hp : p.newTime = Time.zero) (hne : ts ≠ []) (hts : ∀ t ∈ ts, t ≠ Time.zero) :
    (p.notifyAll ts).newTime ≠ Time.zero
    ∧ (p.notifyAll ts).newTime ∈ ts
    ∧ (∀ t ∈ ts, (p.notifyAll ts).newTime ≤ t) := by
  cases ts with
  | nil => exact absurd rfl hne
  | cons t ts =>
    have ht : t ≠ Time.zero := hts t (List.mem_cons_self _ _)
    have hn := notify_newTime_of_zero p t hp
    have hn0 : (p.notify t).newTime ≠ Time.zero := by rw [hn]; exact ht
    obtain ⟨h1, h2, h3, h4⟩ := notifyAll_newTime_of_ne_zero ts (p.notify t) hn0
      (fun u hu => hts u (List.mem_cons_of_mem _ hu))
    have hstep : p.notifyAll (t :: ts) = (p.notify t).notifyAll ts := rfl
    rw [hstep]
    rw [hn] at h2 h4
    refine ⟨h1, ?_, ?_⟩
    · rcases h4 with h4 | h4
      · rw [h4]; exact List.mem_cons_self _ _
      · exact List.mem_cons_of_mem _ h4
    · intro u hu
      rcases List.mem_cons.1 hu with hu | hu
      · rw [hu]; exact h2
      · exact h3 u hu

theorem processNewTime_gateUpdates (p : scheduledQueue) :
    p.processNewTime.gateUpdates = p.gateUpdates ++ [p.newTime] := by
  unfold processNewTime gateUpdates record
  simp

end scheduledQueue

namespace scheduledQueue

theorem earliestVisibility_spec :
    ∀ (tasks : List Task) (newTime : Time),
      earliestVisibility newTime tasks ≤ newTime
      ∧ (∀ task ∈ tasks, earliestVisibility newTime tasks ≤ task.VisibilityTime)
      ∧ (earliestVisibility newTime tasks = newTime
        ∨ ∃ task ∈ tasks, task.VisibilityTime = earliestVisibility newTime tasks)
  | [], newTime => ⟨le_refl _, fun _ h => absurd h (List.not_mem_nil _), Or.inl rfl⟩
  | first :: rest, newTime => by
    obtain ⟨h1, h2, h3⟩ := earliestVisibility_spec rest
      (if Time.Before first.VisibilityTime newTime then first.VisibilityTime else newTime)
    have hstep : earliestVisibility newTime (first :: rest)
        = earliestVisibility
            (if Time.Before first.VisibilityTime newTime then first.VisibilityTime else newTime)
            rest := rfl
    rw [hstep]
    by_cases hlt : first.VisibilityTime < newTime
    · have hb : Time.Before first.VisibilityTime newTime = true := by simp [Time.Before, hlt]
      rw [hb] at h1 h2 h3 ⊢
      simp only [if_true] at h1 h2 h3 ⊢
      refine ⟨le_trans h1 hlt.le, ?_, ?_⟩
      · intro task ht
        rcases List.mem_cons.1 ht with ht | ht
        · rw [ht]; exact h1
        · exact h2 task ht
      · rcases h3 with h3 | ⟨task, ht, h3⟩
        · exact Or.inr ⟨first, List.mem_cons_self _ _, h3.symm⟩
        · exact Or.inr ⟨task, List.mem_cons_of_mem _ ht, h3⟩
    · have hb : Time.Before first.VisibilityTime newTime = false := by simp [Time.Before, hlt]
      rw [hb] at h1 h2 h3 ⊢
      simp only [Bool.false_eq_true, if_false] at h1 h2 h3 ⊢
      refine ⟨h1, ?_, ?_⟩
      · intro task ht
        rcases List.mem_cons.1 ht with ht | ht
        · rw [ht]; exact le_trans h1 (not_lt.1 hlt)
        · exact h2 task ht
      · rcases h3 with h3 | ⟨task, ht, h3⟩
        · exact Or.inl h3
        · exact Or.inr ⟨task, List.mem_cons_of_mem _ ht, h3⟩

/-- A non-empty batch is notified with the earliest visibility time in it. -/
theorem NotifyNewTasks_of_ne_nil (p : scheduledQueue) (tasks : List Task) (h : tasks ≠ []) :
    ∃ task ∈ tasks, (∀ other ∈ tasks, task.VisibilityTime ≤ other.VisibilityTime)
      ∧ p.NotifyNewTasks tasks = p.notify task.VisibilityTime := by
  cases tasks with
  | nil => exact absurd rfl h
  | cons first rest =>
    obtain ⟨_, h2, h3⟩ := earliestVisibility_spec (first :: rest) first.VisibilityTime
    have hdef : p.NotifyNewTasks (first :: rest)
        = p.notify (earliestVisibility first.VisibilityTime (first :: rest)) := rfl
    rcases h3 with h3 | ⟨task, ht, h3⟩
    · exact ⟨first, List.mem_cons_self _ _, fun other ho => h3 ▸ h2 other ho, by rw [hdef, h3]⟩
    · exact ⟨task, ht, fun other ho => h3 ▸ h2 other ho, by rw [hdef, h3]⟩

end scheduledQueue

open scheduledQueue

/-- C14, counterexample: from an empty pending time, `notify` of the zero time
and then of a later time leaves the later time pending, and `processNewTime`
hands that later time to `timerGate.Update`, not the minimum; the pending time
went up from the first call to the second. -/
theorem notify_zero_time_then_later_time_keeps_later :
    newQueue.newTime = Time.zero
    ∧ (newQueue.notifyAll [Time.zero]).newTime = 0
    ∧ (newQueue.notifyAll [Time.zero, 5]).newTime = 5
    ∧ (newQueue.notifyAll [Time.zero, 5]).processNewTime.gateUpdates = [5]
    ∧ (Time.zero ∈ [Time.zero, 5] ∧ ∀ t ∈ [Time.zero, 5], Time.zero ≤ t)
    ∧ ¬ (∀ (p : scheduledQueue) (times : List Time), p.newTime = Time.zero → times ≠ [] →
          ∀ m ∈ times, (∀ t ∈ times, m ≤ t) →
            (p.notifyAll times).processNewTime.gateUpdates = p.gateUpdates ++ [m]) := by
  refine ⟨rfl, by decide, by decide, by decide, by decide, ?_⟩
  intro h
  have h1 := h newQueue [Time.zero, 5] rfl (by decide) Time.zero (by decide) (by decide)
  revert h1
  decide

/-- C14, amended: from an empty pending time, after `notify(t1)`, ...,
`notify(tn)` with `n ≥ 1` and every time different from the zero time, the
pending time is the minimum of the notified times; the next `processNewTime`
hands exactly that minimum to `timerGate.Update` and empties the pending time;
and from each call to the next the pending time does not go up. -/
theorem notify_coalescing_keeps_minimum (p : scheduledQueue) (times : List Time)
    (hconsumed : p.newTime = Time.zero) (hne : times ≠ [])
    (hnonzero : ∀ t ∈ times, t ≠ Time.zero) :
    (∃ m ∈ times, (∀ t ∈ times, m ≤ t)
        ∧ (p.notifyAll times).newTime = m
        ∧ (p.notifyAll times).processNewTime.gateUpdates = p.gateUpdates ++ [m]
        ∧ (p.notifyAll times).processNewTime.newTime = Time.zero)
    ∧ (∀ (done rest : List Time) (t : Time), times = done ++ t :: rest → done ≠ [] →
        (p.notifyAll (done ++ [t])).newTime ≤ (p.notifyAll done).newTime) := by
  constructor
  · obtain ⟨_, h2, h3⟩ := notifyAll_newTime_of_zero p times hconsumed hne hnonzero
    refine ⟨(p.notifyAll times).newTime, h2, h3, rfl, ?_, rfl⟩
    rw [processNewTime_gateUpdates, notifyAll_gateUpdates]
  · intro done rest t htimes hdone
    have hsub : ∀ u ∈ done, u ≠ Time.zero := fun u hu =>
      hnonzero u (by rw [htimes]; exact List.mem_append_left _ hu)
    obtain ⟨h1, _, _⟩ := notifyAll_newTime_of_zero p done hconsumed hdone hsub
    rw [notifyAll_append]
    have hstep : (p.notifyAll done).notifyAll [t] = (p.notifyAll done).notify t := rfl
    rw [hstep, notify_newTime_of_ne_zero _ t h1]
    exact min_le_left _ _

/-- C14, amended, on a new queue: three non-zero times. -/
theorem notify_coalescing_keeps_minimum_witness :
    newQueue.newTime = Time.zero
    ∧ ([7, 3, 9] : List Time) ≠ []
    ∧ (∀ t ∈ ([7, 3, 9] : List Time), t ≠ Time.zero)
    ∧ (∃ m ∈ ([7, 3, 9] : List Time), (∀ t ∈ ([7, 3, 9] : List Time), m ≤ t)
        ∧ (newQueue.notifyAll [7, 3, 9]).newTime = m
        ∧ (newQueue.notifyAll [7, 3, 9]).processNewTime.gateUpdates = newQueue.gateUpdates ++ [m]
        ∧ (newQueue.notifyAll [7, 3, 9]).processNewTime.newTime = Time.zero)
    ∧ (newQueue.notifyAll [7, 3, 9]).processNewTime.gateUpdates = [3] :=
  ⟨rfl, by decide, by decide,
    (notify_coalescing_keeps_minimum newQueue [7, 3, 9] rfl (by decide) (by decide)).1,
    by decide⟩

/-- C15, counterexample: with `T` one second before the zero time, which is a
non-zero `T`, the second notification carries the zero time and the third one
replaces it: the pending time ends at `T+3s`, not at `T+1s`. -/
theorem three_notifications_around_zero_time_keep_last :
    (-1000000000 : Time) ≠ Time.zero
    ∧ (-1000000000 : Time) + 1 * Second.val = Time.zero
    ∧ (newQueue.notifyAll [-1000000000 + 5 * Second.val, -1000000000 + 1 * Second.val,
        -1000000000 + 3 * Second.val]).newTime = -1000000000 + 3 * Second.val
    ∧ (newQueue.notifyAll [-1000000000 + 5 * Second.val, -1000000000 + 1 * Second.val,
        -1000000000 + 3 * Second.val]).newTime ≠ -1000000000 + 1 * Second.val
    ∧ ((newQueue.notifyAll [-1000000000 + 5 * Second.val, -1000000000 + 1 * Second.val,
        -1000000000 + 3 * Second.val]).receiveNewTimer).map gateUpdates
        = some [-1000000000 + 3 * Second.val] := by
  refine ⟨by decide, by decide, by decide, by decide, by decide⟩

/-- C15, amended: from an empty pending time and an empty wake-up channel, the
calls `notify(T+5s)`, `notify(T+1s)`, `notify(T+3s)`, with `T+1s` different
from the zero time, leave `T+1s` pending and one signal in the channel; the
case `<-p.newTimerCh` of the event loop then runs `processNewTime` once, which
hands `T+1s` to `timerGate.Update` and empties the pending time, and with the
channel empty the case is not ready a second time. -/
theorem three_notifications_coalesce (p : scheduledQueue) (T : Time)
    (hpending : p.newTime = Time.zero) (hchannel : p.newTimerCh = 0)
    (hT : T + 1 * Second.val ≠ Time.zero) :
    (p.notifyAll [T + 5 * Second.val, T + 1 * Second.val, T + 3 * Second.val]).newTime
        = T + 1 * Second.val
    ∧ (p.notifyAll [T + 5 * Second.val, T + 1 * Second.val, T + 3 * Second.val]).newTimerCh = 1
    ∧ ∃ q : scheduledQueue,
        (p.notifyAll [T + 5 * Second.val, T + 1 * Second.val,
          T + 3 * Second.val]).receiveNewTimer = some q
        ∧ q.gateUpdates = p.gateUpdates ++ [T + 1 * Second.val]
        ∧ q.newTime = Time.zero
        ∧ q.newTimerCh = 0
        ∧ q.receiveNewTimer = none := by
  have hs : Second.val = 1000000000 := rfl
  have hlt15 : ∀ x : Int, x + 1 * 1000000000 < x + 5 * 1000000000 := fun x => by omega
  have hlt13 : ∀ x : Int, ¬ x + 3 * 1000000000 < x + 1 * 1000000000 := fun x => by omega
  rw [hs] at hT ⊢
  have hall : p.notifyAll [T + 5 * 1000000000, T + 1 * 1000000000, T + 3 * 1000000000]
      = (((p.notify (T + 5 * 1000000000)).notify (T + 1 * 1000000000)).notify
          (T + 3 * 1000000000)) := rfl
  have h1 := notify_newTime_of_zero p (T + 5 * 1000000000) hpending
  have c1 := notify_newTimerCh p (T + 5 * 1000000000) (Or.inl hpending) (by omega)
  have h2 : ((p.notify (T + 5 * 1000000000)).notify (T + 1 * 1000000000)).newTime
      = T + 1 * 1000000000 := by
    by_cases hz : (p.notify (T + 5 * 1000000000)).newTime = Time.zero
    · exact notify_newTime_of_zero _ _ hz
    · rw [notify_newTime_of_ne_zero _ _ hz, h1]
      exact min_eq_right (hlt15 T).le
  have c2 : ((p.notify (T + 5 * 1000000000)).notify (T + 1 * 1000000000)).newTimerCh = 1 := by
    apply notify_newTimerCh _ _ _ (le_of_eq c1)
    rw [h1]
    exact Or.inr (hlt15 T)
  have hnz : ((p.notify (T + 5 * 1000000000)).notify (T + 1 * 1000000000)).newTime ≠ Time.zero := by
    rw [h2]
    exact hT
  have hge : ¬ T + 3 * 1000000000
      < ((p.notify (T + 5 * 1000000000)).notify (T + 1 * 1000000000)).newTime := by
    rw [h2]
    exact hlt13 T
  have h3 : (p.notifyAll [T + 5 * 1000000000, T + 1 * 1000000000,
      T + 3 * 1000000000]).newTime = T + 1 * 1000000000 := by
    rw [hall, notify_newTime_of_ne_zero _ _ hnz, h2]
    exact min_eq_left (not_lt.1 (hlt13 T))
  have c3 : (p.notifyAll [T + 5 * 1000000000, T + 1 * 1000000000,
      T + 3 * 1000000000]).newTimerCh = 1 := by
    rw [hall, notify_newTimerCh_discard _ _ hnz hge, c2]
  have hg : (p.notifyAll [T + 5 * 1000000000, T + 1 * 1000000000,
      T + 3 * 1000000000]).gateUpdates = p.gateUpdates := notifyAll_gateUpdates _ p
  refine ⟨h3, c3, ?_⟩
  generalize p.notifyAll [T + 5 * 1000000000, T + 1 * 1000000000, T + 3 * 1000000000] = r
    at h3 c3 hg
  refine ⟨processNewTime (record { r with newTimerCh := r.newTimerCh - 1 }
    Effect.newTimerNotifyCounter), ?_, ?_, rfl, ?_, ?_⟩
  · unfold receiveNewTimer
    simp [c3]
  · rw [processNewTime_gateUpdates]
    have hrec : (record { r with newTimerCh := r.newTimerCh - 1 }
        Effect.newTimerNotifyCounter).gateUpdates = r.gateUpdates := by
      unfold gateUpdates record
      simp
    rw [hrec, hg]
    exact congrArg (fun t => p.gateUpdates ++ [t]) h3
  · show r.newTimerCh - 1 = 0
    omega
  · unfold receiveNewTimer
    have : (processNewTime (record { r with newTimerCh := r.newTimerCh - 1 }
        Effect.newTimerNotifyCounter)).newTimerCh = 0 := by
      show r.newTimerCh - 1 = 0
      omega
    simp [this]

/-- C15, amended, on a new queue with `T` ten seconds after the zero time. -/
theorem three_notifications_coalesce_witness :
    newQueue.newTime = Time.zero ∧ newQueue.newTimerCh = 0
    ∧ (10000000000 : Time) + 1 * Second.val ≠ Time.zero
    ∧ (newQueue.notifyAll [10000000000 + 5 * Second.val, 10000000000 + 1 * Second.val,
        10000000000 + 3 * Second.val]).newTime = 10000000000 + 1 * Second.val
    ∧ (newQueue.notifyAll [10000000000 + 5 * Second.val, 10000000000 + 1 * Second.val,
        10000000000 + 3 * Second.val]).newTimerCh = 1 :=
  have h := three_notifications_coalesce newQueue 10000000000 rfl rfl (by decide)
  ⟨rfl, rfl, by decide, h.1, h.2.1⟩

/-- C16: `NotifyNewTasks` of the empty batch changes nothing. Of a non-empty
batch it makes one entry into `notify`, with the minimum of the visibility
times of the batch, and is that call; a batch with the same tasks in another
order gives the same result. -/
theorem NotifyNewTasks_notifies_minimum_once (p : scheduledQueue) (tasks reordered : List Task) :
    p.NotifyNewTasks [] = p
    ∧ (tasks ≠ [] →
        ∃ task ∈ tasks, (∀ other ∈ tasks, task.VisibilityTime ≤ other.VisibilityTime)
          ∧ p.NotifyNewTasks tasks = p.notify task.VisibilityTime
          ∧ (p.NotifyNewTasks tasks).trace = p.trace ++ [Effect.notify task.VisibilityTime])
    ∧ (tasks.Perm reordered → p.NotifyNewTasks tasks = p.NotifyNewTasks reordered) := by
  refine ⟨rfl, ?_, ?_⟩
  · intro hne
    obtain ⟨task, ht, hmin, heq⟩ := NotifyNewTasks_of_ne_nil p tasks hne
    exact ⟨task, ht, hmin, heq, by rw [heq, notify_trace]⟩
  · intro hperm
    by_cases hne : tasks = []
    · subst hne
      rw [List.Perm.nil_eq hperm]
    · have hne1 : reordered ≠ [] := fun h => hne (List.Perm.eq_nil (h ▸ hperm))
      obtain ⟨task, ht, hmin, heq⟩ := NotifyNewTasks_of_ne_nil p tasks hne
      obtain ⟨task1, ht1, hmin1, heq1⟩ := NotifyNewTasks_of_ne_nil p reordered hne1
      have h1 := hmin task1 (hperm.mem_iff.2 ht1)
      have h2 := hmin1 task (hperm.mem_iff.1 ht)
      rw [heq, heq1, le_antisymm h1 h2]

/-- C16, a batch of three tasks visible at 7, 3 and 9, and the same batch in
another order: one `notify(3)`. -/
theorem NotifyNewTasks_notifies_minimum_once_witness :
    [taskAt timerCategory 7 1, taskAt timerCategory 3 2, taskAt timerCategory 9 3] ≠ []
    ∧ List.Perm [taskAt timerCategory 7 1, taskAt timerCategory 3 2, taskAt timerCategory 9 3]
        [taskAt timerCategory 9 3, taskAt timerCategory 7 1, taskAt timerCategory 3 2]
    ∧ newQueue.NotifyNewTasks
          [taskAt timerCategory 7 1, taskAt timerCategory 3 2, taskAt timerCategory 9 3]
        = newQueue.NotifyNewTasks
          [taskAt timerCategory 9 3, taskAt timerCategory 7 1, taskAt timerCategory 3 2]
    ∧ (newQueue.NotifyNewTasks
          [taskAt timerCategory 7 1, taskAt timerCategory 3 2, taskAt timerCategory 9 3]).trace
        = [Effect.notify 3]
    ∧ (newQueue.NotifyNewTasks []).trace = [] :=
  have hperm : List.Perm
      [taskAt timerCategory 7 1, taskAt timerCategory 3 2, taskAt timerCategory 9 3]
      [taskAt timerCategory 9 3, taskAt timerCategory 7 1, taskAt timerCategory 3 2] := by
    decide
  have h := NotifyNewTasks_notifies_minimum_once newQueue
    [taskAt timerCategory 7 1, taskAt timerCategory 3 2, taskAt timerCategory 9 3]
    [taskAt timerCategory 9 3, taskAt timerCategory 7 1, taskAt timerCategory 3 2]
  ⟨by decide, hperm, h.2.2 hperm, by decide, by decide⟩

/-! ## Range trimming -/

theorem trimLeading_eq_dropWhile (r : Range) :
    ∀ tasks : List Task, trimLeading r tasks = tasks.dropWhile (fun t => !r.ContainsKey t.Key)
  | [] => rfl
  | task :: rest => by
    rw [trimLeading, List.dropWhile_cons]
    cases h : r.ContainsKey task.Key
    · simp [trimLeading_eq_dropWhile r rest]
    · simp

/-- The trailing loop with enough fuel: what it cuts off is a suffix of tasks
outside the range, what it keeps ends inside the range, and the token is nil
exactly when something was cut off. -/
theorem trimTrailing_spec (r : Range) :
    ∀ (fuel : Nat) (tasks : List Task) (token : PageToken), tasks.length ≤ fuel →
      ∃ trailing : List Task,
        tasks = (trimTrailing r fuel tasks token).1 ++ trailing
        ∧ (∀ t ∈ trailing, r.ContainsKey t.Key = false)
        ∧ (∀ h : (trimTrailing r fuel tasks token).1 ≠ [],
            r.ContainsKey ((trimTrailing r fuel tasks token).1.getLast h).Key = true)
        ∧ (trimTrailing r fuel tasks token).2 = (if trailing = [] then token else none)
        ∧ (trimTrailing r fuel tasks token).1
            = tasks.rdropWhile (fun t => !r.ContainsKey t.Key)
  | 0, tasks, token, hlen => by
    have hnil : tasks = [] := List.length_eq_zero.1 (Nat.le_zero.1 hlen)
    subst hnil
    exact ⟨[], rfl, fun t ht => absurd ht (List.not_mem_nil t), fun h => absurd rfl h, rfl, rfl⟩
  | fuel + 1, tasks, token, hlen => by
    cases hlast : tasks.getLast? with
    | none =>
      have hnil : tasks = [] := List.getLast?_eq_none_iff.1 hlast
      subst hnil
      exact ⟨[], rfl, fun t ht => absurd ht (List.not_mem_nil t), fun h => absurd rfl h, rfl, rfl⟩
    | some task =>
      have hsplit : tasks.dropLast ++ [task] = tasks :=
        List.dropLast_append_getLast? task (Option.mem_def.2 hlast)
      cases hin : r.ContainsKey task.Key with
      | false =>
        have hstep : trimTrailing r (fuel + 1) tasks token
            = trimTrailing r fuel tasks.dropLast none := by
          rw [trimTrailing, hlast]
          simp [hin]
        have hlen1 : tasks.dropLast.length ≤ fuel := by
          rw [List.length_dropLast]
          omega
        obtain ⟨trailing, h1, h2, h3, h4, h5⟩ :=
          trimTrailing_spec r fuel tasks.dropLast none hlen1
        rw [hstep]
        refine ⟨trailing ++ [task], ?_, ?_, h3, ?_, ?_⟩
        · rw [← List.append_assoc, ← h1, hsplit]
        · intro t ht
          rcases List.mem_append.1 ht with ht | ht
          · exact h2 t ht
          · rw [List.mem_singleton.1 ht]
            exact hin
        · have hne : trailing ++ [task] ≠ [] := by simp
          rw [if_neg hne, h4]
          split <;> rfl
        · rw [h5]
          conv_rhs => rw [← hsplit]
          rw [List.rdropWhile_concat_pos]
          simp [hin]
      | true =>
        have hstep : trimTrailing r (fuel + 1) tasks token = (tasks, token) := by
          rw [trimTrailing, hlast]
          simp [hin]
        rw [hstep]
        refine ⟨[], by simp, fun t ht => absurd ht (List.not_mem_nil t), ?_, rfl, ?_⟩
        · intro h
          have hl : tasks.getLast h = task := by
            have := List.getLast?_eq_getLast tasks h
            rw [hlast] at this
            exact (Option.some.inj this).symm
          show r.ContainsKey (tasks.getLast h).Key = true
          rw [hl]
          exact hin
        · show tasks = tasks.rdropWhile (fun t => !r.ContainsKey t.Key)
          conv_rhs => rw [← hsplit]
          rw [List.rdropWhile_concat_neg _ _ _ (by simp [hin]), hsplit]

theorem paginationFn_ok (shardID : Int) (category : Category) (batchSize : Int) (store : Store)
    (r : Range) (paginationToken : PageToken) (resp : GetHistoryTasksResponse)
    (hstore : store (paginationRequest shardID category batchSize r paginationToken)
      = Except.ok resp) :
    paginationFn shardID category batchSize store r paginationToken
      = Except.ok (trimTrailing r (trimLeading r resp.Tasks).length (trimLeading r resp.Tasks)
          resp.NextPageToken) := by
  unfold paginationFn
  rw [hstore]

/-- What the leading loop leaves begins with a task inside the range. -/
theorem trimLeading_head? (r : Range) :
    ∀ (tasks : List Task) (first : Task), (trimLeading r tasks).head? = some first →
      r.ContainsKey first.Key = true
  | [], first, h => by simp [trimLeading] at h
  | task :: rest, first, h => by
    cases hin : r.ContainsKey task.Key with
    | false =>
      have hstep : trimLeading r (task :: rest) = trimLeading r rest := by
        rw [trimLeading]
        simp [hin]
      rw [hstep] at h
      exact trimLeading_head? r rest first h
    | true =>
      have hstep : trimLeading r (task :: rest) = task :: rest := by
        rw [trimLeading]
        simp [hin]
      rw [hstep] at h
      simp at h
      rw [← h]
      exact hin

/-- What the pagination function returns on a page: the trimmed tasks with the
tasks cut off in front and behind, and the token. -/
theorem paginationFn_trimmed (shardID : Int) (category : Category) (batchSize : Int)
    (store : Store) (r : Range) (paginationToken : PageToken) (resp : GetHistoryTasksResponse)
    (hstore : store (paginationRequest shardID category batchSize r paginationToken)
      = Except.ok resp) :
    ∃ (tasks : List Task) (token : PageToken) (trailing : List Task),
      paginationFn shardID category batchSize store r paginationToken = Except.ok (tasks, token)
      ∧ resp.Tasks.dropWhile (fun t => !r.ContainsKey t.Key) = tasks ++ trailing
      ∧ (∀ t ∈ trailing, r.ContainsKey t.Key = false)
      ∧ (∀ h : tasks ≠ [], r.ContainsKey (tasks.getLast h).Key = true)
      ∧ token = (if trailing = [] then resp.NextPageToken else none)
      ∧ tasks = (resp.Tasks.dropWhile (fun t => !r.ContainsKey t.Key)).rdropWhile
          (fun t => !r.ContainsKey t.Key) := by
  obtain ⟨trailing, h1, h2, h3, h4, h5⟩ := trimTrailing_spec r
    (trimLeading r resp.Tasks).length (trimLeading r resp.Tasks) resp.NextPageToken (le_refl _)
  refine ⟨_, _, trailing,
    paginationFn_ok shardID category batchSize store r paginationToken resp hstore, ?_, h2, h3,
    h4, ?_⟩
  · rw [← trimLeading_eq_dropWhile]
    exact h1
  · rw [← trimLeading_eq_dropWhile]
    exact h5

/-- C17: on a page the store returned without error, the pagination function
returns the page without its longest leading run and then its longest trailing
run of tasks whose key is outside the range: the page is `leading ++ tasks ++
trailing`, every task cut off is outside the range, and a non-empty result
begins and ends with a task whose key is in the range,
`InclusiveMin ≤ k < ExclusiveMax`. -/
theorem pagination_trims_out_of_range_edges (shardID : Int) (category : Category)
    (batchSize : Int) (store : Store) (r : Range) (paginationToken : PageToken)
    (resp : GetHistoryTasksResponse)
    (hstore : store (paginationRequest shardID category batchSize r paginationToken)
      = Except.ok resp) :
    ∃ (tasks : List Task) (token : PageToken) (leading trailing : List Task),
      paginationFn shardID category batchSize store r paginationToken = Except.ok (tasks, token)
      ∧ resp.Tasks = leading ++ tasks ++ trailing
      ∧ leading = resp.Tasks.takeWhile (fun t => !r.ContainsKey t.Key)
      ∧ tasks = (resp.Tasks.dropWhile (fun t => !r.ContainsKey t.Key)).rdropWhile
          (fun t => !r.ContainsKey t.Key)
      ∧ (∀ t ∈ leading, r.ContainsKey t.Key = false)
      ∧ (∀ t ∈ trailing, r.ContainsKey t.Key = false)
      ∧ (∀ h : tasks ≠ [], r.ContainsKey (tasks.head h).Key = true
          ∧ r.ContainsKey (tasks.getLast h).Key = true)
      ∧ (tasks = [] → trailing = [])
      ∧ (∀ key : Key, r.ContainsKey key = true
          ↔ 0 ≤ key.CompareTo r.InclusiveMin ∧ key.CompareTo r.ExclusiveMax < 0) := by
  obtain ⟨tasks, token, trailing, hfn, hdrop, htrail, hlast, _, href⟩ :=
    paginationFn_trimmed shardID category batchSize store r paginationToken resp hstore
  have hfirst : ∀ first : Task, (tasks ++ trailing).head? = some first →
      r.ContainsKey first.Key = true := by
    intro first h
    rw [← hdrop, ← trimLeading_eq_dropWhile] at h
    exact trimLeading_head? r resp.Tasks first h
  have hhead : ∀ h : tasks ≠ [], r.ContainsKey (tasks.head h).Key = true := by
    intro h
    apply hfirst
    rw [List.head?_append_of_ne_nil _ h]
    exact List.head?_eq_head h
  refine ⟨tasks, token, resp.Tasks.takeWhile (fun t => !r.ContainsKey t.Key), trailing, hfn, ?_,
    rfl, href, ?_, htrail, fun h => ⟨hhead h, hlast h⟩, ?_, ?_⟩
  · rw [List.append_assoc, ← hdrop, List.takeWhile_append_dropWhile]
  · intro t ht
    simpa using List.mem_takeWhile_imp ht
  · intro hnil
    subst hnil
    by_contra hne
    have h1 := hfirst (trailing.head hne) (by rw [List.nil_append]; exact List.head?_eq_head hne)
    rw [htrail _ (List.head_mem hne)] at h1
    exact Bool.false_ne_true h1
  · intro key
    simp [Range.ContainsKey]

/-- C17, a page of six tasks against the range `[10, 20)`: two tasks are cut
off in front, two behind, and the task at 25 between two tasks in range stays. -/
theorem pagination_trims_out_of_range_edges_witness :
    (fun _ => Except.ok ⟨[taskAt timerCategory 5 1, taskAt timerCategory 7 2,
        taskAt timerCategory 15 3, taskAt timerCategory 25 4, taskAt timerCategory 16 5,
        taskAt timerCategory 25 6, taskAt timerCategory 26 7], some [1]⟩ : Store)
        (paginationRequest 1 timerCategory 10 ⟨⟨10, 0⟩, ⟨20, 0⟩⟩ none)
      = Except.ok ⟨[taskAt timerCategory 5 1, taskAt timerCategory 7 2,
        taskAt timerCategory 15 3, taskAt timerCategory 25 4, taskAt timerCategory 16 5,
        taskAt timerCategory 25 6, taskAt timerCategory 26 7], some [1]⟩
    ∧ paginationFn 1 timerCategory 10
        (fun _ => Except.ok ⟨[taskAt timerCategory 5 1, taskAt timerCategory 7 2,
          taskAt timerCategory 15 3, taskAt timerCategory 25 4, taskAt timerCategory 16 5,
          taskAt timerCategory 25 6, taskAt timerCategory 26 7], some [1]⟩)
        ⟨⟨10, 0⟩, ⟨20, 0⟩⟩ none
      = Except.ok ([taskAt timerCategory 15 3, taskAt timerCategory 25 4,
          taskAt timerCategory 16 5], none)
    ∧ ∃ (tasks : List Task) (token : PageToken),
        paginationFn 1 timerCategory 10
          (fun _ => Except.ok ⟨[taskAt timerCategory 5 1, taskAt timerCategory 7 2,
            taskAt timerCategory 15 3, taskAt timerCategory 25 4, taskAt timerCategory 16 5,
            taskAt timerCategory 25 6, taskAt timerCategory 26 7], some [1]⟩)
          ⟨⟨10, 0⟩, ⟨20, 0⟩⟩ none = Except.ok (tasks, token) :=
  ⟨rfl, rfl,
    (pagination_trims_out_of_range_edges 1 timerCategory 10
      (fun _ => Except.ok ⟨[taskAt timerCategory 5 1, taskAt timerCategory 7 2,
        taskAt timerCategory 15 3, taskAt timerCategory 25 4, taskAt timerCategory 16 5,
        taskAt timerCategory 25 6, taskAt timerCategory 26 7], some [1]⟩)
      ⟨⟨10, 0⟩, ⟨20, 0⟩⟩ none _ rfl).elim
      (fun tasks h => h.elim (fun token h1 => ⟨tasks, token, h1.elim
        (fun _ h2 => h2.elim (fun _ h3 => h3.1))⟩))⟩

/-- C18, counterexample: a page of one task, before the range `[10, 20)`, with
a page token. The last task of the page has a key outside the range, the
leading loop cuts it off, the trailing loop finds the page empty, and the token
of the store comes back, not nil: the next page is still to be read. -/
theorem page_outside_range_keeps_token :
    [taskAt timerCategory 5 1].getLast? = some (taskAt timerCategory 5 1)
    ∧ Range.ContainsKey ⟨⟨10, 0⟩, ⟨20, 0⟩⟩ (taskAt timerCategory 5 1).Key = false
    ∧ paginationFn 1 timerCategory 10
        (fun _ => Except.ok ⟨[taskAt timerCategory 5 1], some [7]⟩) ⟨⟨10, 0⟩, ⟨20, 0⟩⟩ none
      = Except.ok ([], some [7])
    ∧ (some [7] : PageToken) ≠ none :=
  ⟨rfl, rfl, rfl, by decide⟩

/-- C18, amended: on a non-empty page the store returned without error, if the
last task of the page has a key outside the range and some task of the page
has a key inside it, the token returned is nil; if the last task has a key
inside the range, or no task of the page has, the token of the store is
returned unchanged. -/
theorem pagination_token_after_trimming (shardID : Int) (category : Category)
    (batchSize : Int) (store : Store) (r : Range) (paginationToken : PageToken)
    (resp : GetHistoryTasksResponse) (last : Task)
    (hstore : store (paginationRequest shardID category batchSize r paginationToken)
      = Except.ok resp)
    (hlast : resp.Tasks.getLast? = some last) :
    ∃ (tasks : List Task) (token : PageToken),
      paginationFn shardID category batchSize store r paginationToken = Except.ok (tasks, token)
      ∧ (r.ContainsKey last.Key = false → (∃ t ∈ resp.Tasks, r.ContainsKey t.Key = true) →
          token = none)
      ∧ (r.ContainsKey last.Key = true → token = resp.NextPageToken)
      ∧ ((∀ t ∈ resp.Tasks, r.ContainsKey t.Key = false) →
          token = resp.NextPageToken ∧ tasks = []) := by
  obtain ⟨tasks, token, trailing, hfn, hdrop, htrail, hin, htoken, _⟩ :=
    paginationFn_trimmed shardID category batchSize store r paginationToken resp hstore
  have hpage : resp.Tasks = resp.Tasks.takeWhile (fun t => !r.ContainsKey t.Key)
      ++ (tasks ++ trailing) := by
    rw [← hdrop, List.takeWhile_append_dropWhile]
  have hlead : ∀ t ∈ resp.Tasks.takeWhile (fun t => !r.ContainsKey t.Key),
      r.ContainsKey t.Key = false := by
    intro t ht
    simpa using List.mem_takeWhile_imp ht
  -- when something is left behind the leading run, the last task of the page is there
  have hlast1 : tasks ++ trailing ≠ [] → (tasks ++ trailing).getLast? = some last := by
    intro hne
    rw [← List.getLast?_append_of_ne_nil _ hne, ← hpage]
    exact hlast
  refine ⟨tasks, token, hfn, ?_, ?_, ?_⟩
  · rintro hout ⟨t, ht, htin⟩
    have hne : tasks ++ trailing ≠ [] := by
      intro hnil
      rw [hpage, hnil, List.append_nil] at ht
      rw [hlead t ht] at htin
      exact Bool.false_ne_true htin
    have htr : trailing ≠ [] := by
      intro hnil
      subst hnil
      rw [List.append_nil] at hne
      have h1 := hlast1 (by simpa using hne)
      rw [List.append_nil, List.getLast?_eq_getLast tasks hne] at h1
      have h2 := hin hne
      rw [Option.some.inj h1, hout] at h2
      exact Bool.false_ne_true h2
    rw [htoken, if_neg htr]
  · intro hlastin
    have hlastmem : last ∈ resp.Tasks := List.mem_of_mem_getLast? (Option.mem_def.2 hlast)
    have hne : tasks ++ trailing ≠ [] := by
      intro hnil
      rw [hpage, hnil, List.append_nil] at hlastmem
      rw [hlead last hlastmem] at hlastin
      exact Bool.false_ne_true hlastin
    have htr : trailing = [] := by
      by_contra hne1
      have h1 := hlast1 hne
      rw [List.getLast?_append_of_ne_nil _ hne1, List.getLast?_eq_getLast trailing hne1] at h1
      have h2 := htrail _ (List.getLast_mem hne1)
      rw [Option.some.inj h1, hlastin] at h2
      exact Bool.false_ne_true h2.symm
    rw [htoken, if_pos htr]
  · intro hall
    have hnil : tasks ++ trailing = [] := by
      rw [← hdrop]
      apply List.dropWhile_eq_nil_iff.2
      intro t ht
      simp [hall t ht]
    have h1 := List.append_eq_nil.1 hnil
    rw [htoken, if_pos h1.2]
    exact ⟨rfl, h1.1⟩

/-- C18, amended, against the range `[10, 20)`: a page ending beyond the range
after a task in range loses its token; a page ending in range keeps it. -/
theorem pagination_token_after_trimming_witness :
    [taskAt timerCategory 15 1, taskAt timerCategory 25 2].getLast?
      = some (taskAt timerCategory 25 2)
    ∧ paginationFn 1 timerCategory 10
        (fun _ => Except.ok ⟨[taskAt timerCategory 15 1, taskAt timerCategory 25 2], some [7]⟩)
        ⟨⟨10, 0⟩, ⟨20, 0⟩⟩ none
      = Except.ok ([taskAt timerCategory 15 1], none)
    ∧ paginationFn 1 timerCategory 10
        (fun _ => Except.ok ⟨[taskAt timerCategory 5 1, taskAt timerCategory 15 2], some [7]⟩)
        ⟨⟨10, 0⟩, ⟨20, 0⟩⟩ none
      = Except.ok ([taskAt timerCategory 15 2], some [7])
    ∧ ∃ (tasks : List Task) (token : PageToken),
        paginationFn 1 timerCategory 10
          (fun _ => Except.ok ⟨[taskAt timerCategory 15 1, taskAt timerCategory 25 2],
            some [7]⟩) ⟨⟨10, 0⟩, ⟨20, 0⟩⟩ none = Except.ok (tasks, token)
        ∧ token = none :=
  ⟨rfl, rfl, rfl,
    (pagination_token_after_trimming 1 timerCategory 10
      (fun _ => Except.ok ⟨[taskAt timerCategory 15 1, taskAt timerCategory 25 2], some [7]⟩)
      ⟨⟨10, 0⟩, ⟨20, 0⟩⟩ none _ (taskAt timerCategory 25 2) rfl rfl).elim
      (fun tasks h => h.elim (fun token h1 =>
        ⟨tasks, token, h1.1, h1.2.1 rfl ⟨taskAt timerCategory 15 1, by decide, rfl⟩⟩))⟩

/-! ## Look-ahead -/

/-- C19: when the rate-limiter wait succeeds, `lookAheadTask` issues one store
read, with `InclusiveMin` key `(F, 0)`, `ExclusiveMax` key `(F+J, 0)`, batch
size 1 and a nil page token, where `F` is the fire time of
`nonReadableScope.Range.InclusiveMin` and `J` the jittered interval; if the
read succeeds with zero tasks the gate is updated once, with `F+J`. -/
theorem lookAhead_empty_window_rearms_at_window_end (p : scheduledQueue) (env : LookAheadEnv)
    (hwait : env.rateLimitErr = none) :
    (p.lookAheadTask env).storeReads
        = p.storeReads ++ [{ ShardID := p.shardID
                             TaskCategory := p.category
                             InclusiveMinTaskKey := ⟨p.nonReadableScope.InclusiveMin.FireTime, 0⟩
                             ExclusiveMaxTaskKey :=
                               ⟨p.nonReadableScope.InclusiveMin.FireTime + env.jitter.val, 0⟩
                             BatchSize := 1
                             NextPageToken := none }]
    ∧ (∀ token : PageToken,
        env.store { ShardID := p.shardID
                    TaskCategory := p.category
                    InclusiveMinTaskKey := ⟨p.nonReadableScope.InclusiveMin.FireTime, 0⟩
                    ExclusiveMaxTaskKey :=
                      ⟨p.nonReadableScope.InclusiveMin.FireTime + env.jitter.val, 0⟩
                    BatchSize := 1
                    NextPageToken := none } = Except.ok ⟨[], token⟩ →
        (p.lookAheadTask env).gateUpdates
            = p.gateUpdates ++ [p.nonReadableScope.InclusiveMin.FireTime + env.jitter.val]
        ∧ (p.lookAheadTask env).trace
            = p.trace ++ [Effect.rateLimiterWait
                (Time.Add env.contextCreated lookAheadRateLimitDelay) p.lookAheadRateLimitRequest,
              Effect.GetHistoryTasks
                { ShardID := p.shardID
                  TaskCategory := p.category
                  InclusiveMinTaskKey := ⟨p.nonReadableScope.InclusiveMin.FireTime, 0⟩
                  ExclusiveMaxTaskKey :=
                    ⟨p.nonReadableScope.InclusiveMin.FireTime + env.jitter.val, 0⟩
                  BatchSize := 1
                  NextPageToken := none },
              Effect.timerGateUpdate
                (p.nonReadableScope.InclusiveMin.FireTime + env.jitter.val)]) := by
  constructor
  · unfold lookAheadTask
    simp only [hwait, record, Time.Add]
    split
    · split <;> simp [storeReads]
    · split <;> simp [storeReads]
  · intro token hstore
    unfold lookAheadTask
    simp only [hwait, record, Time.Add] at hstore ⊢
    rw [hstore]
    simp [gateUpdates]

/-- C19, a new queue with frontier 100 and a jittered interval of 50: one read
of the window `[100, 150)`, no task, the gate is updated with 150. -/
theorem lookAhead_empty_window_rearms_at_window_end_witness :
    (⟨0, none, ⟨50, by decide⟩, fun _ => Except.ok ⟨[], none⟩, 7⟩ : LookAheadEnv).rateLimitErr
      = none
    ∧ (newQueue.lookAheadTask ⟨0, none, ⟨50, by decide⟩, fun _ => Except.ok ⟨[], none⟩,
        7⟩).storeReads = [⟨1, timerCategory, ⟨100, 0⟩, ⟨150, 0⟩, 1, none⟩]
    ∧ (newQueue.lookAheadTask ⟨0, none, ⟨50, by decide⟩, fun _ => Except.ok ⟨[], none⟩,
        7⟩).gateUpdates = [150] :=
  have h := lookAhead_empty_window_rearms_at_window_end newQueue
    ⟨0, none, ⟨50, by decide⟩, fun _ => Except.ok ⟨[], none⟩, 7⟩ rfl
  ⟨rfl, h.1.trans rfl, ((h.2 none rfl).1).trans rfl⟩

/-! ## Life cycle -/

namespace scheduledQueue

theorem Start_of_ne (p : scheduledQueue) (h : p.status ≠ DaemonStatusInitialized) :
    p.Start = p := by
  unfold Start
  rw [if_pos h]

theorem Stop_of_ne (p : scheduledQueue) (awaitSuccess : Bool)
    (h : p.status ≠ DaemonStatusStarted) : p.Stop awaitSuccess = p := by
  unfold Stop
  rw [if_pos h]

theorem Start_status (p : scheduledQueue) (h : p.status = DaemonStatusInitialized) :
    p.Start.status = DaemonStatusStarted := by
  unfold Start
  rw [if_neg (not_not.2 h)]
  simp only [record]
  rw [notify_status]

theorem Start_trace (p : scheduledQueue) (h : p.status = DaemonStatusInitialized) :
    p.Start.trace = p.trace ++ [Effect.loggerInfo LifeCycleTag.Starting, Effect.queueBaseStart,
      Effect.shutdownWGAdd 1, Effect.goProcessEventLoop, Effect.notify Time.zero,
      Effect.loggerInfo LifeCycleTag.Started] := by
  unfold Start
  rw [if_neg (not_not.2 h)]
  simp only [record]
  rw [notify_trace]
  simp

theorem Stop_status (p : scheduledQueue) (awaitSuccess : Bool)
    (h : p.status = DaemonStatusStarted) :
    (p.Stop awaitSuccess).status = DaemonStatusStopped := by
  unfold Stop
  rw [if_neg (not_not.2 h)]
  cases awaitSuccess <;> rfl

theorem Stop_trace (p : scheduledQueue) (awaitSuccess : Bool)
    (h : p.status = DaemonStatusStarted) :
    (p.Stop awaitSuccess).trace = p.trace ++ ([Effect.loggerInfo LifeCycleTag.Stopping,
      Effect.closeShutdownCh, Effect.timerGateClose, Effect.awaitWaitGroup Minute]
      ++ (if awaitSuccess then [] else [Effect.loggerWarn LifeCycleTag.StopTimedout])
      ++ [Effect.queueBaseStop, Effect.loggerInfo LifeCycleTag.Stopped]) := by
  unfold Stop
  rw [if_neg (not_not.2 h)]
  cases awaitSuccess <;> simp [record]

/-- The closes made so far plus the one close still possible. -/
theorem call_closes_bound (p : scheduledQueue) (c : LifecycleCall) :
    (p.call c).shutdownCloses
        + (if (p.call c).status = DaemonStatusInitialized
            ∨ (p.call c).status = DaemonStatusStarted then 1 else 0)
      ≤ p.shutdownCloses
        + (if p.status = DaemonStatusInitialized ∨ p.status = DaemonStatusStarted
            then 1 else 0) := by
  cases c with
  | Start =>
    have hcall : p.call LifecycleCall.Start = p.Start := rfl
    rw [hcall]
    by_cases h : p.status = DaemonStatusInitialized
    · have hc : p.Start.shutdownCloses = p.shutdownCloses := by
        unfold shutdownCloses
        rw [Start_trace p h, List.count_append]
        have : List.count Effect.closeShutdownCh [Effect.loggerInfo LifeCycleTag.Starting,
            Effect.queueBaseStart, Effect.shutdownWGAdd 1, Effect.goProcessEventLoop,
            Effect.notify Time.zero, Effect.loggerInfo LifeCycleTag.Started] = 0 := by decide
        omega
      rw [hc, Start_status p h]
      simp [h]
    · rw [Start_of_ne p h]
  | Stop awaitSuccess =>
    have hcall : p.call (LifecycleCall.Stop awaitSuccess) = p.Stop awaitSuccess := rfl
    rw [hcall]
    by_cases h : p.status = DaemonStatusStarted
    · have hc : (p.Stop awaitSuccess).shutdownCloses = p.shutdownCloses + 1 := by
        unfold shutdownCloses
        rw [Stop_trace p awaitSuccess h, List.count_append]
        have : List.count Effect.closeShutdownCh ([Effect.loggerInfo LifeCycleTag.Stopping,
            Effect.closeShutdownCh, Effect.timerGateClose, Effect.awaitWaitGroup Minute]
            ++ (if awaitSuccess then [] else [Effect.loggerWarn LifeCycleTag.StopTimedout])
            ++ [Effect.queueBaseStop, Effect.loggerInfo LifeCycleTag.Stopped]) = 1 := by
          cases awaitSuccess <;> decide
        omega
      have h1 : ¬ (DaemonStatusStopped = DaemonStatusInitialized
          ∨ DaemonStatusStopped = DaemonStatusStarted) := by decide
      rw [hc, Stop_status p awaitSuccess h, if_neg h1]
      simp [h]
    · rw [Stop_of_ne p awaitSuccess h]

theorem calls_closes_bound (cs : List LifecycleCall) :
    ∀ p : scheduledQueue,
      (p.calls cs).shutdownCloses
          + (if (p.calls cs).status = DaemonStatusInitialized
              ∨ (p.calls cs).status = DaemonStatusStarted then 1 else 0)
        ≤ p.shutdownCloses
          + (if p.status = DaemonStatusInitialized ∨ p.status = DaemonStatusStarted
              then 1 else 0) := by
  induction cs with
  | nil => intro p; exact le_refl _
  | cons c cs ih =>
    intro p
    have hstep : p.calls (c :: cs) = (p.call c).calls cs := rfl
    rw [hstep]
    exact le_trans (ih (p.call c)) (call_closes_bound p c)

theorem calls_of_stopped (cs : List LifecycleCall) :
    ∀ p : scheduledQueue, p.status = DaemonStatusStopped → p.calls cs = p := by
  induction cs with
  | nil => intro p _; rfl
  | cons c cs ih =>
    intro p h
    have h1 : p.status ≠ DaemonStatusInitialized := by rw [h]; decide
    have h2 : p.status ≠ DaemonStatusStarted := by rw [h]; decide
    have hc : p.call c = p := by
      cases c with
      | Start => exact Start_of_ne p h1
      | Stop awaitSuccess => exact Stop_of_ne p awaitSuccess h2
    have hstep : p.calls (c :: cs) = (p.call c).calls cs := rfl
    rw [hstep, hc]
    exact ih p h

end scheduledQueue

/-- C20: the life cycle of the scheduled queue. `Start` acts only on status
`Initialized`: the status becomes `Started` and, between the two log lines, the
base queue is started, the event loop is launched once and `notify` is entered
once, with the zero time; on any other status it changes nothing. `Stop` acts
only on status `Started`: the status becomes `Stopped`, the shutdown channel is
closed, the timer gate is closed, the wait group is awaited and the base queue
is stopped; on any other status it changes nothing. So a second `Start` or a
second `Stop` does nothing, every call either keeps the status or moves it
from `Initialized` to `Started` or from `Started` to `Stopped`, no sequence of
calls leaves `Stopped`, and any sequence of calls closes the shutdown channel
at most once. -/
theorem lifecycle_state_machine (p : scheduledQueue) (awaitSuccess : Bool)
    (cs : List LifecycleCall) :
    (p.status = DaemonStatusInitialized →
        p.Start.status = DaemonStatusStarted
        ∧ p.Start.trace = p.trace ++ [Effect.loggerInfo LifeCycleTag.Starting,
            Effect.queueBaseStart, Effect.shutdownWGAdd 1, Effect.goProcessEventLoop,
            Effect.notify Time.zero, Effect.loggerInfo LifeCycleTag.Started])
    ∧ (p.status ≠ DaemonStatusInitialized → p.Start = p)
    ∧ (p.status = DaemonStatusStarted →
        (p.Stop awaitSuccess).status = DaemonStatusStopped
        ∧ (p.Stop awaitSuccess).trace = p.trace ++ ([Effect.loggerInfo LifeCycleTag.Stopping,
            Effect.closeShutdownCh, Effect.timerGateClose, Effect.awaitWaitGroup Minute]
            ++ (if awaitSuccess then [] else [Effect.loggerWarn LifeCycleTag.StopTimedout])
            ++ [Effect.queueBaseStop, Effect.loggerInfo LifeCycleTag.Stopped]))
    ∧ (p.status ≠ DaemonStatusStarted → p.Stop awaitSuccess = p)
    ∧ p.Start.Start = p.Start
    ∧ (∀ again : Bool, (p.Stop awaitSuccess).Stop again = p.Stop awaitSuccess)
    ∧ (∀ c : LifecycleCall, (p.call c).status = p.status
        ∨ (p.status = DaemonStatusInitialized ∧ (p.call c).status = DaemonStatusStarted)
        ∨ (p.status = DaemonStatusStarted ∧ (p.call c).status = DaemonStatusStopped))
    ∧ (p.status = DaemonStatusStopped → p.calls cs = p)
    ∧ (p.calls cs).shutdownCloses ≤ p.shutdownCloses + 1 := by
  refine ⟨fun h => ⟨Start_status p h, Start_trace p h⟩, Start_of_ne p,
    fun h => ⟨Stop_status p awaitSuccess h, Stop_trace p awaitSuccess h⟩,
    Stop_of_ne p awaitSuccess, ?_, ?_, ?_, calls_of_stopped cs p, ?_⟩
  · by_cases h : p.status = DaemonStatusInitialized
    · apply Start_of_ne
      rw [Start_status p h]
      decide
    · rw [Start_of_ne p h, Start_of_ne p h]
  · intro again
    by_cases h : p.status = DaemonStatusStarted
    · apply Stop_of_ne
      rw [Stop_status p awaitSuccess h]
      decide
    · rw [Stop_of_ne p awaitSuccess h, Stop_of_ne p again h]
  · intro c
    cases c with
    | Start =>
      by_cases h : p.status = DaemonStatusInitialized
      · exact Or.inr (Or.inl ⟨h, Start_status p h⟩)
      · exact Or.inl (congrArg scheduledQueue.status (Start_of_ne p h))
    | Stop a =>
      by_cases h : p.status = DaemonStatusStarted
      · exact Or.inr (Or.inr ⟨h, Stop_status p a h⟩)
      · exact Or.inl (congrArg scheduledQueue.status (Stop_of_ne p a h))
  · have h := calls_closes_bound cs p
    have h1 : (if p.status = DaemonStatusInitialized ∨ p.status = DaemonStatusStarted
        then 1 else 0) ≤ 1 := by split <;> omega
    omega

/-- C20, a new queue: started, stopped, and called again both ways. The second
calls change nothing and the shutdown channel is closed once. -/
theorem lifecycle_state_machine_witness :
    newQueue.status = DaemonStatusInitialized
    ∧ newQueue.Start.status = DaemonStatusStarted
    ∧ (newQueue.Start.Stop true).status = DaemonStatusStopped
    ∧ newQueue.Start.status ≠ DaemonStatusInitialized
    ∧ newQueue.Start.Start = newQueue.Start
    ∧ ((newQueue.Start.Stop true).Stop false).trace = (newQueue.Start.Stop true).trace
    ∧ ((newQueue.Start.Stop true).Start).trace = (newQueue.Start.Stop true).trace
    ∧ (newQueue.calls [LifecycleCall.Start, LifecycleCall.Stop true, LifecycleCall.Start,
        LifecycleCall.Stop false, LifecycleCall.Stop true]).shutdownCloses = 1 :=
  have h := lifecycle_state_machine newQueue true []
  have h1 := lifecycle_state_machine newQueue.Start true []
  ⟨rfl, (h.1 rfl).1, (h1.2.2.1 ((h.1 rfl).1)).1, by decide, h.2.2.2.2.1, by decide, by decide,
    by decide⟩

/-! ## The wake-up signal -/

namespace Goroutines

theorem run_cons (s : Goroutines) (c : Statement) (cs : List Statement) :
    s.run (c :: cs) = (s.step c).run cs := rfl

/-- The statements of `notify`, run with no other goroutine in between, do
what the method does. -/
theorem run_notifyStatements (p : scheduledQueue) (t : Time) :
    (start p).run (notifyStatements t) = start (p.notify t) := by
  cases hc : (!Time.IsZero p.newTime && !Time.Before t p.newTime) <;>
    simp [notifyStatements, run, start, notify, step, newTimeLockHeld, LoopPoint.holdsLock,
      record, hc]

/-- The statements of the case `<-p.newTimerCh`, run with no other goroutine
in between, do what the case does. -/
theorem run_newTimerStatements (p : scheduledQueue) (h : p.newTimerCh ≠ 0) :
    (start p).run newTimerStatements
      = start (processNewTime
          (record { p with newTimerCh := p.newTimerCh - 1 } Effect.newTimerNotifyCounter)) := by
  unfold newTimerStatements run start
  simp only [List.foldl, step, h, if_false, newTimeLockHeld, LoopPoint.holdsLock, Option.isSome,
    Bool.or_self, Bool.false_eq_true]
  rfl

/-- What every statement keeps: the channel within its capacity, the lock with
one holder, no pending time once the event loop has cleared it, the copy made
by `processNewTime` equal to the pending time until it is cleared, and for a
pending time a signal in the channel, a send still to come, or an event loop
that took the signal and has not cleared the pending time yet. -/
theorem step_wakeUp (s : Goroutines) (c : Statement)
    (h : s.queue.newTimerCh ≤ 1
      ∧ (s.notifier.isSome = true → s.eventLoop.holdsLock = false)
      ∧ (∀ t, s.eventLoop = LoopPoint.unlock t → s.queue.newTime = Time.zero)
      ∧ (∀ t, s.eventLoop = LoopPoint.clear t → s.queue.newTime = t)
      ∧ (s.queue.newTime ≠ Time.zero →
          s.queue.newTimerCh = 1 ∨ s.notifier = some NotifyPoint.send
            ∨ s.eventLoop.tookSignal = true)) :
    (s.step c).queue.newTimerCh ≤ 1
      ∧ ((s.step c).notifier.isSome = true → (s.step c).eventLoop.holdsLock = false)
      ∧ (∀ t, (s.step c).eventLoop = LoopPoint.unlock t → (s.step c).queue.newTime = Time.zero)
      ∧ (∀ t, (s.step c).eventLoop = LoopPoint.clear t → (s.step c).queue.newTime = t)
      ∧ ((s.step c).queue.newTime ≠ Time.zero →
          (s.step c).queue.newTimerCh = 1 ∨ (s.step c).notifier = some NotifyPoint.send
            ∨ (s.step c).eventLoop.tookSignal = true) := by
  obtain ⟨q, n, l⟩ := s
  obtain ⟨h1, h2, h3, h5, h4⟩ := h
  have hcl : ∀ t, l = LoopPoint.unlock t → l.holdsLock = true := by
    intro t ht
    rw [ht]
    rfl
  have hcp : ∀ t, l = LoopPoint.clear t → l.holdsLock = true := by
    intro t ht
    rw [ht]
    rfl
  cases c with
  | notifyAssign =>
    rcases n with _ | (t | t | _ | _)
    · exact ⟨h1, h2, h3, h5, h4⟩
    · exact ⟨h1, h2, h3, h5, h4⟩
    · refine ⟨h1, fun _ => h2 rfl, fun u hu => ?_, fun u hu => ?_,
        fun _ => Or.inr (Or.inl rfl)⟩
      · have hheld := hcl u hu
        rw [h2 rfl] at hheld
        cases hheld
      · have hheld := hcp u hu
        rw [h2 rfl] at hheld
        cases hheld
    · exact ⟨h1, h2, h3, h5, h4⟩
    · exact ⟨h1, h2, h3, h5, h4⟩
  | notifyLock _ | notifyTest | notifySend | notifyUnlock =>
    rcases n with _ | (_ | _ | _ | _) <;>
      (try simp only [step, newTimeLockHeld, Option.isSome, signalNewTimer, record]) <;>
      (try split_ifs) <;>
      (try simp_all [LoopPoint.holdsLock, LoopPoint.tookSignal]) <;>
      (try omega)
  | loopReceive | loopCount | loopLock | loopCopy | loopClear | loopUnlock | loopUpdate =>
    cases l <;>
      (try simp only [step, newTimeLockHeld, LoopPoint.holdsLock, signalNewTimer, record]) <;>
      (try split_ifs) <;>
      (try simp_all [LoopPoint.holdsLock, LoopPoint.tookSignal])

/-- Whatever the goroutines run, in whatever order, keeps what `step_wakeUp`
keeps. -/
theorem run_wakeUp (cs : List Statement) :
    ∀ s : Goroutines,
      (s.queue.newTimerCh ≤ 1
        ∧ (s.notifier.isSome = true → s.eventLoop.holdsLock = false)
        ∧ (∀ t, s.eventLoop = LoopPoint.unlock t → s.queue.newTime = Time.zero)
        ∧ (∀ t, s.eventLoop = LoopPoint.clear t → s.queue.newTime = t)
        ∧ (s.queue.newTime ≠ Time.zero →
            s.queue.newTimerCh = 1 ∨ s.notifier = some NotifyPoint.send
              ∨ s.eventLoop.tookSignal = true)) →
      (s.run cs).queue.newTimerCh ≤ 1
        ∧ ((s.run cs).notifier.isSome = true → (s.run cs).eventLoop.holdsLock = false)
        ∧ (∀ t, (s.run cs).eventLoop = LoopPoint.unlock t → (s.run cs).queue.newTime = Time.zero)
        ∧ (∀ t, (s.run cs).eventLoop = LoopPoint.clear t → (s.run cs).queue.newTime = t)
        ∧ ((s.run cs).queue.newTime ≠ Time.zero →
            (s.run cs).queue.newTimerCh = 1 ∨ (s.run cs).notifier = some NotifyPoint.send
              ∨ (s.run cs).eventLoop.tookSignal = true) := by
  induction cs with
  | nil => intro s h; exact h
  | cons c cs ih =>
    intro s h
    rw [run_cons]
    exact ih (s.step c) (step_wakeUp s c h)

/-- The send of `notify` on a channel within its capacity leaves one signal. -/
theorem step_notifySend_newTimerCh (s : Goroutines) (h : s.queue.newTimerCh ≤ 1)
    (hsend : s.notifier = some NotifyPoint.send) :
    (s.step Statement.notifySend).queue.newTimerCh = 1 := by
  obtain ⟨q, n, l⟩ := s
  subst hsend
  have h : q.newTimerCh ≤ 1 := h
  simp only [step, signalNewTimer]
  split_ifs
  · show q.newTimerCh + 1 = 1
    omega
  · show q.newTimerCh = 1
    omega

end Goroutines

/-- C22, counterexample: on a new queue one goroutine runs `notify(5)` to its
end and the event loop then receives from `newTimerCh`. The program now stands
between the receive and `processNewTime`: the pending time 5 is recorded, no
goroutine is inside `notify`, nothing has been handed to the gate, and the
wake-up channel is empty. So a non-zero pending time that `processNewTime` has
not yet taken does not always come with a signal in the channel. -/
theorem signal_taken_before_pending_time_cleared :
    ((Goroutines.start newQueue).run
        (Goroutines.notifyStatements 5 ++ [Statement.loopReceive])).queue.newTime = 5
    ∧ ((Goroutines.start newQueue).run
        (Goroutines.notifyStatements 5 ++ [Statement.loopReceive])).queue.newTimerCh = 0
    ∧ ((Goroutines.start newQueue).run
        (Goroutines.notifyStatements 5 ++ [Statement.loopReceive])).notifier = none
    ∧ ((Goroutines.start newQueue).run
        (Goroutines.notifyStatements 5 ++ [Statement.loopReceive])).eventLoop = LoopPoint.count
    ∧ ((Goroutines.start newQueue).run
        (Goroutines.notifyStatements 5 ++ [Statement.loopReceive])).queue.gateUpdates = []
    ∧ ¬ (∀ statements : List Statement,
          ((Goroutines.start newQueue).run statements).queue.newTime ≠ Time.zero →
          ((Goroutines.start newQueue).run statements).notifier = none →
          (((Goroutines.start newQueue).run statements).eventLoop = LoopPoint.select
            ∨ ((Goroutines.start newQueue).run statements).eventLoop = LoopPoint.count) →
          ((Goroutines.start newQueue).run statements).queue.newTimerCh = 1) := by
  refine ⟨by decide, by decide, by decide, by decide, by decide, ?_⟩
  intro h
  have h1 := h (Goroutines.notifyStatements 5 ++ [Statement.loopReceive]) (by decide)
    (by decide) (by decide)
  revert h1
  decide

/-- C22, amended: `notify(t)` on a queue whose wake-up channel is within its
capacity of one. If a pending time is recorded (non-zero) and is earlier than or
equal to `t`, the pending time and the channel are left as they are; otherwise
`t` becomes the pending time and the channel holds exactly one signal
afterwards. The statements of `notify`, and those of the case `<-p.newTimerCh`
of the event loop, run with no other goroutine in between, do what the methods
`notify` and `receiveNewTimer` do. From a queue with no pending time and an
empty channel, however the goroutines interleave the statements of `notify`,
of the receive and of `processNewTime`: the channel never holds more than one
signal; the send of `notify` leaves exactly one signal in it; and whenever a
non-zero pending time is recorded, a signal is in the channel, or the `notify`
that recorded the time has its send still to run, or the event loop has taken
the signal and has not yet run `p.newTime = time.Time{}`; and the time that
`processNewTime` has copied for the gate is the pending time, up to the
statement that clears it. -/
theorem notify_discard_rule_and_signal_or_taker (p : scheduledQueue) (t : Time)
    (statements : List Statement) (hcapacity : p.newTimerCh ≤ 1) :
    (p.newTime ≠ Time.zero ∧ p.newTime ≤ t →
        (p.notify t).newTime = p.newTime ∧ (p.notify t).newTimerCh = p.newTimerCh)
    ∧ (¬ (p.newTime ≠ Time.zero ∧ p.newTime ≤ t) →
        (p.notify t).newTime = t ∧ (p.notify t).newTimerCh = 1)
    ∧ (Goroutines.start p).run (Goroutines.notifyStatements t) = Goroutines.start (p.notify t)
    ∧ (∀ q : scheduledQueue, p.receiveNewTimer = some q →
        (Goroutines.start p).run Goroutines.newTimerStatements = Goroutines.start q)
    ∧ (p.newTime = Time.zero → p.newTimerCh = 0 →
        ((Goroutines.start p).run statements).queue.newTimerCh ≤ 1
        ∧ (((Goroutines.start p).run statements).notifier = some NotifyPoint.send →
            (((Goroutines.start p).run statements).step
              Statement.notifySend).queue.newTimerCh = 1)
        ∧ (((Goroutines.start p).run statements).queue.newTime ≠ Time.zero →
            ((Goroutines.start p).run statements).queue.newTimerCh = 1
            ∨ ((Goroutines.start p).run statements).notifier = some NotifyPoint.send
            ∨ ((Goroutines.start p).run statements).eventLoop.tookSignal = true)
        ∧ (∀ u : Time, ((Goroutines.start p).run statements).eventLoop = LoopPoint.clear u →
            ((Goroutines.start p).run statements).queue.newTime = u)) := by
  refine ⟨?_, ?_, Goroutines.run_notifyStatements p t, ?_, ?_⟩
  · rintro ⟨hz, hle⟩
    refine ⟨?_, notify_newTimerCh_discard p t hz (not_lt.2 hle)⟩
    rw [notify_newTime_of_ne_zero p t hz]
    exact min_eq_left hle
  · intro h
    by_cases hz : p.newTime = Time.zero
    · exact ⟨notify_newTime_of_zero p t hz, notify_newTimerCh p t (Or.inl hz) hcapacity⟩
    · have hlt : t < p.newTime := by
        by_contra hge
        exact h ⟨hz, not_lt.1 hge⟩
      refine ⟨?_, notify_newTimerCh p t (Or.inr hlt) hcapacity⟩
      rw [notify_newTime_of_ne_zero p t hz]
      exact min_eq_right hlt.le
  · intro q hq
    unfold receiveNewTimer at hq
    by_cases hch : p.newTimerCh = 0
    · rw [if_pos hch] at hq
      cases hq
    · rw [if_neg hch] at hq
      cases hq
      exact Goroutines.run_newTimerStatements p hch
  · intro hz hch
    have hinv := Goroutines.run_wakeUp statements (Goroutines.start p)
      ⟨hcapacity, fun hsome => rfl, fun u hu => hz, fun u hu => LoopPoint.noConfusion hu,
        fun hne => absurd hz hne⟩
    exact ⟨hinv.1, Goroutines.step_notifySend_newTimerCh _ hinv.1, hinv.2.2.2.2, hinv.2.2.2.1⟩

/-- C22, amended, on a new queue: a later time is discarded, an earlier one is recorded with
one signal in the channel. After `notify(5)` and the receive of the event loop,
a second goroutine runs `notify(3)` up to its send: the pending time 3 is
recorded with an empty channel, the event loop has taken a signal, and the send
that follows puts one signal in the channel. -/
theorem notify_discard_rule_and_signal_or_taker_witness :
    (newQueue.notify 5).newTimerCh ≤ 1
    ∧ ((newQueue.notify 5).notify 9).newTime = 5
    ∧ ((newQueue.notify 5).notify 9).newTimerCh = 1
    ∧ ((newQueue.notify 5).notify 3).newTime = 3
    ∧ ((newQueue.notify 5).notify 3).newTimerCh = 1
    ∧ ((Goroutines.start newQueue).run
        (Goroutines.notifyStatements 5 ++ [Statement.loopReceive, Statement.notifyLock 3,
          Statement.notifyTest, Statement.notifyAssign])).queue.newTime = 3
    ∧ ((Goroutines.start newQueue).run
        (Goroutines.notifyStatements 5 ++ [Statement.loopReceive, Statement.notifyLock 3,
          Statement.notifyTest, Statement.notifyAssign])).queue.newTimerCh = 0
    ∧ ((Goroutines.start newQueue).run
        (Goroutines.notifyStatements 5 ++ [Statement.loopReceive, Statement.notifyLock 3,
          Statement.notifyTest, Statement.notifyAssign])).eventLoop.tookSignal = true
    ∧ (((Goroutines.start newQueue).run
        (Goroutines.notifyStatements 5 ++ [Statement.loopReceive, Statement.notifyLock 3,
          Statement.notifyTest, Statement.notifyAssign])).step
            Statement.notifySend).queue.newTimerCh = 1 :=
  have h := notify_discard_rule_and_signal_or_taker (newQueue.notify 5) 9 [] (by decide)
  have h3 := notify_discard_rule_and_signal_or_taker (newQueue.notify 5) 3 [] (by decide)
  have hrun := notify_discard_rule_and_signal_or_taker newQueue 0
    (Goroutines.notifyStatements 5 ++ [Statement.loopReceive, Statement.notifyLock 3,
      Statement.notifyTest, Statement.notifyAssign]) (by decide)
  ⟨by decide, (h.1 (by decide)).1.trans rfl, (h.1 (by decide)).2.trans rfl,
    (h3.2.1 (by decide)).1, (h3.2.1 (by decide)).2, by decide, by decide, by decide,
    (hrun.2.2.2.2 rfl rfl).2.1 (by decide)⟩

/-! ## Look-ahead: one task, failed wait, store errors -/

/-- C23: when the rate-limiter wait succeeds and the store read succeeds with
exactly one task, `lookAheadTask` updates the gate once, with the fire time of
the key of that task; the window end is not handed to the gate. -/
theorem lookAhead_single_task_arms_gate_at_fire_time (p : scheduledQueue) (env : LookAheadEnv)
    (request : GetHistoryTasksRequest) (task : Task) (token : PageToken)
    (hwait : env.rateLimitErr = none)
    (hrequest : request = { ShardID := p.shardID
                            TaskCategory := p.category
                            InclusiveMinTaskKey := ⟨p.nonReadableScope.InclusiveMin.FireTime, 0⟩
                            ExclusiveMaxTaskKey :=
                              ⟨p.nonReadableScope.InclusiveMin.FireTime + env.jitter.val, 0⟩
                            BatchSize := 1
                            NextPageToken := none })
    (hstore : env.store request = Except.ok ⟨[task], token⟩) :
    (p.lookAheadTask env).gateUpdates = p.gateUpdates ++ [task.Key.FireTime]
    ∧ (p.lookAheadTask env).trace
        = p.trace ++ [Effect.rateLimiterWait
            (Time.Add env.contextCreated lookAheadRateLimitDelay) p.lookAheadRateLimitRequest,
          Effect.GetHistoryTasks request,
          Effect.timerGateUpdate task.Key.FireTime] := by
  subst hrequest
  unfold lookAheadTask
  simp only [hwait, record, Time.Add] at hstore ⊢
  rw [hstore]
  simp [gateUpdates]

/-- C23, a new queue with frontier 100 and a jittered interval of 50: the store
answers with one task firing at 120 and the gate is updated with 120, not with
the window end 150. -/
theorem lookAhead_single_task_arms_gate_at_fire_time_witness :
    (newQueue.lookAheadTask ⟨0, none, ⟨50, by decide⟩,
        fun _ => Except.ok ⟨[taskAt timerCategory 120 1], none⟩, 7⟩).gateUpdates
      = newQueue.gateUpdates ++ [(taskAt timerCategory 120 1).Key.FireTime]
    ∧ (newQueue.lookAheadTask ⟨0, none, ⟨50, by decide⟩,
        fun _ => Except.ok ⟨[taskAt timerCategory 120 1], none⟩, 7⟩).gateUpdates = [120] :=
  have h := lookAhead_single_task_arms_gate_at_fire_time newQueue
    ⟨0, none, ⟨50, by decide⟩, fun _ => Except.ok ⟨[taskAt timerCategory 120 1], none⟩, 7⟩
    _ (taskAt timerCategory 120 1) none rfl rfl rfl
  ⟨h.1, h.1.trans rfl⟩

/-- C24: when the wait on the rate limiter returns an error, `lookAheadTask`
makes the wait, updates the gate once, with the deadline of the wait context,
which is the instant the context was created plus three seconds, reads nothing
from the store and returns. -/
theorem lookAhead_failed_wait_rearms_at_deadline (p : scheduledQueue) (env : LookAheadEnv)
    (err : Quotas.Error) (hwait : env.rateLimitErr = some err) :
    (p.lookAheadTask env).trace
        = p.trace ++ [Effect.rateLimiterWait (env.contextCreated + 3000000000)
            p.lookAheadRateLimitRequest,
          Effect.timerGateUpdate (env.contextCreated + 3000000000)]
    ∧ (p.lookAheadTask env).gateUpdates = p.gateUpdates ++ [env.contextCreated + 3000000000]
    ∧ (p.lookAheadTask env).storeReads = p.storeReads
    ∧ lookAheadRateLimitDelay.val = 3 * Second.val := by
  have hd : Time.Add env.contextCreated lookAheadRateLimitDelay
      = env.contextCreated + 3000000000 := rfl
  have ht : (p.lookAheadTask env).trace
      = p.trace ++ [Effect.rateLimiterWait (env.contextCreated + 3000000000)
          p.lookAheadRateLimitRequest,
        Effect.timerGateUpdate (env.contextCreated + 3000000000)] := by
    unfold lookAheadTask
    simp only [hwait, record, hd]
    simp
  refine ⟨ht, ?_, ?_, rfl⟩
  · unfold gateUpdates
    rw [ht]
    simp
  · unfold storeReads
    rw [ht]
    simp

/-- C24, a new queue whose wait, on a context created at 1000, fails. -/
theorem lookAhead_failed_wait_rearms_at_deadline_witness :
    (⟨1000, some (Quotas.Error.context Quotas.ContextError.DeadlineExceeded), ⟨50, by decide⟩,
        fun _ => Except.ok ⟨[], none⟩, 7⟩ : LookAheadEnv).rateLimitErr
      = some (Quotas.Error.context Quotas.ContextError.DeadlineExceeded)
    ∧ (newQueue.lookAheadTask ⟨1000,
        some (Quotas.Error.context Quotas.ContextError.DeadlineExceeded), ⟨50, by decide⟩,
        fun _ => Except.ok ⟨[], none⟩, 7⟩).gateUpdates = [3000001000]
    ∧ (newQueue.lookAheadTask ⟨1000,
        some (Quotas.Error.context Quotas.ContextError.DeadlineExceeded), ⟨50, by decide⟩,
        fun _ => Except.ok ⟨[], none⟩, 7⟩).storeReads = [] :=
  have h := lookAhead_failed_wait_rearms_at_deadline newQueue
    ⟨1000, some (Quotas.Error.context Quotas.ContextError.DeadlineExceeded), ⟨50, by decide⟩,
      fun _ => Except.ok ⟨[], none⟩, 7⟩
    (Quotas.Error.context Quotas.ContextError.DeadlineExceeded) rfl
  ⟨rfl, h.2.1.trans rfl, h.2.2.1.trans rfl⟩

/-- What `lookAheadTask` does when the wait succeeds and the store read fails. -/
theorem lookAheadTask_store_error (p : scheduledQueue) (env : LookAheadEnv)
    (err : StoreError) (hwait : env.rateLimitErr = none)
    (hstore : env.store { ShardID := p.shardID
                          TaskCategory := p.category
                          InclusiveMinTaskKey := ⟨p.nonReadableScope.InclusiveMin.FireTime, 0⟩
                          ExclusiveMaxTaskKey :=
                            ⟨p.nonReadableScope.InclusiveMin.FireTime + env.jitter.val, 0⟩
                          BatchSize := 1
                          NextPageToken := none } = Except.error err) :
    (p.lookAheadTask env).trace
      = p.trace ++ [Effect.rateLimiterWait
          (Time.Add env.contextCreated lookAheadRateLimitDelay) p.lookAheadRateLimitRequest,
        Effect.GetHistoryTasks
          { ShardID := p.shardID
            TaskCategory := p.category
            InclusiveMinTaskKey := ⟨p.nonReadableScope.InclusiveMin.FireTime, 0⟩
            ExclusiveMaxTaskKey :=
              ⟨p.nonReadableScope.InclusiveMin.FireTime + env.jitter.val, 0⟩
            BatchSize := 1
            NextPageToken := none },
        Effect.loggerError,
        Effect.timerGateUpdate (if err.IsResourceExhausted then env.now + 3000000000
          else p.nonReadableScope.InclusiveMin.FireTime)] := by
  unfold lookAheadTask
  simp only [hwait, record, Time.Add] at hstore ⊢
  rw [hstore]
  cases h : err.IsResourceExhausted <;> simp [h, lookAheadRateLimitDelay, Second]

theorem lookAheadTask_store_error_gateUpdates (p : scheduledQueue) (env : LookAheadEnv)
    (err : StoreError) (hwait : env.rateLimitErr = none)
    (hstore : env.store { ShardID := p.shardID
                          TaskCategory := p.category
                          InclusiveMinTaskKey := ⟨p.nonReadableScope.InclusiveMin.FireTime, 0⟩
                          ExclusiveMaxTaskKey :=
                            ⟨p.nonReadableScope.InclusiveMin.FireTime + env.jitter.val, 0⟩
                          BatchSize := 1
                          NextPageToken := none } = Except.error err) :
    (p.lookAheadTask env).gateUpdates
      = p.gateUpdates ++ [if err.IsResourceExhausted then env.now + 3000000000
          else p.nonReadableScope.InclusiveMin.FireTime] := by
  unfold gateUpdates
  rw [lookAheadTask_store_error p env err hwait hstore]
  simp

/-- C25: when the wait succeeds and the store read returns an error,
`lookAheadTask` logs the error, updates the gate once and returns: with
`timeSource.Now()` plus three seconds when the error indicates resource
exhaustion, with the window start `F` for every other error. -/
theorem lookAhead_store_error_rearms_once (p : scheduledQueue) (env : LookAheadEnv)
    (err : StoreError) (hwait : env.rateLimitErr = none)
    (hstore : env.store { ShardID := p.shardID
                          TaskCategory := p.category
                          InclusiveMinTaskKey := ⟨p.nonReadableScope.InclusiveMin.FireTime, 0⟩
                          ExclusiveMaxTaskKey :=
                            ⟨p.nonReadableScope.InclusiveMin.FireTime + env.jitter.val, 0⟩
                          BatchSize := 1
                          NextPageToken := none } = Except.error err) :
    ∃ t : Time,
      (p.lookAheadTask env).gateUpdates = p.gateUpdates ++ [t]
      ∧ (p.lookAheadTask env).trace
          = p.trace ++ [Effect.rateLimiterWait
              (Time.Add env.contextCreated lookAheadRateLimitDelay) p.lookAheadRateLimitRequest,
            Effect.GetHistoryTasks
              { ShardID := p.shardID
                TaskCategory := p.category
                InclusiveMinTaskKey := ⟨p.nonReadableScope.InclusiveMin.FireTime, 0⟩
                ExclusiveMaxTaskKey :=
                  ⟨p.nonReadableScope.InclusiveMin.FireTime + env.jitter.val, 0⟩
                BatchSize := 1
                NextPageToken := none },
            Effect.loggerError,
            Effect.timerGateUpdate t]
      ∧ (err.IsResourceExhausted = true → t = Time.Add env.now lookAheadRateLimitDelay)
      ∧ (err.IsResourceExhausted = true → t = env.now + 3 * Second.val)
      ∧ (err.IsResourceExhausted = false → t = p.nonReadableScope.InclusiveMin.FireTime) := by
  refine ⟨if err.IsResourceExhausted then env.now + 3000000000
      else p.nonReadableScope.InclusiveMin.FireTime,
    lookAheadTask_store_error_gateUpdates p env err hwait hstore,
    lookAheadTask_store_error p env err hwait hstore, ?_, ?_, ?_⟩
  · intro h
    rw [h]
    rfl
  · intro h
    rw [h]
    rfl
  · intro h
    rw [h]
    rfl

/-- C25, a new queue with frontier 100 at instant 7: a resource-exhausted
error re-arms the gate at 7 plus three seconds, another error at 100. -/
theorem lookAhead_store_error_rearms_once_witness :
    (newQueue.lookAheadTask ⟨0, none, ⟨50, by decide⟩, failingStore ⟨true⟩, 7⟩).gateUpdates
      = [3000000007]
    ∧ (newQueue.lookAheadTask ⟨0, none, ⟨50, by decide⟩, failingStore ⟨false⟩, 7⟩).gateUpdates
      = [100]
    ∧ ∃ t : Time,
        (newQueue.lookAheadTask ⟨0, none, ⟨50, by decide⟩, failingStore ⟨true⟩, 7⟩).gateUpdates
          = newQueue.gateUpdates ++ [t] :=
  ⟨by decide, by decide,
    (lookAhead_store_error_rearms_once newQueue
      ⟨0, none, ⟨50, by decide⟩, failingStore ⟨true⟩, 7⟩ ⟨true⟩ rfl rfl).elim
      (fun t h => ⟨t, h.1⟩)⟩

/-- C26, counterexample: a queue whose frontier `F` lies ten seconds after the
zero time, at the instant zero. A resource-exhausted error re-arms the gate at
three seconds, any other error at ten seconds: the resource-exhausted time is
the earlier one. -/
theorem resource_exhaustion_earlier_than_far_frontier :
    farQueue.nonReadableScope.InclusiveMin.FireTime = 10000000000
    ∧ (farQueue.lookAheadTask ⟨0, none, ⟨50, by decide⟩, failingStore ⟨true⟩, 0⟩).gateUpdates
      = [3000000000]
    ∧ (farQueue.lookAheadTask ⟨0, none, ⟨50, by decide⟩, failingStore ⟨false⟩, 0⟩).gateUpdates
      = [10000000000]
    ∧ ¬ ((10000000000 : Time) < 3000000000) := by
  refine ⟨rfl, by decide, by decide, by decide⟩

/-- C26, amended: in one queue state, with frontier `F` and the instant `now`
read by `timeSource.Now()`, a resource-exhausted store error re-arms the gate
at `now` plus three seconds and any other store error at `F`; the first time is
strictly later than the second when `F` is earlier than `now` plus three
seconds, and only then. -/
theorem resource_exhaustion_backs_off_longer_near_frontier (p : scheduledQueue)
    (env : LookAheadEnv) (exhausted other : StoreError)
    (hwait : env.rateLimitErr = none)
    (hexhausted : exhausted.IsResourceExhausted = true)
    (hother : other.IsResourceExhausted = false) :
    ∃ tExhausted tOther : Time,
      (p.lookAheadTask { env with store := failingStore exhausted }).gateUpdates
          = p.gateUpdates ++ [tExhausted]
      ∧ (p.lookAheadTask { env with store := failingStore other }).gateUpdates
          = p.gateUpdates ++ [tOther]
      ∧ tExhausted = env.now + 3 * Second.val
      ∧ tOther = p.nonReadableScope.InclusiveMin.FireTime
      ∧ (p.nonReadableScope.InclusiveMin.FireTime < env.now + 3 * Second.val →
          tOther < tExhausted)
      ∧ (¬ p.nonReadableScope.InclusiveMin.FireTime < env.now + 3 * Second.val →
          ¬ tOther < tExhausted) := by
  have h1 := lookAheadTask_store_error_gateUpdates p { env with store := failingStore exhausted }
    exhausted hwait rfl
  have h2 := lookAheadTask_store_error_gateUpdates p { env with store := failingStore other }
    other hwait rfl
  rw [hexhausted] at h1
  rw [hother] at h2
  exact ⟨env.now + 3000000000, p.nonReadableScope.InclusiveMin.FireTime, h1, h2, rfl, rfl,
    fun h => h, fun h => h⟩

/-- C26, amended, a new queue with frontier 100 at instant 7: three seconds
after 7 is later than 100. -/
theorem resource_exhaustion_backs_off_longer_near_frontier_witness :
    newQueue.nonReadableScope.InclusiveMin.FireTime < (7 : Time) + 3 * Second.val
    ∧ ∃ tExhausted tOther : Time,
        (newQueue.lookAheadTask ⟨0, none, ⟨50, by decide⟩, failingStore ⟨true⟩, 7⟩).gateUpdates
          = newQueue.gateUpdates ++ [tExhausted]
        ∧ (newQueue.lookAheadTask ⟨0, none, ⟨50, by decide⟩, failingStore ⟨false⟩,
            7⟩).gateUpdates = newQueue.gateUpdates ++ [tOther]
        ∧ tOther < tExhausted :=
  ⟨by decide,
    (resource_exhaustion_backs_off_longer_near_frontier newQueue
      ⟨0, none, ⟨50, by decide⟩, failingStore ⟨true⟩, 7⟩ ⟨true⟩ ⟨false⟩ rfl rfl rfl).elim
      (fun t1 h => h.elim (fun t2 h2 => ⟨t1, t2, h2.1, h2.2.1, h2.2.2.2.2.1 (by decide)⟩))⟩

/-! ## Trimming a page ordered by key -/

/-- The three readings of a comparison by fire time first, sequence second. -/
theorem compare_cases (f1 f2 i1 i2 : Int) :
    ((if decide (f1 < f2) = true then (-1 : Int) else if decide (f2 < f1) = true then 1
        else if i1 < i2 then -1 else if i2 < i1 then 1 else 0) ≤ 0
      ↔ f1 < f2 ∨ (f1 = f2 ∧ i1 ≤ i2))
    ∧ ((if decide (f1 < f2) = true then (-1 : Int) else if decide (f2 < f1) = true then 1
        else if i1 < i2 then -1 else if i2 < i1 then 1 else 0) < 0
      ↔ f1 < f2 ∨ (f1 = f2 ∧ i1 < i2))
    ∧ (0 ≤ (if decide (f1 < f2) = true then (-1 : Int) else if decide (f2 < f1) = true then 1
        else if i1 < i2 then -1 else if i2 < i1 then 1 else 0)
      ↔ f2 < f1 ∨ (f1 = f2 ∧ i2 ≤ i1)) := by
  simp only [decide_eq_true_eq]
  refine ⟨?_, ?_, ?_⟩ <;> split_ifs <;> constructor <;> intro h <;> omega

theorem Key.compareTo_le_iff (a b : Key) :
    a.CompareTo b ≤ 0
      ↔ a.FireTime < b.FireTime ∨ (a.FireTime = b.FireTime ∧ a.TaskID ≤ b.TaskID) :=
  (compare_cases a.FireTime b.FireTime a.TaskID b.TaskID).1

theorem Key.compareTo_lt_iff (a b : Key) :
    a.CompareTo b < 0
      ↔ a.FireTime < b.FireTime ∨ (a.FireTime = b.FireTime ∧ a.TaskID < b.TaskID) :=
  (compare_cases a.FireTime b.FireTime a.TaskID b.TaskID).2.1

theorem Key.compareTo_nonneg_iff (a b : Key) :
    0 ≤ a.CompareTo b
      ↔ b.FireTime < a.FireTime ∨ (a.FireTime = b.FireTime ∧ b.TaskID ≤ a.TaskID) :=
  (compare_cases a.FireTime b.FireTime a.TaskID b.TaskID).2.2

/-- A key after a key that is not before `bound` is not before `bound`. -/
theorem Key.nonneg_of_le (bound a b : Key) (ha : 0 ≤ a.CompareTo bound)
    (hab : a.CompareTo b ≤ 0) : 0 ≤ b.CompareTo bound := by
  rw [Key.compareTo_nonneg_iff] at ha ⊢
  rw [Key.compareTo_le_iff] at hab
  have key : ∀ mf mi af ai bf bi : Int, (mf < af ∨ (af = mf ∧ mi ≤ ai)) →
      (af < bf ∨ (af = bf ∧ ai ≤ bi)) → (mf < bf ∨ (bf = mf ∧ mi ≤ bi)) := by
    intro mf mi af ai bf bi h1 h2
    omega
  exact key _ _ _ _ _ _ ha hab

/-- A key before a key that is before `bound` is before `bound`. -/
theorem Key.lt_of_le (bound a b : Key) (hab : a.CompareTo b ≤ 0)
    (hb : b.CompareTo bound < 0) : a.CompareTo bound < 0 := by
  rw [Key.compareTo_lt_iff] at hb ⊢
  rw [Key.compareTo_le_iff] at hab
  have key : ∀ mf mi af ai bf bi : Int, (af < bf ∨ (af = bf ∧ ai ≤ bi)) →
      (bf < mf ∨ (bf = mf ∧ bi < mi)) → (af < mf ∨ (af = mf ∧ ai < mi)) := by
    intro mf mi af ai bf bi h1 h2
    omega
  exact key _ _ _ _ _ _ hab hb

/-- In a list ordered by key that begins and ends inside a range, every task
is inside the range. -/
theorem all_in_range_of_sorted (r : Range) (tasks : List Task)
    (hsorted : tasks.Pairwise (fun a b => a.Key.CompareTo b.Key ≤ 0))
    (hhead : ∀ h : tasks ≠ [], r.ContainsKey (tasks.head h).Key = true)
    (hlast : ∀ h : tasks ≠ [], r.ContainsKey (tasks.getLast h).Key = true) :
    ∀ t ∈ tasks, r.ContainsKey t.Key = true := by
  intro t ht
  have hne : tasks ≠ [] := List.ne_nil_of_mem ht
  have h1 := hhead hne
  have h2 := hlast hne
  simp only [Range.ContainsKey, Bool.and_eq_true, decide_eq_true_eq] at h1 h2 ⊢
  constructor
  · cases tasks with
    | nil => exact absurd rfl hne
    | cons first rest =>
      rcases List.mem_cons.1 ht with hfirst | hrest
      · rw [hfirst]
        exact h1.1
      · exact Key.nonneg_of_le _ _ _ h1.1 ((List.pairwise_cons.1 hsorted).1 t hrest)
  · have hsplit := List.dropLast_append_getLast hne
    rw [← hsplit] at ht hsorted
    rcases List.mem_append.1 ht with hinit | hend
    · exact Key.lt_of_le _ _ _
        ((List.pairwise_append.1 hsorted).2.2 t hinit _ (List.mem_singleton.2 rfl)) h2.2
    · rw [List.mem_singleton.1 hend]
      exact h2.2

theorem dropWhile_append_cons_of_neg {α : Type} (q : α → Bool) (x : α) (hx : q x = false)
    (rest : List α) :
    ∀ pre : List α, (pre ++ x :: rest).dropWhile q = pre.dropWhile q ++ x :: rest
  | [] => by simp [List.dropWhile_cons, hx]
  | a :: pre => by
    cases ha : q a with
    | false => simp [List.dropWhile_cons, ha]
    | true =>
      simp only [List.cons_append, List.dropWhile_cons, ha, if_true]
      exact dropWhile_append_cons_of_neg q x hx rest pre

theorem rdropWhile_append_cons_of_neg {α : Type} (q : α → Bool) (z : α) (hz : q z = false)
    (init post : List α) :
    (init ++ z :: post).rdropWhile q = init ++ z :: post.rdropWhile q := by
  unfold List.rdropWhile
  rw [List.reverse_append, List.reverse_cons, List.append_assoc, List.singleton_append,
    dropWhile_append_cons_of_neg q z hz]
  simp

/-- The head of what the trimming keeps is inside the range. -/
theorem trimmed_head_in_range (r : Range) (page tasks trailing : List Task)
    (hdrop : page.dropWhile (fun t => !r.ContainsKey t.Key) = tasks ++ trailing)
    (h : tasks ≠ []) : r.ContainsKey (tasks.head h).Key = true := by
  apply trimLeading_head? r page
  rw [trimLeading_eq_dropWhile, hdrop, List.head?_append_of_ne_nil _ h]
  exact List.head?_eq_head h

/-- C27: on a page whose tasks are ordered by key ascending, the pagination
function returns exactly the tasks of the page whose key is in the range, for
every range, those with `InclusiveMin ≤ ExclusiveMax` among them. On a page in
any order, everything between a task in range and a later task in range is
kept, the tasks out of range among it too. -/
theorem pagination_on_sorted_page_is_filter (shardID : Int) (category : Category)
    (batchSize : Int) (store : Store) (r : Range) (paginationToken : PageToken)
    (resp : GetHistoryTasksResponse)
    (hstore : store (paginationRequest shardID category batchSize r paginationToken)
      = Except.ok resp) :
    (resp.Tasks.Pairwise (fun a b => a.Key.CompareTo b.Key ≤ 0) →
      ∃ token : PageToken,
        paginationFn shardID category batchSize store r paginationToken
          = Except.ok (resp.Tasks.filter (fun t => r.ContainsKey t.Key), token))
    ∧ (∀ (pre mid post : List Task) (x z : Task),
        resp.Tasks = pre ++ x :: (mid ++ z :: post) →
        r.ContainsKey x.Key = true → r.ContainsKey z.Key = true →
        ∃ token : PageToken,
          paginationFn shardID category batchSize store r paginationToken
            = Except.ok (pre.dropWhile (fun t => !r.ContainsKey t.Key)
                ++ x :: (mid ++ z :: post.rdropWhile (fun t => !r.ContainsKey t.Key)),
              token)) := by
  obtain ⟨tasks, token, trailing, hfn, hdrop, htrail, hlast, _, href⟩ :=
    paginationFn_trimmed shardID category batchSize store r paginationToken resp hstore
  constructor
  · intro hsorted
    refine ⟨token, ?_⟩
    rw [hfn]
    have hpage : resp.Tasks = resp.Tasks.takeWhile (fun t => !r.ContainsKey t.Key)
        ++ (tasks ++ trailing) := by
      rw [← hdrop, List.takeWhile_append_dropWhile]
    have hsorted1 : tasks.Pairwise (fun a b => a.Key.CompareTo b.Key ≤ 0) := by
      rw [hpage] at hsorted
      exact (List.pairwise_append.1 (List.pairwise_append.1 hsorted).2.1).1
    have hall := all_in_range_of_sorted r tasks hsorted1
      (trimmed_head_in_range r resp.Tasks tasks trailing hdrop) hlast
    have h1 : (resp.Tasks.takeWhile (fun t => !r.ContainsKey t.Key)).filter
        (fun t => r.ContainsKey t.Key) = [] := by
      apply List.filter_eq_nil_iff.2
      intro t ht
      have := List.mem_takeWhile_imp ht
      simpa using this
    have h2 : trailing.filter (fun t => r.ContainsKey t.Key) = [] := by
      apply List.filter_eq_nil_iff.2
      intro t ht
      rw [htrail t ht]
      exact Bool.false_ne_true
    have h3 : tasks.filter (fun t => r.ContainsKey t.Key) = tasks :=
      List.filter_eq_self.2 hall
    conv_rhs => rw [hpage]
    rw [List.filter_append, List.filter_append, h1, h2, h3]
    simp
  · intro pre mid post x z hpage hx hz
    refine ⟨token, ?_⟩
    rw [hfn, href, hpage]
    have hx1 : (fun t : Task => !r.ContainsKey t.Key) x = false := by simp [hx]
    have hz1 : (fun t : Task => !r.ContainsKey t.Key) z = false := by simp [hz]
    rw [dropWhile_append_cons_of_neg _ x hx1]
    have hassoc : pre.dropWhile (fun t => !r.ContainsKey t.Key) ++ x :: (mid ++ z :: post)
        = (pre.dropWhile (fun t => !r.ContainsKey t.Key) ++ x :: mid) ++ z :: post := by
      simp
    rw [hassoc, rdropWhile_append_cons_of_neg _ z hz1]
    simp

/-- C27, against the range `[10, 20)`: the ordered page 5, 15, 16, 25 comes
back as 15, 16, its tasks in range; on the page 15, 25, 16, which is not
ordered, the task at 25 is out of range, lies between two tasks in range and is
kept. -/
theorem pagination_on_sorted_page_is_filter_witness :
    (fun _ => Except.ok ⟨[taskAt timerCategory 5 1, taskAt timerCategory 15 2,
        taskAt timerCategory 16 3, taskAt timerCategory 25 4], some [1]⟩ : Store)
        (paginationRequest 1 timerCategory 10 ⟨⟨10, 0⟩, ⟨20, 0⟩⟩ none)
      = Except.ok ⟨[taskAt timerCategory 5 1, taskAt timerCategory 15 2,
        taskAt timerCategory 16 3, taskAt timerCategory 25 4], some [1]⟩
    ∧ List.Pairwise (fun a b : Task => a.Key.CompareTo b.Key ≤ 0)
        [taskAt timerCategory 5 1, taskAt timerCategory 15 2, taskAt timerCategory 16 3,
          taskAt timerCategory 25 4]
    ∧ (∃ token : PageToken,
        paginationFn 1 timerCategory 10
          (fun _ => Except.ok ⟨[taskAt timerCategory 5 1, taskAt timerCategory 15 2,
            taskAt timerCategory 16 3, taskAt timerCategory 25 4], some [1]⟩)
          ⟨⟨10, 0⟩, ⟨20, 0⟩⟩ none
        = Except.ok ([taskAt timerCategory 5 1, taskAt timerCategory 15 2,
            taskAt timerCategory 16 3, taskAt timerCategory 25 4].filter
              (fun t => Range.ContainsKey ⟨⟨10, 0⟩, ⟨20, 0⟩⟩ t.Key), token))
    ∧ paginationFn 1 timerCategory 10
        (fun _ => Except.ok ⟨[taskAt timerCategory 5 1, taskAt timerCategory 15 2,
          taskAt timerCategory 16 3, taskAt timerCategory 25 4], some [1]⟩)
        ⟨⟨10, 0⟩, ⟨20, 0⟩⟩ none
      = Except.ok ([taskAt timerCategory 15 2, taskAt timerCategory 16 3], none)
    ∧ Range.ContainsKey ⟨⟨10, 0⟩, ⟨20, 0⟩⟩ (taskAt timerCategory 25 2).Key = false
    ∧ paginationFn 1 timerCategory 10
        (fun _ => Except.ok ⟨[taskAt timerCategory 15 1, taskAt timerCategory 25 2,
          taskAt timerCategory 16 3], some [1]⟩)
        ⟨⟨10, 0⟩, ⟨20, 0⟩⟩ none
      = Except.ok ([taskAt timerCategory 15 1, taskAt timerCategory 25 2,
          taskAt timerCategory 16 3], some [1]) :=
  have hsorted : List.Pairwise (fun a b : Task => a.Key.CompareTo b.Key ≤ 0)
      [taskAt timerCategory 5 1, taskAt timerCategory 15 2, taskAt timerCategory 16 3,
        taskAt timerCategory 25 4] := by decide
  ⟨rfl, hsorted,
    (pagination_on_sorted_page_is_filter 1 timerCategory 10
      (fun _ => Except.ok ⟨[taskAt timerCategory 5 1, taskAt timerCategory 15 2,
        taskAt timerCategory 16 3, taskAt timerCategory 25 4], some [1]⟩)
      ⟨⟨10, 0⟩, ⟨20, 0⟩⟩ none _ rfl).1 hsorted,
    rfl, rfl, rfl⟩

end Queues
